import Mathlib

/-!
# Mixtape change engine

A shallow embedding of the Go packages `models`, `util` and `mixtape` of the
repository, followed by the properties of `ApplyChanges` and of the three
playlist operations.

Conventions of the embedding:

* a Go slice is a `List`; the code never keeps two live references to the same
  backing array, so value semantics is faithful;
* a Go `map[string]V` is a function `String → Option V` (`GoMap V`): the code
  only reads, writes and deletes single keys and never ranges over a map or
  takes its length.  A nil map and a missing key both read as `none`;
* a method with a pointer receiver takes the receiver value and returns the new
  one; a run-time panic is the `Except.error` result;
* the `util.Logger` interface value is the list of calls made on it so far.
-/

/-! ## Go maps -/

/-- A Go `map[string]V`, by its lookup function. -/
abbrev GoMap (V : Type) := String → Option V

namespace GoMap

/-- The map literal `map[string]V{}`. -/
def empty {V : Type} : GoMap V := fun _ => none

/-- The assignment `m[k] = v`. -/
def set {V : Type} (m : GoMap V) (k : String) (v : V) : GoMap V :=
  fun k' => if k' = k then some v else m k'

/-- The builtin `delete(m, k)`. -/
def delete {V : Type} (m : GoMap V) (k : String) : GoMap V :=
  fun k' => if k' = k then none else m k'

/-- The comma-ok read `_, exist := m[k]`. -/
def has {V : Type} (m : GoMap V) (k : String) : Bool := (m k).isSome

end GoMap

/-! ## Package `models` -/

namespace models

structure User where
  ID : String
  Name : String
deriving DecidableEq

structure Song where
  ID : String
  Artist : String
  Title : String
deriving DecidableEq

structure Playlist where
  ID : String
  UserID : String
  SongIDs : List String
deriving DecidableEq

structure Mixtape where
  Users : List User
  Playlists : List Playlist
  Songs : List Song
deriving DecidableEq

abbrev PlaylistChangeID := String

def Add : PlaylistChangeID := "add"

def Remove : PlaylistChangeID := "remove"

def AddSongs : PlaylistChangeID := "add_songs"

structure PlaylistChange where
  ID : PlaylistChangeID
  Playlist : models.Playlist
deriving DecidableEq

structure Changes where
  PlaylistChanges : List PlaylistChange
deriving DecidableEq

end models

/-! ## Package `util` -/

namespace util

/-- One call received by a `Logger`: the method and its arguments (every
argument the engine passes to `Printf` is a string). -/
inductive LogCall where
  | SetPrefix (p : String)
  | Printf (format : String) (v : List String)
deriving DecidableEq

/-- The `Logger` interface value, observed through the calls made on it, oldest
first. -/
abbrev Logger := List LogCall

def Logger.Printf (l : Logger) (format : String) (v : List String) : Logger :=
  l ++ [LogCall.Printf format v]

def Logger.SetPrefix (l : Logger) (p : String) : Logger :=
  l ++ [LogCall.SetPrefix p]

end util

/-! ## Package `mixtape` -/

namespace mixtape

/-- Hash maps used for constant time lookup (`type lookup struct`). -/
structure lookup where
  users : GoMap Nat
  songs : GoMap Nat
  playlists : GoMap Nat
  playlistSongs : GoMap (GoMap Bool)

/-- The engine (`type Mixtape struct`): the catalog it points to, its lookup and
its logger. -/
structure Mixtape where
  mixtape : models.Mixtape
  lookup : lookup
  logger : util.Logger

/-- The run-time panics the engine's statements can raise. -/
inductive Panic where
  | nilMapWrite
  | indexOutOfRange
deriving DecidableEq

/-- A Go `error` value; `nil` is `none`. -/
abbrev GoError := String

/-- What a method `func (m *Mixtape) f(...) error` does: it panics, or it leaves
the receiver in a new state and returns an `error`. -/
abbrev Result := Except Panic (Mixtape × Option GoError)

/-- The call `m.logger.Printf(format, v...)`. -/
def Mixtape.Printf (m : Mixtape) (format : String) (v : List String) : Mixtape :=
  { m with logger := m.logger.Printf format v }

/-- The call `m.logger.SetPrefix(p)`. -/
def Mixtape.SetPrefix (m : Mixtape) (p : String) : Mixtape :=
  { m with logger := util.Logger.SetPrefix m.logger p }

/-- The statements `if ps[id] == nil { ps[id] = map[string]bool{} }` and
`ps[id][songID] = true`, which `buildLookup` and `addPlaylist` run together. -/
def markSong (ps : GoMap (GoMap Bool)) (id songID : String) : GoMap (GoMap Bool) :=
  match ps id with
  | none => ps.set id (GoMap.empty.set songID true)
  | some inner => ps.set id (inner.set songID true)

/-- The loop `for i, user := range m.mixtape.Users` of `buildLookup`, from
index `i` on. -/
def buildLookup.users : List models.User → Nat → GoMap Nat → GoMap Nat
  | [], _, acc => acc
  | user :: rest, i, acc => buildLookup.users rest (i + 1) (acc.set user.ID i)

/-- The loop `for i, song := range m.mixtape.Songs` of `buildLookup`. -/
def buildLookup.songs : List models.Song → Nat → GoMap Nat → GoMap Nat
  | [], _, acc => acc
  | song :: rest, i, acc => buildLookup.songs rest (i + 1) (acc.set song.ID i)

/-- The inner loop `for _, songID := range playlist.SongIDs` of `buildLookup`. -/
def buildLookup.songIDs (id : String) : List String → GoMap (GoMap Bool) → GoMap (GoMap Bool)
  | [], ps => ps
  | songID :: rest, ps => buildLookup.songIDs id rest (markSong ps id songID)

/-- The loop `for i, playlist := range m.mixtape.Playlists` of `buildLookup`,
on the two maps it writes. -/
def buildLookup.playlists : List models.Playlist → Nat → GoMap Nat × GoMap (GoMap Bool) →
    GoMap Nat × GoMap (GoMap Bool)
  | [], _, acc => acc
  | playlist :: rest, i, acc =>
    buildLookup.playlists rest (i + 1)
      (acc.1.set playlist.ID i, buildLookup.songIDs playlist.ID playlist.SongIDs acc.2)

/-- The method `buildLookup`: it reads `m.mixtape` only and stores the value
returned here in `m.lookup`. -/
def buildLookup (mixtape : models.Mixtape) : lookup :=
  let pl := buildLookup.playlists mixtape.Playlists 0 (GoMap.empty, GoMap.empty)
  { users := buildLookup.users mixtape.Users 0 GoMap.empty
    songs := buildLookup.songs mixtape.Songs 0 GoMap.empty
    playlists := pl.1
    playlistSongs := pl.2 }

/-- The constructor `New`. -/
def New (mixtape : models.Mixtape) (logger : util.Logger) : Mixtape :=
  { mixtape := mixtape, lookup := buildLookup mixtape, logger := logger }

/-- The filtering loop of `addPlaylist`, with the engine and `validSongIDs` as
loop state. -/
def addPlaylist.filter (id : String) : List String → Mixtape × List String → Mixtape × List String
  | [], st => st
  | songID :: rest, (m, validSongIDs) =>
    if m.lookup.songs.has songID then
      addPlaylist.filter id rest
        ({ m with lookup := { m.lookup with
                              playlistSongs := markSong m.lookup.playlistSongs id songID } },
         validSongIDs ++ [songID])
    else
      addPlaylist.filter id rest
        (m.Printf "song_id %s not in mixtape, from playlist_id %s, skipping\n" [songID, id],
         validSongIDs)

/-- The method `addPlaylist`. -/
def addPlaylist (m : Mixtape) (playlist : models.Playlist) : Result :=
  let m := m.SetPrefix "[AddPlaylist] "
  let id := playlist.ID
  if id = "" then
    .ok (m.Printf "playlist_id missing, skipping\n" [], none)
  else if m.lookup.playlists.has id then
    .ok (m.Printf "playlist_id %s already exists, skipping\n" [id], none)
  else if playlist.UserID = "" then
    .ok (m.Printf "user_id missing, from playlist_id %s, skipping\n" [id], none)
  else if !m.lookup.users.has playlist.UserID then
    .ok (m.Printf "user_id %s not in mixtape, from playlist_id %s, skipping\n"
      [playlist.UserID, id], none)
  else if playlist.SongIDs.length = 0 then
    .ok (m.Printf "playlist_id %s does not contain any songs, skipping\n" [id], none)
  else
    let st := addPlaylist.filter id playlist.SongIDs (m, [])
    let m := st.1
    let validSongIDs := st.2
    if validSongIDs.length = 0 then
      .ok (m.Printf "playlist_id %s does not contain any songs from mixtape, skipping\n" [id],
        none)
    else
      let playlist := { playlist with SongIDs := validSongIDs }
      let m := { m with mixtape := { m.mixtape with
                                     Playlists := m.mixtape.Playlists ++ [playlist] } }
      let m := { m with lookup := { m.lookup with
                                    playlists := m.lookup.playlists.set id
                                      (m.mixtape.Playlists.length - 1) } }
      .ok (m.Printf "added playlist_id %s\n" [id], none)

/-- The method `removePlaylist`.  `i != l-1` is compared in `Int`, as `l-1` is
`-1` on an empty slice, and each slice index is checked. -/
def removePlaylist (m : Mixtape) (playlist : models.Playlist) : Result :=
  let m := m.SetPrefix "[RemovePlaylist] "
  let id := playlist.ID
  if id = "" then
    .ok (m.Printf "playlist_id missing, skipping\n" [], none)
  else
    match m.lookup.playlists id with
    | none => .ok (m.Printf "playlist_id %s not found, skipping\n" [id], none)
    | some i =>
      let playlists := m.mixtape.Playlists
      let l := playlists.length
      let swapped : Except Panic (List models.Playlist × GoMap Nat) :=
        if (i : Int) ≠ (l : Int) - 1 then
          match playlists[i]?, playlists[l - 1]? with
          | some a, some b =>
            .ok ((playlists.set i b).set (l - 1) a, m.lookup.playlists.set b.ID i)
          | _, _ => .error Panic.indexOutOfRange
        else
          .ok (playlists, m.lookup.playlists)
      match swapped with
      | .error e => .error e
      | .ok (playlists, byID) =>
        let m := { m with mixtape := { m.mixtape with Playlists := playlists.take (l - 1) } }
        let m := { m with lookup := { m.lookup with
                                      playlists := byID.delete id
                                      playlistSongs := m.lookup.playlistSongs.delete id } }
        .ok (m.Printf "removed playlist_id %s\n" [id], none)

/-- The loop of `addSongsToPlaylist` over the request's song ids, for the
playlist `id` found at index `i`. -/
def addSongsToPlaylist.loop (id : String) (i : Nat) : List String → Mixtape → Except Panic Mixtape
  | [], m => .ok m
  | songID :: rest, m =>
    if !m.lookup.songs.has songID then
      addSongsToPlaylist.loop id i rest
        (m.Printf "song_id %s not in mixtape, not added to playlist_id %s, skipping\n"
          [songID, id])
    else if ((m.lookup.playlistSongs id).bind (fun inner => inner songID)).isSome then
      addSongsToPlaylist.loop id i rest
        (m.Printf "song_id %s already in playlist_id %s, skipping\n" [songID, id])
    else
      match m.mixtape.Playlists[i]? with
      | none => .error Panic.indexOutOfRange
      | some p =>
        let m := { m with mixtape := { m.mixtape with
                                       Playlists := m.mixtape.Playlists.set i
                                         { p with SongIDs := p.SongIDs ++ [songID] } } }
        match m.lookup.playlistSongs id with
        | none => .error Panic.nilMapWrite
        | some inner =>
          let m := { m with lookup := { m.lookup with
                                        playlistSongs := m.lookup.playlistSongs.set id
                                          (inner.set songID true) } }
          addSongsToPlaylist.loop id i rest
            (m.Printf "added song_id %s to playlist_id %s\n" [songID, id])

/-- The method `addSongsToPlaylist`. -/
def addSongsToPlaylist (m : Mixtape) (playlist : models.Playlist) : Result :=
  let m := m.SetPrefix "[AddSongToPlaylist] "
  let id := playlist.ID
  if id = "" then
    .ok (m.Printf "playlist_id missing, skipping\n" [], none)
  else
    match m.lookup.playlists id with
    | none => .ok (m.Printf "playlist_id %s not found, skipping\n" [id], none)
    | some i =>
      match addSongsToPlaylist.loop id i playlist.SongIDs m with
      | .error e => .error e
      | .ok m => .ok (m, none)

/-- The loop of `ApplyChanges` over `changes.PlaylistChanges`: a switch on the
change id, returning early on a non-nil error. -/
def ApplyChanges.loop : List models.PlaylistChange → Mixtape → Result
  | [], m => .ok (m, none)
  | change :: rest, m =>
    if change.ID = models.Add then
      match addPlaylist m change.Playlist with
      | .error e => .error e
      | .ok (m, some err) => .ok (m, some err)
      | .ok (m, none) => ApplyChanges.loop rest m
    else if change.ID = models.Remove then
      match removePlaylist m change.Playlist with
      | .error e => .error e
      | .ok (m, some err) => .ok (m, some err)
      | .ok (m, none) => ApplyChanges.loop rest m
    else if change.ID = models.AddSongs then
      match addSongsToPlaylist m change.Playlist with
      | .error e => .error e
      | .ok (m, some err) => .ok (m, some err)
      | .ok (m, none) => ApplyChanges.loop rest m
    else
      ApplyChanges.loop rest m

/-- The method `ApplyChanges`. -/
def ApplyChanges (m : Mixtape) (changes : models.Changes) : Result :=
  ApplyChanges.loop changes.PlaylistChanges m

end mixtape

/-! ## Specification vocabulary -/

namespace mixtape

/-- Song ids of `songs` that are keys of the engine's song index, in order: what
the filtering loop of `addPlaylist` keeps. -/
def validSongs (m : Mixtape) (songs : List String) : List String :=
  songs.filter (fun s => m.lookup.songs.has s)

/-- The request passes every check of `addPlaylist`, read on the lookup as the
code does. -/
def addPlaylist.accepts (m : Mixtape) (p : models.Playlist) : Prop :=
  p.ID ≠ "" ∧ m.lookup.playlists.has p.ID = false ∧ p.UserID ≠ "" ∧
    m.lookup.users.has p.UserID = true ∧ validSongs m p.SongIDs ≠ []

instance (m : Mixtape) (p : models.Playlist) : Decidable (addPlaylist.accepts m p) := by
  unfold addPlaylist.accepts; infer_instance

/-- The catalog and lookup `addPlaylist` leaves when it accepts `p`. -/
def addPlaylist.accepted (m : Mixtape) (p : models.Playlist) (lg : util.Logger) : Mixtape :=
  { mixtape := { m.mixtape with
                 Playlists := m.mixtape.Playlists ++
                   [{ p with SongIDs := validSongs m p.SongIDs }] }
    lookup := { m.lookup with
                playlists := m.lookup.playlists.set p.ID m.mixtape.Playlists.length
                playlistSongs :=
                  buildLookup.songIDs p.ID (validSongs m p.SongIDs) m.lookup.playlistSongs }
    logger := lg }

/-- The engine `removePlaylist` leaves when it removes the playlist `id`, given
the playlists slice after the swap and the position map after its update. -/
def removePlaylist.removed (m : Mixtape) (id : String) (playlists : List models.Playlist)
    (byID : GoMap Nat) (lg : util.Logger) : Mixtape :=
  { mixtape := { m.mixtape with
                 Playlists := playlists.take (m.mixtape.Playlists.length - 1) }
    lookup := { m.lookup with
                playlists := byID.delete id
                playlistSongs := m.lookup.playlistSongs.delete id }
    logger := lg }

/-- The comma-ok read `_, exist = m.lookup.playlistSongs[id][songID]`: a read
of a nil inner map finds nothing. -/
def Mixtape.hasSong (m : Mixtape) (id songID : String) : Bool :=
  ((m.lookup.playlistSongs id).bind (fun inner => inner songID)).isSome

/-- The song ids the loop of `addSongsToPlaylist` appends, in order, given the
test for a known song and the membership test of the playlist at loop entry. -/
def addSongsToPlaylist.appended (known : String → Bool) :
    (String → Bool) → List String → List String
  | _, [] => []
  | member, s :: rest =>
    if known s && !member s then
      s :: addSongsToPlaylist.appended known (fun x => x == s || member x) rest
    else
      addSongsToPlaylist.appended known member rest

/-- The playlists slice with `added` appended to the song ids of the playlist at
index `i`. -/
def appendSongsAt (playlists : List models.Playlist) (i : Nat) (added : List String) :
    List models.Playlist :=
  match playlists[i]? with
  | none => playlists
  | some p => playlists.set i { p with SongIDs := p.SongIDs ++ added }

/-- The membership index with `added` marked in the set of playlist `id`. -/
def markSongsAt (ps : GoMap (GoMap Bool)) (id : String) (added : List String) :
    GoMap (GoMap Bool) :=
  match ps id with
  | none => ps
  | some inner => ps.set id (fun x => if x ∈ added then some true else inner x)

/-- The song ids `addSongsToPlaylist` appends for the request `p`. -/
def addSongsToPlaylist.added (m : Mixtape) (p : models.Playlist) : List String :=
  addSongsToPlaylist.appended m.lookup.songs.has (m.hasSong p.ID) p.SongIDs

/-- What no operation touches: the users and songs of the catalog and their two
indices. -/
def Frame (m m' : Mixtape) : Prop :=
  m'.mixtape.Users = m.mixtape.Users ∧ m'.mixtape.Songs = m.mixtape.Songs ∧
    m'.lookup.users = m.lookup.users ∧ m'.lookup.songs = m.lookup.songs

/-! ### The catalog and change lists of the test suite -/

/-- The catalog every test of `playlist_test.go` starts from. -/
def fixture.catalog : models.Mixtape :=
  { Users := [⟨"user_1", "test_user_1"⟩, ⟨"user_2", "test_user_2"⟩, ⟨"user_3", "test_user_3"⟩]
    Playlists := [⟨"playlist_1", "user_1", ["song_1", "song_2"]⟩,
                  ⟨"playlist_2", "user_3", ["song_3"]⟩]
    Songs := [⟨"song_1", "some_artist", "test_song_1"⟩,
              ⟨"song_2", "some_other_artist", "test_song_2"⟩,
              ⟨"song_3", "another_artist", "test_song_3"⟩] }

/-- The change list of the test "add, update": a playlist is added and songs
are added to it. -/
def fixture.addUpdate : models.Changes :=
  { PlaylistChanges :=
      [⟨models.Add, ⟨"playlist_x", "user_1", ["song_3"]⟩⟩,
       ⟨models.AddSongs, ⟨"playlist_x", "", ["song_1", "song_3"]⟩⟩] }

/-- The change list of the test "update, add, remove". -/
def fixture.composite : models.Changes :=
  { PlaylistChanges :=
      [⟨models.AddSongs, ⟨"playlist_2", "", ["song_1", "song_x"]⟩⟩,
       ⟨models.AddSongs, ⟨"playlist_2", "", ["song_1"]⟩⟩,
       ⟨models.AddSongs, ⟨"playlist_1", "", ["song_2", "song_3"]⟩⟩,
       ⟨models.Add, ⟨"playlist_x", "user_1", ["song_x", "song_1"]⟩⟩,
       ⟨models.Add, ⟨"playlist_y", "user_2", ["song_2"]⟩⟩,
       ⟨models.Add, ⟨"playlist_z", "user_1", ["song_z"]⟩⟩,
       ⟨models.Add, ⟨"playlist_a", "user_1", ["song_3"]⟩⟩,
       ⟨models.Add, ⟨"playlist_b", "user_b", ["song_3"]⟩⟩,
       ⟨models.Add, ⟨"playlist_c", "user_1", ["song_3"]⟩⟩,
       ⟨models.Remove, ⟨"playlist_c", "", []⟩⟩,
       ⟨models.Remove, ⟨"playlist_1", "", []⟩⟩,
       ⟨models.Add, ⟨"playlist_d", "user_1", ["song_3"]⟩⟩,
       ⟨models.Add, ⟨"playlist_e", "user_1", ["song_3"]⟩⟩,
       ⟨models.Remove, ⟨"playlist_d", "", []⟩⟩] }

/-- Three `add` requests: one without songs, one with an unknown song only, one
with an unknown and a known song. -/
def fixture.emptyAdds : models.Changes :=
  { PlaylistChanges :=
      [⟨models.Add, ⟨"playlist_x", "user_1", []⟩⟩,
       ⟨models.Add, ⟨"playlist_y", "user_1", ["song_x"]⟩⟩,
       ⟨models.Add, ⟨"playlist_z", "user_1", ["song_x", "song_2"]⟩⟩] }

/-- A catalog whose only playlist lists no song. -/
def fixture.emptyPlaylistCatalog : models.Mixtape :=
  { Users := [⟨"user_1", "test_user_1"⟩]
    Playlists := [⟨"playlist_1", "user_1", []⟩]
    Songs := [⟨"song_1", "some_artist", "test_song_1"⟩] }

/-- One `add_songs` request, of a known song to `playlist_1`. -/
def fixture.addKnownSong : models.Changes :=
  { PlaylistChanges := [⟨models.AddSongs, ⟨"playlist_1", "", ["song_1"]⟩⟩] }

/-- The playlist of the test "when one of the songs in the new playlist does not
exist in the mixtape". -/
def fixture.playlistX : models.Playlist :=
  ⟨"playlist_x", "user_1", ["song_1", "song_x"]⟩

/-- The playlist of the test "when the new playlist does not contain any songs
from mixtape". -/
def fixture.playlistUnknownSongs : models.Playlist :=
  ⟨"playlist_x", "user_1", ["song_x", "song_y"]⟩

/-! ### Coherence of the lookup with the catalog -/

/-- The playlists of the catalog have pairwise distinct ids. -/
def DistinctIDs (playlists : List models.Playlist) : Prop :=
  (playlists.map models.Playlist.ID).Nodup

instance (playlists : List models.Playlist) : Decidable (DistinctIDs playlists) := by
  unfold DistinctIDs; infer_instance

/-- The position index maps an id to `i` exactly when the playlist at index `i`
has that id. -/
def PositionsCoherent (m : Mixtape) : Prop :=
  ∀ id i, m.lookup.playlists id = some i ↔
    ∃ p, m.mixtape.Playlists[i]? = some p ∧ p.ID = id

/-- The membership set of a playlist with the song ids `songs`: no set (a nil
map) for a playlist without songs, else the set of its song ids. -/
def memberSet (songs : List String) : Option (GoMap Bool) :=
  if songs = [] then none else some (fun s => if s ∈ songs then some true else none)

/-- The membership index holds, for each playlist of the catalog, the set of
its song ids, and nothing for other ids. -/
def MembersCoherent (m : Mixtape) : Prop :=
  (∀ p ∈ m.mixtape.Playlists, m.lookup.playlistSongs p.ID = memberSet p.SongIDs) ∧
    ∀ id, (∀ p ∈ m.mixtape.Playlists, p.ID ≠ id) → m.lookup.playlistSongs id = none

/-- The invariant of the engine on a catalog with distinct playlist ids. -/
def Coherent (m : Mixtape) : Prop :=
  DistinctIDs m.mixtape.Playlists ∧ PositionsCoherent m ∧ MembersCoherent m

/-- One `add` request that lists the known song `song_1` twice. -/
def fixture.addRepeatedSong : models.Changes :=
  { PlaylistChanges := [⟨models.Add, ⟨"playlist_x", "user_1", ["song_1", "song_1"]⟩⟩] }

/-- A catalog in which two playlists share the id `playlist_q`; no playlist
lists a song twice. -/
def fixture.sharedIDCatalog : models.Mixtape :=
  { Users := [⟨"user_1", "test_user_1"⟩]
    Playlists := [⟨"playlist_a", "user_1", ["song_1"]⟩, ⟨"playlist_b", "user_1", ["song_1"]⟩,
                  ⟨"playlist_q", "user_1", ["song_1"]⟩, ⟨"playlist_q", "user_1", ["song_2"]⟩]
    Songs := [⟨"song_1", "some_artist", "test_song_1"⟩,
              ⟨"song_2", "some_other_artist", "test_song_2"⟩] }

/-- A change list without repeated songs that, on `fixture.sharedIDCatalog`,
brings the first `playlist_q` back under the membership set of a later one. -/
def fixture.sharedIDChanges : models.Changes :=
  { PlaylistChanges :=
      [⟨models.Remove, ⟨"playlist_q", "", []⟩⟩,
       ⟨models.Add, ⟨"playlist_q", "user_1", ["song_2"]⟩⟩,
       ⟨models.Remove, ⟨"playlist_a", "", []⟩⟩,
       ⟨models.Remove, ⟨"playlist_b", "", []⟩⟩,
       ⟨models.AddSongs, ⟨"playlist_q", "", ["song_1"]⟩⟩] }

/-- The engine states: the ones `New` builds, and the ones a call of
`ApplyChanges` that returns leaves. -/
inductive Reachable : Mixtape → Prop
  | new (mixtape : models.Mixtape) (logger : util.Logger) : Reachable (New mixtape logger)
  | apply (m m' : Mixtape) (changes : models.Changes) (err : Option GoError) :
      Reachable m → ApplyChanges m changes = .ok (m', err) → Reachable m'

/-- A catalog whose only playlist has the empty id. -/
def fixture.unnamedCatalog : models.Mixtape :=
  { Users := [⟨"user_1", "test_user_1"⟩]
    Playlists := [⟨"", "user_1", ["song_1"]⟩]
    Songs := [⟨"song_1", "some_artist", "test_song_1"⟩,
              ⟨"song_2", "some_other_artist", "test_song_2"⟩] }

/-- A catalog whose two playlists share the id `playlist_q`. -/
def fixture.twinCatalog : models.Mixtape :=
  { Users := [⟨"user_1", "test_user_1"⟩]
    Playlists := [⟨"playlist_q", "user_1", ["song_1"]⟩, ⟨"playlist_q", "user_1", ["song_2"]⟩]
    Songs := [⟨"song_1", "some_artist", "test_song_1"⟩,
              ⟨"song_2", "some_other_artist", "test_song_2"⟩] }

/-! ### The songs an `add_songs` request adds, in the words of the spec -/

/-- The first occurrence of each entry of a list, in the order of the list. -/
def firstOccurrences : List String → List String
  | [] => []
  | s :: rest => s :: (firstOccurrences rest).filter (fun x => x ≠ s)

/-- The first occurrence, in request order, of each requested song id that is
the id of a song of the catalog and is not among `members`. -/
def newSongs (songs : List models.Song) (members requested : List String) : List String :=
  firstOccurrences (requested.filter
    (fun s => decide (s ∈ songs.map models.Song.ID) && !decide (s ∈ members)))

/-- The request of the test "when the playlist contains songs that are already
in the playlist". -/
def fixture.knownMembers : models.Playlist :=
  ⟨"playlist_2", "", ["song_3"]⟩

/-- The request of the test "when user ID is provided". -/
def fixture.withUserID : models.Playlist :=
  ⟨"playlist_1", "user_x", ["song_3"]⟩

/-- A change request whose kind is none of the three the switch of
`ApplyChanges` handles. -/
def fixture.renameChange : models.PlaylistChange :=
  ⟨"rename", ⟨"playlist_1", "user_1", ["song_3"]⟩⟩

/-- An `add_songs` request to `playlist_2` that repeats the new song `song_1`,
and lists `song_3`, which the playlist has. -/
def fixture.repeatedNewSong : models.Playlist :=
  ⟨"playlist_2", "", ["song_1", "song_3", "song_1", "song_1"]⟩

/-- An `add` request that lists the known song `song_1` twice, around an
unknown song. -/
def fixture.repeatedSongPlaylist : models.Playlist :=
  ⟨"playlist_x", "user_1", ["song_1", "song_x", "song_1"]⟩

/-- The number of log lines a logger has received: one per `Printf` call (each
format of the engine is one line, ended by its only newline). -/
def logLines (l : util.Logger) : Nat :=
  l.countP (fun c => match c with
    | util.LogCall.Printf _ _ => true
    | util.LogCall.SetPrefix _ => false)

end mixtape

/-! ## Properties -/

namespace mixtape

theorem GoMap_set_same {V : Type} (f : GoMap V) (k : String) (v : V) : f.set k v k = some v := by
  simp [GoMap.set]

theorem GoMap_set_other {V : Type} (f : GoMap V) (k k' : String) (v : V) (h : k' ≠ k) :
    f.set k v k' = f k' := by
  simp [GoMap.set, h]

theorem GoMap_delete_same {V : Type} (f : GoMap V) (k : String) : f.delete k k = none := by
  simp [GoMap.delete]

theorem GoMap_delete_other {V : Type} (f : GoMap V) (k k' : String) (h : k' ≠ k) :
    f.delete k k' = f k' := by
  simp [GoMap.delete, h]

/-! ### The filtering loop of `addPlaylist` -/

theorem addPlaylist_filter_mixtape (id : String) (songs : List String) :
    ∀ (m : Mixtape) (v : List String),
      (addPlaylist.filter id songs (m, v)).1.mixtape = m.mixtape := by
  induction songs with
  | nil => intro m v; rfl
  | cons s rest ih =>
    intro m v
    unfold addPlaylist.filter
    split <;> simp [ih, Mixtape.Printf]

theorem addPlaylist_filter_lookup (id : String) (songs : List String) :
    ∀ (m : Mixtape) (v : List String),
      (addPlaylist.filter id songs (m, v)).1.lookup =
        { m.lookup with
          playlistSongs := buildLookup.songIDs id (validSongs m songs) m.lookup.playlistSongs } := by
  induction songs with
  | nil => intro m v; rfl
  | cons s rest ih =>
    intro m v
    unfold addPlaylist.filter
    by_cases h : m.lookup.songs.has s = true
    · simp [h, ih, validSongs, buildLookup.songIDs]
    · simp [h, ih, validSongs, Mixtape.Printf]

theorem addPlaylist_filter_valid (id : String) (songs : List String) :
    ∀ (m : Mixtape) (v : List String),
      (addPlaylist.filter id songs (m, v)).2 = v ++ validSongs m songs := by
  induction songs with
  | nil => intro m v; simp [addPlaylist.filter, validSongs]
  | cons s rest ih =>
    intro m v
    unfold addPlaylist.filter
    by_cases h : m.lookup.songs.has s = true
    · simp [h, ih, validSongs]
    · simp [h, ih, validSongs, Mixtape.Printf]

theorem validSongs_SetPrefix (m : Mixtape) (s : String) (songs : List String) :
    validSongs (m.SetPrefix s) songs = validSongs m songs := rfl

theorem addPlaylist_rejected (m : Mixtape) (p : models.Playlist)
    (h : ¬ addPlaylist.accepts m p) :
    ∃ lg, addPlaylist m p = .ok ({ m with logger := lg }, none) := by
  unfold addPlaylist
  simp only []
  by_cases h1 : p.ID = ""
  · exact ⟨_, by simp [h1, Mixtape.Printf, Mixtape.SetPrefix]; rfl⟩
  by_cases h2 : m.lookup.playlists.has p.ID = true
  · exact ⟨_, by simp [h1, h2, Mixtape.Printf, Mixtape.SetPrefix]; rfl⟩
  by_cases h3 : p.UserID = ""
  · exact ⟨_, by simp [h1, h2, h3, Mixtape.Printf, Mixtape.SetPrefix]; rfl⟩
  by_cases h4 : m.lookup.users.has p.UserID = true
  swap
  · exact ⟨_, by simp [h1, h2, h3, h4, Mixtape.Printf, Mixtape.SetPrefix]; rfl⟩
  have h5 : validSongs m p.SongIDs = [] := by
    by_contra h5
    exact h ⟨h1, by simpa using h2, h3, h4, h5⟩
  by_cases h6 : p.SongIDs.length = 0
  · exact ⟨_, by simp [h1, h2, h3, h4, h6, Mixtape.Printf, Mixtape.SetPrefix]; rfl⟩
  refine ⟨(addPlaylist.filter p.ID p.SongIDs (m.SetPrefix "[AddPlaylist] ", [])).1.logger.Printf
    "playlist_id %s does not contain any songs from mixtape, skipping\n" [p.ID], ?_⟩
  have hm := addPlaylist_filter_mixtape p.ID p.SongIDs (m.SetPrefix "[AddPlaylist] ") []
  have hl := addPlaylist_filter_lookup p.ID p.SongIDs (m.SetPrefix "[AddPlaylist] ") []
  have hv := addPlaylist_filter_valid p.ID p.SongIDs (m.SetPrefix "[AddPlaylist] ") []
  rw [validSongs_SetPrefix, h5] at hv hl
  simp only [Mixtape.SetPrefix] at h1 h2 h3 h4 h6 hm hl hv ⊢
  simp only [h1, h2, h3, h4, h6, hv, if_false, if_true, Bool.not_true, List.nil_append,
    List.length_nil, Mixtape.Printf]
  simp [Mixtape.mk.injEq, hm, hl, buildLookup.songIDs]

theorem addPlaylist_accepted (m : Mixtape) (p : models.Playlist)
    (h : addPlaylist.accepts m p) :
    ∃ lg, addPlaylist m p = .ok (addPlaylist.accepted m p lg, none) := by
  obtain ⟨h1, h2, h3, h4, h5⟩ := h
  have h6 : ¬ p.SongIDs.length = 0 := by
    intro h6
    rw [List.length_eq_zero] at h6
    simp [h6, validSongs] at h5
  have h7 : ¬ (validSongs m p.SongIDs).length = 0 := by
    rw [List.length_eq_zero]; exact h5
  refine ⟨(addPlaylist.filter p.ID p.SongIDs (m.SetPrefix "[AddPlaylist] ", [])).1.logger.Printf
    "added playlist_id %s\n" [p.ID], ?_⟩
  have hm := addPlaylist_filter_mixtape p.ID p.SongIDs (m.SetPrefix "[AddPlaylist] ") []
  have hl := addPlaylist_filter_lookup p.ID p.SongIDs (m.SetPrefix "[AddPlaylist] ") []
  have hv := addPlaylist_filter_valid p.ID p.SongIDs (m.SetPrefix "[AddPlaylist] ") []
  rw [validSongs_SetPrefix] at hv hl
  unfold addPlaylist
  simp only [Mixtape.SetPrefix] at h1 h2 h3 h4 h6 hm hl hv ⊢
  simp only [h1, h2, h3, h4, h6, h7, hv, if_false, if_true, Bool.not_true, List.nil_append,
    Mixtape.Printf, addPlaylist.accepted, Bool.false_eq_true]
  simp [Mixtape.mk.injEq, hm, hl]

/-- Every call of `addPlaylist` returns, with a nil error. -/
theorem addPlaylist_total (m : Mixtape) (p : models.Playlist) :
    ∃ m', addPlaylist m p = .ok (m', none) := by
  by_cases h : addPlaylist.accepts m p
  · obtain ⟨lg, e⟩ := addPlaylist_accepted m p h
    exact ⟨_, e⟩
  · obtain ⟨lg, e⟩ := addPlaylist_rejected m p h
    exact ⟨_, e⟩

/-- The two outcomes of `addPlaylist`. -/
theorem addPlaylist_cases (m m' : Mixtape) (p : models.Playlist) (err : Option GoError)
    (h : addPlaylist m p = .ok (m', err)) :
    err = none ∧
      ((¬ addPlaylist.accepts m p ∧ ∃ lg, m' = { m with logger := lg }) ∨
        (addPlaylist.accepts m p ∧ ∃ lg, m' = addPlaylist.accepted m p lg)) := by
  by_cases ha : addPlaylist.accepts m p
  · obtain ⟨lg, e⟩ := addPlaylist_accepted m p ha
    rw [e] at h
    simp only [Except.ok.injEq, Prod.mk.injEq] at h
    exact ⟨h.2.symm, Or.inr ⟨ha, lg, h.1.symm⟩⟩
  · obtain ⟨lg, e⟩ := addPlaylist_rejected m p ha
    rw [e] at h
    simp only [Except.ok.injEq, Prod.mk.injEq] at h
    exact ⟨h.2.symm, Or.inl ⟨ha, lg, h.1.symm⟩⟩

/-- The outcomes of `removePlaylist` when it returns: a skip, the removal of the
last playlist, or a swap with the last playlist and its removal. -/
theorem removePlaylist_cases (m m' : Mixtape) (p : models.Playlist) (err : Option GoError)
    (h : removePlaylist m p = .ok (m', err)) :
    err = none ∧
      (((p.ID = "" ∨ m.lookup.playlists p.ID = none) ∧ ∃ lg, m' = { m with logger := lg }) ∨
        (p.ID ≠ "" ∧ ∃ i, m.lookup.playlists p.ID = some i ∧
          i + 1 = m.mixtape.Playlists.length ∧
          ∃ lg, m' = removePlaylist.removed m p.ID m.mixtape.Playlists m.lookup.playlists lg) ∨
        (p.ID ≠ "" ∧ ∃ i a b, m.lookup.playlists p.ID = some i ∧
          i + 1 ≠ m.mixtape.Playlists.length ∧
          m.mixtape.Playlists[i]? = some a ∧
          m.mixtape.Playlists[m.mixtape.Playlists.length - 1]? = some b ∧
          ∃ lg, m' = removePlaylist.removed m p.ID
            ((m.mixtape.Playlists.set i b).set (m.mixtape.Playlists.length - 1) a)
            (m.lookup.playlists.set b.ID i) lg)) := by
  unfold removePlaylist at h
  simp only [Mixtape.SetPrefix, Mixtape.Printf] at h
  by_cases h1 : p.ID = ""
  · simp only [h1, if_true, Except.ok.injEq, Prod.mk.injEq] at h
    exact ⟨h.2.symm, Or.inl ⟨Or.inl h1, _, h.1.symm⟩⟩
  simp only [h1, if_false] at h
  cases hi : m.lookup.playlists p.ID with
  | none =>
    simp only [hi, Except.ok.injEq, Prod.mk.injEq] at h
    exact ⟨h.2.symm, Or.inl ⟨Or.inr rfl, _, h.1.symm⟩⟩
  | some i =>
    simp only [hi] at h
    by_cases hl : (i : Int) ≠ (m.mixtape.Playlists.length : Int) - 1
    · have hl' : i + 1 ≠ m.mixtape.Playlists.length := by omega
      rw [if_pos hl] at h
      cases ha : m.mixtape.Playlists[i]? with
      | none => simp [ha] at h
      | some a =>
        cases hb : m.mixtape.Playlists[m.mixtape.Playlists.length - 1]? with
        | none => simp [ha, hb] at h
        | some b =>
          simp only [ha, hb, Except.ok.injEq, Prod.mk.injEq] at h
          exact ⟨h.2.symm, Or.inr (Or.inr ⟨h1, i, a, b, rfl, hl', ha, rfl, _, h.1.symm⟩)⟩
    · have hl' : i + 1 = m.mixtape.Playlists.length := by omega
      rw [if_neg hl] at h
      simp only [Except.ok.injEq, Prod.mk.injEq] at h
      exact ⟨h.2.symm, Or.inr (Or.inl ⟨h1, i, rfl, hl', _, h.1.symm⟩)⟩

theorem appendSongsAt_nil (pls : List models.Playlist) (i : Nat) : appendSongsAt pls i [] = pls := by
  unfold appendSongsAt
  cases h : pls[i]? with
  | none => rfl
  | some p =>
    simp only [List.append_nil]
    apply List.ext_getElem?
    intro n
    by_cases hn : i = n
    · subst hn
      have hi : i < pls.length := by
        by_contra hc
        rw [List.getElem?_eq_none (by omega)] at h
        cases h
      rw [List.getElem?_set_self hi, h]
    · rw [List.getElem?_set_ne hn]

theorem markSongsAt_nil (ps : GoMap (GoMap Bool)) (id : String) : markSongsAt ps id [] = ps := by
  unfold markSongsAt
  cases h : ps id with
  | none => rfl
  | some inner =>
    funext k
    by_cases hk : k = id
    · subst hk; simp [GoMap.set, h]
    · simp [GoMap.set, hk]

theorem appendSongsAt_cons (pls : List models.Playlist) (i : Nat) (p : models.Playlist)
    (s : String) (rest : List String) (h : pls[i]? = some p) :
    appendSongsAt (pls.set i { p with SongIDs := p.SongIDs ++ [s] }) i rest =
      appendSongsAt pls i (s :: rest) := by
  have hi : i < pls.length := by
    by_contra hc
    rw [List.getElem?_eq_none (by omega)] at h
    cases h
  unfold appendSongsAt
  rw [List.getElem?_set_self hi, h]
  simp [List.set_set]

theorem markSongsAt_cons (ps : GoMap (GoMap Bool)) (id : String) (inner : GoMap Bool)
    (s : String) (rest : List String) (h : ps id = some inner) :
    markSongsAt (ps.set id (inner.set s true)) id rest = markSongsAt ps id (s :: rest) := by
  unfold markSongsAt
  rw [GoMap_set_same, h]
  funext k
  by_cases hk : k = id
  · subst hk
    simp only [GoMap.set, if_true, Option.some.injEq]
    funext x
    by_cases hx : x = s
    · simp [hx]
    · simp [hx]
  · simp [GoMap.set, hk]

theorem hasSong_Printf (m : Mixtape) (f : String) (v : List String) (id : String) :
    (m.Printf f v).hasSong id = m.hasSong id := rfl

/-- What the loop of `addSongsToPlaylist` leaves when it returns: the songs of
`addSongsToPlaylist.appended` are appended to the playlist at `i` and marked in
the membership set of `id`; nothing else of catalog and lookup changes. -/
theorem addSongsToPlaylist_loop_spec (id : String) (i : Nat) (songs : List String) :
    ∀ (m m' : Mixtape), addSongsToPlaylist.loop id i songs m = .ok m' →
      m'.mixtape = { m.mixtape with
                     Playlists := appendSongsAt m.mixtape.Playlists i
                       (addSongsToPlaylist.appended m.lookup.songs.has (m.hasSong id) songs) } ∧
      m'.lookup = { m.lookup with
                    playlistSongs := markSongsAt m.lookup.playlistSongs id
                      (addSongsToPlaylist.appended m.lookup.songs.has (m.hasSong id) songs) } ∧
      (addSongsToPlaylist.appended m.lookup.songs.has (m.hasSong id) songs ≠ [] →
        (∃ p, m.mixtape.Playlists[i]? = some p) ∧ ∃ inner, m.lookup.playlistSongs id = some inner) := by
  induction songs with
  | nil =>
    intro m m' h
    simp only [addSongsToPlaylist.loop, Except.ok.injEq] at h
    subst h
    simp [addSongsToPlaylist.appended, appendSongsAt_nil, markSongsAt_nil]
  | cons s rest ih =>
    intro m m' h
    unfold addSongsToPlaylist.loop at h
    by_cases hk : m.lookup.songs.has s = true
    swap
    · simp only [hk, Bool.not_false, if_true] at h
      have := ih _ _ h
      simpa [addSongsToPlaylist.appended, hk, Mixtape.Printf, hasSong_Printf] using this
    simp only [hk, Bool.not_true, Bool.false_eq_true, if_false] at h
    by_cases hm : m.hasSong id s = true
    · have hm' : ((m.lookup.playlistSongs id).bind (fun inner => inner s)).isSome = true := hm
      simp only [hm', if_true] at h
      have := ih _ _ h
      simpa [addSongsToPlaylist.appended, hk, hm, Mixtape.Printf, hasSong_Printf] using this
    have hm' : ¬ ((m.lookup.playlistSongs id).bind (fun inner => inner s)).isSome = true := hm
    simp only [hm', if_false] at h
    cases hp : m.mixtape.Playlists[i]? with
    | none => simp [hp] at h
    | some p =>
      cases hin : m.lookup.playlistSongs id with
      | none => simp [hp, hin] at h
      | some inner =>
        simp only [hp, hin] at h
        have := ih _ _ h
        obtain ⟨e1, e2, _⟩ := this
        have hmem : (Mixtape.hasSong
            (Mixtape.Printf
              { mixtape := { m.mixtape with
                             Playlists := m.mixtape.Playlists.set i
                               { p with SongIDs := p.SongIDs ++ [s] } }
                lookup := { m.lookup with
                            playlistSongs := m.lookup.playlistSongs.set id (inner.set s true) }
                logger := m.logger }
              "added song_id %s to playlist_id %s\n" [s, id]) id) =
            (fun x => x == s || m.hasSong id x) := by
          funext x
          simp only [Mixtape.hasSong, Mixtape.Printf, GoMap_set_same, hin, Option.some_bind]
          by_cases hx : x = s
          · simp [GoMap.set, hx]
          · simp [GoMap.set, hx]
        rw [hmem] at e1 e2
        simp only [Mixtape.Printf] at e1 e2
        have happ : addSongsToPlaylist.appended m.lookup.songs.has (m.hasSong id) (s :: rest) =
            s :: addSongsToPlaylist.appended m.lookup.songs.has
              (fun x => x == s || m.hasSong id x) rest := by
          simp [addSongsToPlaylist.appended, hk, hm]
        rw [happ]
        refine ⟨?_, ?_, fun _ => ⟨⟨p, rfl⟩, inner, rfl⟩⟩
        · rw [e1, appendSongsAt_cons _ _ _ _ _ hp]
        · rw [e2, markSongsAt_cons _ _ _ _ _ hin]

/-- The outcomes of `addSongsToPlaylist` when it returns: a skip, or the songs
of `addSongsToPlaylist.added` appended to the indexed playlist. -/
theorem addSongsToPlaylist_cases (m m' : Mixtape) (p : models.Playlist) (err : Option GoError)
    (h : addSongsToPlaylist m p = .ok (m', err)) :
    err = none ∧
      (((p.ID = "" ∨ m.lookup.playlists p.ID = none) ∧ ∃ lg, m' = { m with logger := lg }) ∨
        (p.ID ≠ "" ∧ ∃ i, m.lookup.playlists p.ID = some i ∧
          m'.mixtape = { m.mixtape with
                         Playlists := appendSongsAt m.mixtape.Playlists i
                           (addSongsToPlaylist.added m p) } ∧
          m'.lookup = { m.lookup with
                        playlistSongs := markSongsAt m.lookup.playlistSongs p.ID
                          (addSongsToPlaylist.added m p) } ∧
          (addSongsToPlaylist.added m p ≠ [] →
            (∃ q, m.mixtape.Playlists[i]? = some q) ∧
              ∃ inner, m.lookup.playlistSongs p.ID = some inner))) := by
  unfold addSongsToPlaylist at h
  simp only [Mixtape.SetPrefix, Mixtape.Printf] at h
  by_cases h1 : p.ID = ""
  · simp only [h1, if_true, Except.ok.injEq, Prod.mk.injEq] at h
    exact ⟨h.2.symm, Or.inl ⟨Or.inl h1, _, h.1.symm⟩⟩
  simp only [h1, if_false] at h
  cases hi : m.lookup.playlists p.ID with
  | none =>
    simp only [hi, Except.ok.injEq, Prod.mk.injEq] at h
    exact ⟨h.2.symm, Or.inl ⟨Or.inr rfl, _, h.1.symm⟩⟩
  | some i =>
    simp only [hi] at h
    cases hl : addSongsToPlaylist.loop p.ID i p.SongIDs
        { mixtape := m.mixtape, lookup := m.lookup,
          logger := util.Logger.SetPrefix m.logger "[AddSongToPlaylist] " } with
    | error e => simp [hl] at h
    | ok m1 =>
      simp only [hl, Except.ok.injEq, Prod.mk.injEq] at h
      obtain ⟨rfl, rfl⟩ := h
      exact ⟨rfl, Or.inr ⟨h1, i, rfl, addSongsToPlaylist_loop_spec _ _ _
        { mixtape := m.mixtape, lookup := m.lookup,
          logger := util.Logger.SetPrefix m.logger "[AddSongToPlaylist] " } _ hl⟩⟩

/-- Invariant rule for `ApplyChanges`: a property of the engine kept by every
operation that returns, on the requests of the list, holds when the loop
returns. -/
theorem ApplyChanges_loop_invariant (P : Mixtape → Prop) (cs : List models.PlaylistChange)
    (hadd : ∀ c ∈ cs, c.ID = models.Add → ∀ m m' err, P m →
      addPlaylist m c.Playlist = .ok (m', err) → P m')
    (hrem : ∀ c ∈ cs, ∀ m m' err, P m → removePlaylist m c.Playlist = .ok (m', err) → P m')
    (hsongs : ∀ c ∈ cs, ∀ m m' err, P m →
      addSongsToPlaylist m c.Playlist = .ok (m', err) → P m') :
    ∀ m m' err, P m → ApplyChanges.loop cs m = .ok (m', err) → P m' := by
  induction cs with
  | nil =>
    intro m m' err hP h
    simp only [ApplyChanges.loop, Except.ok.injEq, Prod.mk.injEq] at h
    exact h.1 ▸ hP
  | cons c rest ih =>
    have ih' := ih (fun c hc => hadd c (List.mem_cons_of_mem _ hc))
      (fun c hc => hrem c (List.mem_cons_of_mem _ hc))
      (fun c hc => hsongs c (List.mem_cons_of_mem _ hc))
    intro m m' err hP h
    unfold ApplyChanges.loop at h
    split at h
    · rename_i hc
      cases hr : addPlaylist m c.Playlist with
      | error e => simp [hr] at h
      | ok r =>
        obtain ⟨m1, e1⟩ := r
        have hP1 := hadd c (List.mem_cons_self _ _) hc m m1 e1 hP hr
        cases e1 with
        | none => simp only [hr] at h; exact ih' _ _ _ hP1 h
        | some e =>
          simp only [hr, Except.ok.injEq, Prod.mk.injEq] at h
          exact h.1 ▸ hP1
    · split at h
      · cases hr : removePlaylist m c.Playlist with
        | error e => simp [hr] at h
        | ok r =>
          obtain ⟨m1, e1⟩ := r
          have hP1 := hrem c (List.mem_cons_self _ _) m m1 e1 hP hr
          cases e1 with
          | none => simp only [hr] at h; exact ih' _ _ _ hP1 h
          | some e =>
            simp only [hr, Except.ok.injEq, Prod.mk.injEq] at h
            exact h.1 ▸ hP1
      · split at h
        · cases hr : addSongsToPlaylist m c.Playlist with
          | error e => simp [hr] at h
          | ok r =>
            obtain ⟨m1, e1⟩ := r
            have hP1 := hsongs c (List.mem_cons_self _ _) m m1 e1 hP hr
            cases e1 with
            | none => simp only [hr] at h; exact ih' _ _ _ hP1 h
            | some e =>
              simp only [hr, Except.ok.injEq, Prod.mk.injEq] at h
              exact h.1 ▸ hP1
        · exact ih' _ _ _ hP h

/-- When `ApplyChanges` returns, the error it returns is nil. -/
theorem ApplyChanges_loop_err (cs : List models.PlaylistChange) :
    ∀ m m' err, ApplyChanges.loop cs m = .ok (m', err) → err = none := by
  induction cs with
  | nil =>
    intro m m' err h
    simp only [ApplyChanges.loop, Except.ok.injEq, Prod.mk.injEq] at h
    exact h.2.symm
  | cons c rest ih =>
    intro m m' err h
    unfold ApplyChanges.loop at h
    split at h
    · cases hr : addPlaylist m c.Playlist with
      | error e => simp [hr] at h
      | ok r =>
        obtain ⟨m1, e1⟩ := r
        have := (addPlaylist_cases _ _ _ _ hr).1
        subst this
        simp only [hr] at h
        exact ih _ _ _ h
    · split at h
      · cases hr : removePlaylist m c.Playlist with
        | error e => simp [hr] at h
        | ok r =>
          obtain ⟨m1, e1⟩ := r
          have := (removePlaylist_cases _ _ _ _ hr).1
          subst this
          simp only [hr] at h
          exact ih _ _ _ h
      · split at h
        · cases hr : addSongsToPlaylist m c.Playlist with
          | error e => simp [hr] at h
          | ok r =>
            obtain ⟨m1, e1⟩ := r
            have := (addSongsToPlaylist_cases _ _ _ _ hr).1
            subst this
            simp only [hr] at h
            exact ih _ _ _ h
        · exact ih _ _ _ h

theorem Frame_refl (m : Mixtape) : Frame m m := ⟨rfl, rfl, rfl, rfl⟩

theorem Frame_trans {a b c : Mixtape} (h1 : Frame a b) (h2 : Frame b c) : Frame a c :=
  ⟨h2.1.trans h1.1, h2.2.1.trans h1.2.1, h2.2.2.1.trans h1.2.2.1, h2.2.2.2.trans h1.2.2.2⟩

theorem addPlaylist_frame (m m' : Mixtape) (p : models.Playlist) (err : Option GoError)
    (h : addPlaylist m p = .ok (m', err)) : Frame m m' := by
  rcases (addPlaylist_cases _ _ _ _ h).2 with ⟨_, lg, rfl⟩ | ⟨_, lg, rfl⟩
  · exact ⟨rfl, rfl, rfl, rfl⟩
  · exact ⟨rfl, rfl, rfl, rfl⟩

theorem removePlaylist_frame (m m' : Mixtape) (p : models.Playlist) (err : Option GoError)
    (h : removePlaylist m p = .ok (m', err)) : Frame m m' := by
  rcases (removePlaylist_cases _ _ _ _ h).2 with ⟨_, lg, rfl⟩ | ⟨_, i, _, _, lg, rfl⟩ |
    ⟨_, i, a, b, _, _, _, _, lg, rfl⟩
  · exact ⟨rfl, rfl, rfl, rfl⟩
  · exact ⟨rfl, rfl, rfl, rfl⟩
  · exact ⟨rfl, rfl, rfl, rfl⟩

theorem addSongsToPlaylist_frame (m m' : Mixtape) (p : models.Playlist) (err : Option GoError)
    (h : addSongsToPlaylist m p = .ok (m', err)) : Frame m m' := by
  rcases (addSongsToPlaylist_cases _ _ _ _ h).2 with ⟨_, lg, rfl⟩ | ⟨_, i, _, e1, e2, _⟩
  · exact ⟨rfl, rfl, rfl, rfl⟩
  · exact ⟨by rw [e1], by rw [e1], by rw [e2], by rw [e2]⟩

theorem ApplyChanges_frame (m m' : Mixtape) (changes : models.Changes) (err : Option GoError)
    (h : ApplyChanges m changes = .ok (m', err)) : Frame m m' :=
  ApplyChanges_loop_invariant (Frame m) changes.PlaylistChanges
    (fun _ _ _ a b e hP hr => Frame_trans hP (addPlaylist_frame a b _ e hr))
    (fun _ _ a b e hP hr => Frame_trans hP (removePlaylist_frame a b _ e hr))
    (fun _ _ a b e hP hr => Frame_trans hP (addSongsToPlaylist_frame a b _ e hr))
    m m' err (Frame_refl m) h

/-! ### Where the playlists of the new catalog come from -/

theorem addPlaylist_mem (m m' : Mixtape) (p : models.Playlist) (err : Option GoError)
    (h : addPlaylist m p = .ok (m', err)) :
    ∀ q ∈ m'.mixtape.Playlists, q ∈ m.mixtape.Playlists ∨
      (addPlaylist.accepts m p ∧ q = { p with SongIDs := validSongs m p.SongIDs }) := by
  rcases (addPlaylist_cases _ _ _ _ h).2 with ⟨_, lg, rfl⟩ | ⟨ha, lg, rfl⟩
  · exact fun q hq => Or.inl hq
  · intro q hq
    simp only [addPlaylist.accepted, List.mem_append, List.mem_singleton] at hq
    exact hq.imp id (fun e => ⟨ha, e⟩)

theorem mem_swap_take (pls : List models.Playlist) (i k : Nat) (a b : models.Playlist)
    (ha : pls[i]? = some a) (hb : pls[k]? = some b) :
    ∀ q ∈ ((pls.set i b).set k a).take k, q ∈ pls := by
  intro q hq
  have h1 := List.mem_of_mem_take hq
  rcases List.mem_or_eq_of_mem_set h1 with h2 | rfl
  · rcases List.mem_or_eq_of_mem_set h2 with h3 | rfl
    · exact h3
    · exact List.getElem?_mem hb
  · exact List.getElem?_mem ha

theorem removePlaylist_mem (m m' : Mixtape) (p : models.Playlist) (err : Option GoError)
    (h : removePlaylist m p = .ok (m', err)) :
    ∀ q ∈ m'.mixtape.Playlists, q ∈ m.mixtape.Playlists := by
  rcases (removePlaylist_cases _ _ _ _ h).2 with ⟨_, lg, rfl⟩ | ⟨_, i, _, _, lg, rfl⟩ |
    ⟨_, i, a, b, _, _, ha, hb, lg, rfl⟩
  · exact fun q hq => hq
  · exact fun q hq => List.mem_of_mem_take hq
  · exact mem_swap_take _ _ _ _ _ ha hb

theorem mem_appendSongsAt (pls : List models.Playlist) (i : Nat) (added : List String) :
    ∀ q' ∈ appendSongsAt pls i added, q' ∈ pls ∨
      ∃ q ∈ pls, q' = { q with SongIDs := q.SongIDs ++ added } := by
  intro q' hq'
  unfold appendSongsAt at hq'
  cases hp : pls[i]? with
  | none => rw [hp] at hq'; exact Or.inl hq'
  | some q =>
    rw [hp] at hq'
    rcases List.mem_or_eq_of_mem_set hq' with h | rfl
    · exact Or.inl h
    · exact Or.inr ⟨q, List.getElem?_mem hp, rfl⟩

theorem addSongsToPlaylist_mem (m m' : Mixtape) (p : models.Playlist) (err : Option GoError)
    (h : addSongsToPlaylist m p = .ok (m', err)) :
    ∀ q' ∈ m'.mixtape.Playlists, q' ∈ m.mixtape.Playlists ∨
      ∃ q ∈ m.mixtape.Playlists,
        q' = { q with SongIDs := q.SongIDs ++ addSongsToPlaylist.added m p } := by
  rcases (addSongsToPlaylist_cases _ _ _ _ h).2 with ⟨_, lg, rfl⟩ | ⟨_, i, _, e1, _, _⟩
  · exact fun q hq => Or.inl hq
  · rw [e1]
    exact mem_appendSongsAt _ _ _

theorem appended_known (known : String → Bool) (songs : List String) :
    ∀ (member : String → Bool), ∀ s ∈ addSongsToPlaylist.appended known member songs,
      known s = true ∧ member s = false ∧ s ∈ songs := by
  induction songs with
  | nil => intro member s hs; simp [addSongsToPlaylist.appended] at hs
  | cons x rest ih =>
    intro member s hs
    unfold addSongsToPlaylist.appended at hs
    split at hs
    · rename_i hc
      simp only [Bool.and_eq_true, Bool.not_eq_true'] at hc
      rcases List.mem_cons.1 hs with rfl | h'
      · exact ⟨hc.1, hc.2, List.mem_cons_self _ _⟩
      · obtain ⟨h1, h2, h3⟩ := ih _ s h'
        simp only [Bool.or_eq_false_iff] at h2
        exact ⟨h1, h2.2, List.mem_cons_of_mem _ h3⟩
    · obtain ⟨h1, h2, h3⟩ := ih _ s hs
      exact ⟨h1, h2, List.mem_cons_of_mem _ h3⟩

theorem appended_nodup (known : String → Bool) (songs : List String) :
    ∀ (member : String → Bool), (addSongsToPlaylist.appended known member songs).Nodup := by
  induction songs with
  | nil => intro member; simp [addSongsToPlaylist.appended]
  | cons x rest ih =>
    intro member
    unfold addSongsToPlaylist.appended
    split
    · refine List.nodup_cons.2 ⟨?_, ih _⟩
      intro hx
      have := (appended_known known rest _ x hx).2.1
      simp at this
    · exact ih _
/-! ### The user and song indices built by `buildLookup` -/

theorem buildLookup_users_has (us : List models.User) (uid : String) :
    ∀ (i : Nat) (acc : GoMap Nat),
      (buildLookup.users us i acc).has uid = true ↔
        (acc.has uid = true ∨ ∃ u ∈ us, u.ID = uid) := by
  induction us with
  | nil => intro i acc; simp [buildLookup.users]
  | cons u rest ih =>
    intro i acc
    rw [buildLookup.users, ih]
    by_cases hu : uid = u.ID
    · subst hu
      simp [GoMap.has, GoMap.set]
    · have hu' : ¬ u.ID = uid := fun e => hu e.symm
      simp [GoMap.has, GoMap.set, hu, hu']

theorem buildLookup_songs_has (ss : List models.Song) (sid : String) :
    ∀ (i : Nat) (acc : GoMap Nat),
      (buildLookup.songs ss i acc).has sid = true ↔
        (acc.has sid = true ∨ ∃ s ∈ ss, s.ID = sid) := by
  induction ss with
  | nil => intro i acc; simp [buildLookup.songs]
  | cons s rest ih =>
    intro i acc
    rw [buildLookup.songs, ih]
    by_cases hs : sid = s.ID
    · subst hs
      simp [GoMap.has, GoMap.set]
    · have hs' : ¬ s.ID = sid := fun e => hs e.symm
      simp [GoMap.has, GoMap.set, hs, hs']

/-- After `New`, the user index has exactly the ids of the catalog's users. -/
theorem New_users_has (mixtape : models.Mixtape) (logger : util.Logger) (uid : String) :
    (New mixtape logger).lookup.users.has uid = true ↔ ∃ u ∈ mixtape.Users, u.ID = uid := by
  show (buildLookup.users mixtape.Users 0 GoMap.empty).has uid = true ↔ _
  rw [buildLookup_users_has]
  simp [GoMap.has, GoMap.empty]

/-- After `New`, the song index has exactly the ids of the catalog's songs. -/
theorem New_songs_has (mixtape : models.Mixtape) (logger : util.Logger) (sid : String) :
    (New mixtape logger).lookup.songs.has sid = true ↔ ∃ s ∈ mixtape.Songs, s.ID = sid := by
  show (buildLookup.songs mixtape.Songs 0 GoMap.empty).has sid = true ↔ _
  rw [buildLookup_songs_has]
  simp [GoMap.has, GoMap.empty]

/-- Invariant rule for a property of single playlists: it is kept when it holds
of every playlist `addPlaylist` stores and is kept by the appends of
`addSongsToPlaylist`. -/
theorem ApplyChanges_playlists_invariant (Q : models.Playlist → Prop) (m0 : Mixtape)
    (changes : models.Changes)
    (hnew : ∀ m p, Frame m0 m → addPlaylist.accepts m p →
      Q { p with SongIDs := validSongs m p.SongIDs })
    (happ : ∀ m p q, Frame m0 m → Q q →
      Q { q with SongIDs := q.SongIDs ++ addSongsToPlaylist.added m p })
    (h0 : ∀ q ∈ m0.mixtape.Playlists, Q q) (m' : Mixtape) (err : Option GoError)
    (h : ApplyChanges m0 changes = .ok (m', err)) :
    ∀ q ∈ m'.mixtape.Playlists, Q q := by
  have key := ApplyChanges_loop_invariant
    (fun m => Frame m0 m ∧ ∀ q ∈ m.mixtape.Playlists, Q q) changes.PlaylistChanges
    (fun _ _ _ a b e hP hr => ⟨Frame_trans hP.1 (addPlaylist_frame a b _ e hr), fun q hq => by
      rcases addPlaylist_mem a b _ e hr q hq with h1 | ⟨h1, rfl⟩
      · exact hP.2 q h1
      · exact hnew a _ hP.1 h1⟩)
    (fun _ _ a b e hP hr => ⟨Frame_trans hP.1 (removePlaylist_frame a b _ e hr), fun q hq =>
      hP.2 q (removePlaylist_mem a b _ e hr q hq)⟩)
    (fun _ _ a b e hP hr => ⟨Frame_trans hP.1 (addSongsToPlaylist_frame a b _ e hr), fun q hq => by
      rcases addSongsToPlaylist_mem a b _ e hr q hq with h1 | ⟨q0, h1, rfl⟩
      · exact hP.2 q h1
      · exact happ a _ q0 hP.1 (hP.2 q0 h1)⟩)
    m0 m' err ⟨Frame_refl m0, h0⟩ h
  exact key.2

/-! ### Frame and per-playlist invariants of `ApplyChanges` -/

/-- C8: for every catalog and every change list, when `ApplyChanges` on the
engine built by `New` returns, the users sequence and the songs sequence of the
catalog are exactly the ones it started with. -/
theorem ApplyChanges_users_songs_unchanged (mixtape : models.Mixtape) (logger : util.Logger)
    (changes : models.Changes) (m' : Mixtape) (err : Option GoError)
    (h : ApplyChanges (New mixtape logger) changes = .ok (m', err)) :
    m'.mixtape.Users = mixtape.Users ∧ m'.mixtape.Songs = mixtape.Songs :=
  let f := ApplyChanges_frame _ _ _ _ h
  ⟨f.1, f.2.1⟩

theorem ApplyChanges_users_songs_unchanged_witness :
    ∃ m', ApplyChanges (New fixture.catalog []) fixture.composite = .ok (m', none) ∧
      m'.mixtape.Playlists.length = 5 ∧
      m'.mixtape.Users = fixture.catalog.Users ∧ m'.mixtape.Songs = fixture.catalog.Songs :=
  ⟨_, rfl, rfl, ApplyChanges_users_songs_unchanged fixture.catalog [] fixture.composite _ none rfl⟩

/-- C3: owner existence is preserved.  If every playlist of the catalog is owned
by a user of the catalog, then after `ApplyChanges` every playlist of the
output catalog is owned by a user of the output catalog. -/
theorem ApplyChanges_owner_exists (mixtape : models.Mixtape) (logger : util.Logger)
    (changes : models.Changes) (m' : Mixtape) (err : Option GoError)
    (hown : ∀ p ∈ mixtape.Playlists, ∃ u ∈ mixtape.Users, u.ID = p.UserID)
    (h : ApplyChanges (New mixtape logger) changes = .ok (m', err)) :
    ∀ p ∈ m'.mixtape.Playlists, ∃ u ∈ m'.mixtape.Users, u.ID = p.UserID := by
  rw [(ApplyChanges_frame _ _ _ _ h).1]
  refine ApplyChanges_playlists_invariant
    (fun p => ∃ u ∈ mixtape.Users, u.ID = p.UserID) (New mixtape logger) changes
    ?_ ?_ hown m' err h
  · intro m p hf ha
    have hu : (New mixtape logger).lookup.users.has p.UserID = true := by
      rw [← hf.2.2.1]; exact ha.2.2.2.1
    exact (New_users_has mixtape logger p.UserID).1 hu
  · intro m p q _ hq
    exact hq

theorem ApplyChanges_owner_exists_witness :
    (∀ p ∈ fixture.catalog.Playlists, ∃ u ∈ fixture.catalog.Users, u.ID = p.UserID) ∧
      ∃ m', ApplyChanges (New fixture.catalog []) fixture.composite = .ok (m', none) ∧
        m'.mixtape.Playlists.map models.Playlist.UserID =
          ["user_1", "user_3", "user_1", "user_2", "user_1"] ∧
        ∀ p ∈ m'.mixtape.Playlists, ∃ u ∈ m'.mixtape.Users, u.ID = p.UserID :=
  ⟨by decide, _, rfl, rfl,
    ApplyChanges_owner_exists fixture.catalog [] fixture.composite _ none (by decide) rfl⟩

/-- C4: song existence is preserved.  If every song id of every playlist of the
catalog is the id of a song of the catalog, then after `ApplyChanges` every
song id of every playlist of the output catalog is the id of a song of the
output catalog. -/
theorem ApplyChanges_songs_exist (mixtape : models.Mixtape) (logger : util.Logger)
    (changes : models.Changes) (m' : Mixtape) (err : Option GoError)
    (hsongs : ∀ p ∈ mixtape.Playlists, ∀ s ∈ p.SongIDs, ∃ g ∈ mixtape.Songs, g.ID = s)
    (h : ApplyChanges (New mixtape logger) changes = .ok (m', err)) :
    ∀ p ∈ m'.mixtape.Playlists, ∀ s ∈ p.SongIDs, ∃ g ∈ m'.mixtape.Songs, g.ID = s := by
  rw [(ApplyChanges_frame _ _ _ _ h).2.1]
  refine ApplyChanges_playlists_invariant
    (fun p => ∀ s ∈ p.SongIDs, ∃ g ∈ mixtape.Songs, g.ID = s) (New mixtape logger) changes
    ?_ ?_ hsongs m' err h
  · intro m p hf _ s hs
    have hk : m.lookup.songs.has s = true := by
      simpa using (List.mem_filter.1 hs).2
    rw [hf.2.2.2] at hk
    exact (New_songs_has mixtape logger s).1 hk
  · intro m p q hf hq s hs
    rcases List.mem_append.1 hs with h1 | h1
    · exact hq s h1
    · have hk := (appended_known _ _ _ s h1).1
      rw [hf.2.2.2] at hk
      exact (New_songs_has mixtape logger s).1 hk

theorem ApplyChanges_songs_exist_witness :
    (∀ p ∈ fixture.catalog.Playlists, ∀ s ∈ p.SongIDs,
        ∃ g ∈ fixture.catalog.Songs, g.ID = s) ∧
      ∃ m', ApplyChanges (New fixture.catalog []) fixture.composite = .ok (m', none) ∧
        m'.mixtape.Playlists.map models.Playlist.SongIDs =
          [["song_3"], ["song_3", "song_1"], ["song_1"], ["song_2"], ["song_3"]] ∧
        ∀ p ∈ m'.mixtape.Playlists, ∀ s ∈ p.SongIDs, ∃ g ∈ m'.mixtape.Songs, g.ID = s :=
  ⟨by decide, _, rfl, rfl,
    ApplyChanges_songs_exist fixture.catalog [] fixture.composite _ none (by decide) rfl⟩

/-- C6: non-empty playlists are preserved.  If every playlist of the catalog has
at least one song id, then after `ApplyChanges` every playlist of the output
catalog has at least one song id. -/
theorem ApplyChanges_playlists_nonempty (mixtape : models.Mixtape) (logger : util.Logger)
    (changes : models.Changes) (m' : Mixtape) (err : Option GoError)
    (hne : ∀ p ∈ mixtape.Playlists, 1 ≤ p.SongIDs.length)
    (h : ApplyChanges (New mixtape logger) changes = .ok (m', err)) :
    ∀ p ∈ m'.mixtape.Playlists, 1 ≤ p.SongIDs.length := by
  refine ApplyChanges_playlists_invariant
    (fun p => 1 ≤ p.SongIDs.length) (New mixtape logger) changes ?_ ?_ hne m' err h
  · intro m p _ ha
    exact List.length_pos.2 ha.2.2.2.2
  · intro m p q _ hq
    simp only [List.length_append]
    exact Nat.le_trans hq (Nat.le_add_right _ _)

theorem ApplyChanges_playlists_nonempty_witness :
    (∀ p ∈ fixture.catalog.Playlists, 1 ≤ p.SongIDs.length) ∧
      ∃ m', ApplyChanges (New fixture.catalog []) fixture.emptyAdds = .ok (m', none) ∧
        m'.mixtape.Playlists.map models.Playlist.SongIDs =
          [["song_1", "song_2"], ["song_3"], ["song_2"]] ∧
        ∀ p ∈ m'.mixtape.Playlists, 1 ≤ p.SongIDs.length :=
  ⟨by decide, _, rfl, rfl,
    ApplyChanges_playlists_nonempty fixture.catalog [] fixture.emptyAdds _ none (by decide) rfl⟩

/-! ### `ApplyChanges` can panic -/

/-- C1 (failing input): on a catalog whose playlist `playlist_1` lists no song,
`buildLookup` creates no membership set for it, and the `add_songs` request of
a known song to that playlist makes `addSongsToPlaylist` write into the nil
map: `ApplyChanges` panics instead of returning nil. -/
theorem ApplyChanges_panics_on_empty_playlist :
    ApplyChanges (New fixture.emptyPlaylistCatalog []) fixture.addKnownSong =
      .error Panic.nilMapWrite := rfl

/-! ### `addPlaylist` -/

theorem buildLookup_playlists_has (pls : List models.Playlist) (id : String) :
    ∀ (i : Nat) (acc : GoMap Nat × GoMap (GoMap Bool)),
      (buildLookup.playlists pls i acc).1.has id = true ↔
        (acc.1.has id = true ∨ ∃ q ∈ pls, q.ID = id) := by
  induction pls with
  | nil => intro i acc; simp [buildLookup.playlists]
  | cons q rest ih =>
    intro i acc
    rw [buildLookup.playlists, ih]
    by_cases hq : id = q.ID
    · subst hq
      simp [GoMap.has, GoMap.set]
    · have hq' : ¬ q.ID = id := fun e => hq e.symm
      simp [GoMap.has, GoMap.set, hq, hq']

/-- The three key sets of a lookup that `buildLookup` derives from the catalog
are the ids of the catalog. -/
theorem coherent_keys (m : Mixtape) (hcoh : m.lookup = buildLookup m.mixtape) :
    (∀ id, m.lookup.playlists.has id = true ↔ ∃ q ∈ m.mixtape.Playlists, q.ID = id) ∧
    (∀ uid, m.lookup.users.has uid = true ↔ ∃ u ∈ m.mixtape.Users, u.ID = uid) ∧
    (∀ sid, m.lookup.songs.has sid = true ↔ ∃ g ∈ m.mixtape.Songs, g.ID = sid) := by
  rw [hcoh]
  refine ⟨fun id => ?_, fun uid => ?_, fun sid => ?_⟩
  · show (buildLookup.playlists m.mixtape.Playlists 0 (GoMap.empty, GoMap.empty)).1.has id
      = true ↔ _
    rw [buildLookup_playlists_has]
    simp [GoMap.has, GoMap.empty]
  · exact New_users_has m.mixtape [] uid
  · exact New_songs_has m.mixtape [] sid

theorem validSongs_eq_filter (m : Mixtape)
    (hs : ∀ sid, m.lookup.songs.has sid = true ↔ ∃ g ∈ m.mixtape.Songs, g.ID = sid)
    (songs : List String) :
    validSongs m songs =
      songs.filter (fun s => decide (s ∈ m.mixtape.Songs.map models.Song.ID)) := by
  unfold validSongs
  apply List.filter_congr
  intro s _
  have := hs s
  by_cases hk : m.lookup.songs.has s = true
  · have h2 : s ∈ m.mixtape.Songs.map models.Song.ID := by
      rw [List.mem_map]; exact this.1 hk
    simp [hk, h2]
  · have h2 : ¬ s ∈ m.mixtape.Songs.map models.Song.ID := by
      rw [List.mem_map]; exact fun h => hk (this.2 h)
    simp [hk, h2]

/-- C9: Add, accepted.  On an engine whose lookup is the one `buildLookup`
derives from its catalog, an `add` request with a non-empty id that is not the
id of a playlist of the catalog, a non-empty user id that is the id of a user
of the catalog, and at least one song id that is the id of a song of the
catalog returns nil and leaves the old playlists followed by exactly one new
playlist: the request's id and user id, and the request's song ids that are ids
of songs of the catalog, in their order. -/
theorem addPlaylist_accepted_appends (m : Mixtape) (p : models.Playlist)
    (hcoh : m.lookup = buildLookup m.mixtape)
    (hid : p.ID ≠ "") (hfresh : ∀ q ∈ m.mixtape.Playlists, q.ID ≠ p.ID)
    (huid : p.UserID ≠ "") (huser : ∃ u ∈ m.mixtape.Users, u.ID = p.UserID)
    (hsong : ∃ s ∈ p.SongIDs, ∃ g ∈ m.mixtape.Songs, g.ID = s) :
    ∃ m', addPlaylist m p = .ok (m', none) ∧
      m'.mixtape.Playlists = m.mixtape.Playlists ++
        [{ ID := p.ID, UserID := p.UserID
           SongIDs := p.SongIDs.filter
             (fun s => decide (s ∈ m.mixtape.Songs.map models.Song.ID)) }] ∧
      m'.mixtape.Users = m.mixtape.Users ∧ m'.mixtape.Songs = m.mixtape.Songs := by
  obtain ⟨kp, ku, ks⟩ := coherent_keys m hcoh
  have hacc : addPlaylist.accepts m p := by
    refine ⟨hid, ?_, huid, (ku _).2 huser, ?_⟩
    · cases hh : m.lookup.playlists.has p.ID with
      | false => rfl
      | true =>
        obtain ⟨q, hq, e⟩ := (kp _).1 hh
        exact absurd e (hfresh q hq)
    · obtain ⟨s, hs, hg⟩ := hsong
      intro he
      have : s ∈ validSongs m p.SongIDs := by
        unfold validSongs
        exact List.mem_filter.2 ⟨hs, by simpa using (ks s).2 hg⟩
      rw [he] at this
      cases this
  obtain ⟨lg, e⟩ := addPlaylist_accepted m p hacc
  refine ⟨_, e, ?_, rfl, rfl⟩
  simp only [addPlaylist.accepted, validSongs_eq_filter m ks]

theorem addPlaylist_accepted_appends_witness :
    ∃ m', addPlaylist (New fixture.catalog []) fixture.playlistX = .ok (m', none) ∧
      m'.mixtape.Playlists =
        [⟨"playlist_1", "user_1", ["song_1", "song_2"]⟩, ⟨"playlist_2", "user_3", ["song_3"]⟩,
         ⟨"playlist_x", "user_1", ["song_1"]⟩] :=
  let ⟨m', h1, h2, _⟩ := addPlaylist_accepted_appends (New fixture.catalog []) fixture.playlistX
    rfl (by decide) (by decide) (by decide) (by decide) (by decide)
  ⟨m', h1, h2.trans (by decide)⟩

/-! ### `buildLookup` establishes coherence -/

theorem distinct_cons (q : models.Playlist) (rest : List models.Playlist) :
    DistinctIDs (q :: rest) ↔ (∀ p ∈ rest, p.ID ≠ q.ID) ∧ DistinctIDs rest := by
  unfold DistinctIDs
  rw [List.map_cons, List.nodup_cons]
  constructor
  · rintro ⟨h1, h2⟩
    exact ⟨fun p hp e => h1 (List.mem_map.2 ⟨p, hp, e⟩), h2⟩
  · rintro ⟨h1, h2⟩
    refine ⟨fun hm => ?_, h2⟩
    obtain ⟨p, hp, e⟩ := List.mem_map.1 hm
    exact h1 p hp e

/-- In a catalog with distinct ids, two positions holding the same id are the
same position. -/
theorem distinct_index (pls : List models.Playlist) (hd : DistinctIDs pls) (j k : Nat)
    (p q : models.Playlist) (hj : pls[j]? = some p) (hk : pls[k]? = some q)
    (e : p.ID = q.ID) : j = k := by
  have hjl : j < pls.length := by
    by_contra hc
    rw [List.getElem?_eq_none (by omega)] at hj
    cases hj
  have hjm : j < (pls.map models.Playlist.ID).length := by simpa using hjl
  have hjk : (pls.map models.Playlist.ID)[j]? = (pls.map models.Playlist.ID)[k]? := by
    rw [List.getElem?_map, List.getElem?_map, hj, hk]
    simp [e]
  exact List.getElem?_inj hjm hd hjk

theorem buildLookup_playlists_pos (pls : List models.Playlist) :
    ∀ (i : Nat) (acc : GoMap Nat × GoMap (GoMap Bool)) (id : String) (j : Nat),
      DistinctIDs pls →
      ((buildLookup.playlists pls i acc).1 id = some j ↔
        ((∃ k p, pls[k]? = some p ∧ p.ID = id ∧ j = i + k) ∨
          ((∀ p ∈ pls, p.ID ≠ id) ∧ acc.1 id = some j))) := by
  induction pls with
  | nil => intro i acc id j _; simp [buildLookup.playlists]
  | cons q rest ih =>
    intro i acc id j hd
    obtain ⟨hq, hrest⟩ := (distinct_cons q rest).1 hd
    rw [buildLookup.playlists, ih _ _ _ _ hrest]
    by_cases e : id = q.ID
    · subst e
      constructor
      · rintro (⟨k, p, hk, hp, _⟩ | ⟨_, h2⟩)
        · exact absurd hp (hq p (List.getElem?_mem hk))
        · replace h2 : acc.1.set q.ID i q.ID = some j := h2
          simp only [GoMap_set_same, Option.some.injEq] at h2
          exact Or.inl ⟨0, q, by simp, rfl, by omega⟩
      · rintro (⟨k, p, hk, hp, hj⟩ | ⟨h1, _⟩)
        · cases k with
          | zero =>
            refine Or.inr ⟨hq, ?_⟩
            show acc.1.set q.ID i q.ID = some j
            simp only [GoMap_set_same, Option.some.injEq]
            omega
          | succ k =>
            rw [List.getElem?_cons_succ] at hk
            exact absurd hp (hq p (List.getElem?_mem hk))
        · exact absurd rfl (h1 q (List.mem_cons_self _ _))
    · have e' : q.ID ≠ id := fun h => e h.symm
      constructor
      · rintro (⟨k, p, hk, hp, hj⟩ | ⟨h1, h2⟩)
        · exact Or.inl ⟨k + 1, p, by rw [List.getElem?_cons_succ]; exact hk, hp, by omega⟩
        · replace h2 : acc.1.set q.ID i id = some j := h2
          rw [GoMap_set_other _ _ _ _ e] at h2
          refine Or.inr ⟨fun p hp => ?_, h2⟩
          rcases List.mem_cons.1 hp with rfl | hp'
          · exact e'
          · exact h1 p hp'
      · rintro (⟨k, p, hk, hp, hj⟩ | ⟨h1, h2⟩)
        · cases k with
          | zero =>
            simp only [List.getElem?_cons_zero, Option.some.injEq] at hk
            subst hk
            exact absurd hp e'
          | succ k =>
            rw [List.getElem?_cons_succ] at hk
            exact Or.inl ⟨k, p, hk, hp, by omega⟩
        · refine Or.inr ⟨fun p hp => h1 p (List.mem_cons_of_mem _ hp), ?_⟩
          show acc.1.set q.ID i id = some j
          rw [GoMap_set_other _ _ _ _ e]
          exact h2

theorem markSong_other (ps : GoMap (GoMap Bool)) (id s id' : String) (h : id' ≠ id) :
    markSong ps id s id' = ps id' := by
  unfold markSong
  cases ps id <;> simp [GoMap.set, h]

theorem songIDs_other (id : String) (songs : List String) :
    ∀ (ps : GoMap (GoMap Bool)) (id' : String), id' ≠ id →
      buildLookup.songIDs id songs ps id' = ps id' := by
  induction songs with
  | nil => intro ps id' _; rfl
  | cons s rest ih =>
    intro ps id' h
    rw [buildLookup.songIDs, ih _ _ h, markSong_other _ _ _ _ h]

/-- The membership set the marking loop leaves for `id`: the former members and
the marked songs. -/
theorem songIDs_same (id : String) (songs : List String) :
    ∀ (ps : GoMap (GoMap Bool)), songs ≠ [] →
      buildLookup.songIDs id songs ps id =
        some (fun s => if s ∈ songs then some true else
          match ps id with
          | none => none
          | some inner => inner s) := by
  induction songs with
  | nil => intro ps h; exact absurd rfl h
  | cons x rest ih =>
    intro ps _
    rw [buildLookup.songIDs]
    have hmark : markSong ps id x id =
        some (fun s => if s = x then some true else
          match ps id with
          | none => none
          | some inner => inner s) := by
      unfold markSong
      cases ps id <;> simp only [GoMap_set_same, Option.some.injEq] <;> funext s <;>
        simp [GoMap.set, GoMap.empty]
    by_cases hr : rest = []
    · subst hr
      rw [buildLookup.songIDs, hmark]
      simp
    · rw [ih _ hr, hmark]
      simp only [Option.some.injEq]
      funext s
      by_cases h1 : s ∈ rest
      · simp [h1]
      · by_cases h2 : s = x
        · simp [h2]
        · simp [h1, h2]

theorem songIDs_fresh (id : String) (songs : List String) (ps : GoMap (GoMap Bool))
    (h : ps id = none) : buildLookup.songIDs id songs ps id = memberSet songs := by
  unfold memberSet
  by_cases hs : songs = []
  · subst hs; simp [buildLookup.songIDs, h]
  · rw [songIDs_same id songs ps hs, h]
    simp [hs]

theorem buildLookup_playlists_members_other (pls : List models.Playlist) :
    ∀ (i : Nat) (acc : GoMap Nat × GoMap (GoMap Bool)) (id : String),
      (∀ p ∈ pls, p.ID ≠ id) → (buildLookup.playlists pls i acc).2 id = acc.2 id := by
  induction pls with
  | nil => intro i acc id _; rfl
  | cons q rest ih =>
    intro i acc id h
    rw [buildLookup.playlists, ih _ _ _ (fun p hp => h p (List.mem_cons_of_mem _ hp))]
    exact songIDs_other _ _ _ _ (fun e => h q (List.mem_cons_self _ _) e.symm)

theorem buildLookup_playlists_members (pls : List models.Playlist) :
    ∀ (i : Nat) (acc : GoMap Nat × GoMap (GoMap Bool)), DistinctIDs pls →
      ∀ p ∈ pls, acc.2 p.ID = none →
        (buildLookup.playlists pls i acc).2 p.ID = memberSet p.SongIDs := by
  induction pls with
  | nil => intro i acc _ p hp; cases hp
  | cons q rest ih =>
    intro i acc hd p hp hnone
    obtain ⟨hq, hrest⟩ := (distinct_cons q rest).1 hd
    rw [buildLookup.playlists]
    rcases List.mem_cons.1 hp with rfl | hp'
    · rw [buildLookup_playlists_members_other rest _ _ _ hq]
      exact songIDs_fresh _ _ _ hnone
    · apply ih _ _ hrest p hp'
      show buildLookup.songIDs q.ID q.SongIDs acc.2 p.ID = none
      rw [songIDs_other _ _ _ _ (hq p hp')]
      exact hnone

/-- The engine `New` builds on a catalog with distinct playlist ids is
coherent. -/
theorem New_coherent (mixtape : models.Mixtape) (logger : util.Logger)
    (hd : DistinctIDs mixtape.Playlists) : Coherent (New mixtape logger) := by
  refine ⟨hd, ?_, ?_, ?_⟩
  · intro id i
    show (buildLookup.playlists mixtape.Playlists 0 (GoMap.empty, GoMap.empty)).1 id = some i ↔ _
    rw [buildLookup_playlists_pos _ _ _ _ _ hd]
    constructor
    · rintro (⟨k, p, hk, hp, hj⟩ | ⟨_, h2⟩)
      · have : i = k := by omega
        subst this
        exact ⟨p, hk, hp⟩
      · simp [GoMap.empty] at h2
    · rintro ⟨p, hk, hp⟩
      exact Or.inl ⟨i, p, hk, hp, by omega⟩
  · intro p hp
    exact buildLookup_playlists_members _ _ _ hd p hp rfl
  · intro id h
    show (buildLookup.playlists mixtape.Playlists 0 (GoMap.empty, GoMap.empty)).2 id = none
    exact buildLookup_playlists_members_other mixtape.Playlists _ _ _ h

/-! ### The operations keep coherence -/

theorem getElem?_lt {α : Type} (l : List α) (i : Nat) (a : α) (h : l[i]? = some a) :
    i < l.length := by
  by_contra hc
  rw [List.getElem?_eq_none (by omega)] at h
  cases h

/-- In a coherent engine an id that is not a key of the position index is the
id of no playlist. -/
theorem coherent_fresh (m : Mixtape) (hc : PositionsCoherent m) (id : String)
    (h : m.lookup.playlists id = none) : ∀ q ∈ m.mixtape.Playlists, q.ID ≠ id := by
  intro q hq e
  obtain ⟨k, hk⟩ := List.getElem?_of_mem hq
  have := (hc id k).2 ⟨q, hk, e⟩
  rw [h] at this
  cases this

theorem addPlaylist_coherent (m m' : Mixtape) (p : models.Playlist) (err : Option GoError)
    (hc : Coherent m) (h : addPlaylist m p = .ok (m', err)) : Coherent m' := by
  rcases (addPlaylist_cases _ _ _ _ h).2 with ⟨_, lg, rfl⟩ | ⟨ha, lg, rfl⟩
  · exact hc
  obtain ⟨hd, hpos, hmem1, hmem2⟩ := hc
  have hnone : m.lookup.playlists p.ID = none := by
    have := ha.2.1
    unfold GoMap.has at this
    cases hh : m.lookup.playlists p.ID with
    | none => rfl
    | some v => rw [hh] at this; cases this
  have hfresh := coherent_fresh m hpos p.ID hnone
  refine ⟨?_, ?_, ?_, ?_⟩
  · show DistinctIDs (m.mixtape.Playlists ++ [_])
    unfold DistinctIDs
    rw [List.map_append, List.nodup_append]
    refine ⟨hd, by simp, ?_⟩
    intro x hx hx'
    simp only [List.map_cons, List.map_nil, List.mem_singleton] at hx'
    obtain ⟨q, hq, e⟩ := List.mem_map.1 hx
    exact hfresh q hq (e.trans hx')
  · intro id i
    show (m.lookup.playlists.set p.ID m.mixtape.Playlists.length) id = some i ↔
      ∃ q, (m.mixtape.Playlists ++ [_])[i]? = some q ∧ q.ID = id
    constructor
    · intro hs
      by_cases e : id = p.ID
      · subst e
        rw [GoMap_set_same] at hs
        simp only [Option.some.injEq] at hs
        subst hs
        exact ⟨{ p with SongIDs := validSongs m p.SongIDs },
          by rw [List.getElem?_append_right (Nat.le_refl _)]; simp, rfl⟩
      · rw [GoMap_set_other _ _ _ _ e] at hs
        obtain ⟨q, hq, hid⟩ := (hpos id i).1 hs
        exact ⟨q, by rw [List.getElem?_append_left (getElem?_lt _ _ _ hq)]; exact hq, hid⟩
    · rintro ⟨q, hq, hid⟩
      by_cases hi : i < m.mixtape.Playlists.length
      · rw [List.getElem?_append_left hi] at hq
        have hne : id ≠ p.ID := by
          rw [← hid]; exact hfresh q (List.getElem?_mem hq)
        rw [GoMap_set_other _ _ _ _ hne]
        exact (hpos id i).2 ⟨q, hq, hid⟩
      · rw [List.getElem?_append_right (by omega)] at hq
        have hi0 : i - m.mixtape.Playlists.length = 0 := by
          by_contra hc0
          have := getElem?_lt _ _ _ hq
          simp at this
          omega
        rw [hi0] at hq
        simp only [List.getElem?_cons_zero, Option.some.injEq] at hq
        subst hq
        simp only at hid
        subst hid
        rw [GoMap_set_same]
        congr 1
        omega
  · intro q hq
    show buildLookup.songIDs p.ID (validSongs m p.SongIDs) m.lookup.playlistSongs q.ID = _
    have hq' : q ∈ m.mixtape.Playlists ++ [{ p with SongIDs := validSongs m p.SongIDs }] := hq
    rcases List.mem_append.1 hq' with h1 | h1
    · rw [songIDs_other _ _ _ _ (hfresh q h1)]
      exact hmem1 q h1
    · simp only [List.mem_singleton] at h1
      subst h1
      exact songIDs_fresh _ _ _ (hmem2 p.ID hfresh)
  · intro id hid
    have hid' : ∀ q ∈ m.mixtape.Playlists ++ [{ p with SongIDs := validSongs m p.SongIDs }],
        q.ID ≠ id := hid
    have hne : id ≠ p.ID := fun e => hid' _ (List.mem_append_right _ (List.mem_singleton.2 rfl))
      e.symm
    show buildLookup.songIDs p.ID (validSongs m p.SongIDs) m.lookup.playlistSongs id = none
    rw [songIDs_other _ _ _ _ hne]
    exact hmem2 id (fun q hq => hid' q (List.mem_append_left _ hq))
theorem markSongsAt_other (ps : GoMap (GoMap Bool)) (id id' : String) (added : List String)
    (h : id' ≠ id) : markSongsAt ps id added id' = ps id' := by
  unfold markSongsAt
  cases ps id <;> simp [GoMap.set, h]

theorem memberSet_eq_some (songs : List String) (inner : GoMap Bool)
    (h : memberSet songs = some inner) :
    songs ≠ [] ∧ inner = fun s => if s ∈ songs then some true else none := by
  unfold memberSet at h
  by_cases hs : songs = []
  · simp [hs] at h
  · simp only [hs, if_false, Option.some.injEq] at h
    exact ⟨hs, h.symm⟩

theorem addSongsToPlaylist_coherent (m m' : Mixtape) (p : models.Playlist)
    (err : Option GoError) (hc : Coherent m) (h : addSongsToPlaylist m p = .ok (m', err)) :
    Coherent m' := by
  rcases (addSongsToPlaylist_cases _ _ _ _ h).2 with ⟨_, lg, rfl⟩ | ⟨_, i, hi, e1, e2, hne⟩
  · exact hc
  obtain ⟨hd, hpos, hmem1, hmem2⟩ := hc
  obtain ⟨q, hq, hqid⟩ := (hpos _ _).1 hi
  have hil := getElem?_lt _ _ _ hq
  by_cases hadd : addSongsToPlaylist.added m p = []
  · rw [hadd, appendSongsAt_nil] at e1
    rw [hadd, markSongsAt_nil] at e2
    unfold Coherent PositionsCoherent MembersCoherent
    rw [e1, e2]
    exact ⟨hd, hpos, hmem1, hmem2⟩
  obtain ⟨_, inner, hin⟩ := hne hadd
  have hin' := hmem1 q (List.getElem?_mem hq)
  rw [hqid, hin] at hin'
  obtain ⟨hqne, hinner⟩ := memberSet_eq_some _ _ hin'.symm
  have hpl : m'.mixtape.Playlists = m.mixtape.Playlists.set i
      { q with SongIDs := q.SongIDs ++ addSongsToPlaylist.added m p } := by
    rw [e1]; simp only [appendSongsAt, hq]
  have hget : ∀ j r, m'.mixtape.Playlists[j]? = some r →
      (j = i ∧ r = { q with SongIDs := q.SongIDs ++ addSongsToPlaylist.added m p }) ∨
        (j ≠ i ∧ m.mixtape.Playlists[j]? = some r) := by
    intro j r hr
    rw [hpl] at hr
    by_cases hj : i = j
    · subst hj
      rw [List.getElem?_set_self hil] at hr
      exact Or.inl ⟨rfl, (Option.some.inj hr).symm⟩
    · rw [List.getElem?_set_ne hj] at hr
      exact Or.inr ⟨fun e => hj e.symm, hr⟩
  have hids : m'.mixtape.Playlists.map models.Playlist.ID =
      m.mixtape.Playlists.map models.Playlist.ID := by
    rw [hpl]
    apply List.ext_getElem?
    intro n
    rw [List.getElem?_map, List.getElem?_map]
    by_cases hn : i = n
    · subst hn
      rw [List.getElem?_set_self hil, hq]
      rfl
    · rw [List.getElem?_set_ne hn]
  have hlk : m'.lookup.playlists = m.lookup.playlists := by rw [e2]
  have hps : m'.lookup.playlistSongs =
      markSongsAt m.lookup.playlistSongs p.ID (addSongsToPlaylist.added m p) := by rw [e2]
  refine ⟨?_, ?_, ?_, ?_⟩
  · unfold DistinctIDs; rw [hids]; exact hd
  · intro id j
    rw [hlk, hpos id j]
    constructor
    · rintro ⟨r, hr, hrid⟩
      by_cases hj : i = j
      · subst hj
        rw [hq] at hr
        cases hr
        exact ⟨{ q with SongIDs := q.SongIDs ++ addSongsToPlaylist.added m p },
          by rw [hpl, List.getElem?_set_self hil], hrid⟩
      · exact ⟨r, by rw [hpl, List.getElem?_set_ne hj]; exact hr, hrid⟩
    · rintro ⟨r, hr, hrid⟩
      rcases hget j r hr with ⟨rfl, rfl⟩ | ⟨_, hr'⟩
      · exact ⟨q, hq, hrid⟩
      · exact ⟨r, hr', hrid⟩
  · intro r hr
    obtain ⟨j, hj⟩ := List.getElem?_of_mem hr
    rw [hps]
    rcases hget j r hj with ⟨rfl, rfl⟩ | ⟨hji, hr'⟩
    · show markSongsAt m.lookup.playlistSongs p.ID (addSongsToPlaylist.added m p) q.ID = _
      rw [hqid]
      unfold markSongsAt memberSet
      rw [hin]
      have : ¬ (q.SongIDs ++ addSongsToPlaylist.added m p = []) := by
        simp [hqne]
      simp only [GoMap_set_same, this, if_false, Option.some.injEq]
      funext s
      rw [hinner]
      by_cases h1 : s ∈ addSongsToPlaylist.added m p
      · simp [h1]
      · simp [h1]
    · have hne' : r.ID ≠ p.ID := by
        intro e
        exact hji (distinct_index _ hd j i r q hr' hq (e.trans hqid.symm))
      rw [markSongsAt_other _ _ _ _ hne']
      exact hmem1 r (List.getElem?_mem hr')
  · intro id hid
    have hid' : ∀ r ∈ m.mixtape.Playlists, r.ID ≠ id := by
      intro r hr e
      have : id ∈ m'.mixtape.Playlists.map models.Playlist.ID := by
        rw [hids]; exact List.mem_map.2 ⟨r, hr, e⟩
      obtain ⟨r', hr', e'⟩ := List.mem_map.1 this
      exact hid r' hr' e'
    have hne' : id ≠ p.ID := by
      intro e
      exact hid' q (List.getElem?_mem hq) (hqid.trans e.symm)
    rw [hps, markSongsAt_other _ _ _ _ hne']
    exact hmem2 id hid'
/-- The playlists left by the swap with the last playlist and the cut of the
last position, read by index. -/
theorem swap_take_getElem? (pls : List models.Playlist) (i : Nat) (a b : models.Playlist)
    (hi : i < pls.length) (j : Nat) :
    (((pls.set i b).set (pls.length - 1) a).take (pls.length - 1))[j]? =
      if j + 1 < pls.length then (if j = i then some b else pls[j]?) else none := by
  rw [List.getElem?_take]
  by_cases hj : j + 1 < pls.length
  · have hj' : j < pls.length - 1 := by omega
    rw [if_pos hj, if_pos hj', List.getElem?_set_ne (by omega)]
    by_cases e : j = i
    · subst e
      rw [if_pos rfl, List.getElem?_set_self hi]
    · rw [if_neg e, List.getElem?_set_ne (fun h => e h.symm)]
  · have hj' : ¬ j < pls.length - 1 := by omega
    rw [if_neg hj, if_neg hj']

theorem distinct_of_index (pls : List models.Playlist)
    (h : ∀ (j k : Nat) (p q : models.Playlist),
      pls[j]? = some p → pls[k]? = some q → p.ID = q.ID → j = k) :
    DistinctIDs pls := by
  unfold DistinctIDs
  rw [List.nodup_iff_getElem?_ne_getElem?]
  intro j k hjk hk e
  rw [List.length_map] at hk
  rw [List.getElem?_map, List.getElem?_map, List.getElem?_eq_getElem hk,
    List.getElem?_eq_getElem (by omega : j < pls.length)] at e
  simp only [Option.map_some', Option.some.injEq] at e
  have := h j k _ _ (List.getElem?_eq_getElem (by omega : j < pls.length))
    (List.getElem?_eq_getElem hk) e
  omega

/-- Removing the last playlist is the swap of the last playlist with itself. -/
theorem removed_last_eq (m : Mixtape) (id : String) (i : Nat) (a : models.Playlist)
    (lg : util.Logger) (hi : i + 1 = m.mixtape.Playlists.length)
    (ha : m.mixtape.Playlists[i]? = some a) (hid : a.ID = id) :
    removePlaylist.removed m id m.mixtape.Playlists m.lookup.playlists lg =
      removePlaylist.removed m id
        ((m.mixtape.Playlists.set i a).set (m.mixtape.Playlists.length - 1) a)
        (m.lookup.playlists.set a.ID i) lg := by
  have hl : m.mixtape.Playlists.length - 1 = i := by omega
  have hset : m.mixtape.Playlists.set i a = m.mixtape.Playlists := by
    apply List.ext_getElem?
    intro n
    by_cases hn : i = n
    · subst hn
      rw [List.getElem?_set_self (by omega), ha]
    · rw [List.getElem?_set_ne hn]
  have hdel : (m.lookup.playlists.set a.ID i).delete id = m.lookup.playlists.delete id := by
    funext k
    by_cases hk : k = id
    · simp [GoMap.delete, hk]
    · have hk' : k ≠ a.ID := by rw [hid]; exact hk
      simp [GoMap.delete, GoMap.set, hk, hk']
  unfold removePlaylist.removed
  rw [hl, hset, hset, hdel]

/-- The swap with the last playlist and the removal keep coherence. -/
theorem removed_coherent (m : Mixtape) (id : String) (i : Nat) (a b : models.Playlist)
    (lg : util.Logger) (hc : Coherent m)
    (ha : m.mixtape.Playlists[i]? = some a) (hid : a.ID = id)
    (hb : m.mixtape.Playlists[m.mixtape.Playlists.length - 1]? = some b) :
    Coherent (removePlaylist.removed m id
      ((m.mixtape.Playlists.set i b).set (m.mixtape.Playlists.length - 1) a)
      (m.lookup.playlists.set b.ID i) lg) := by
  obtain ⟨hd, hpos, hmem1, hmem2⟩ := hc
  have hi := getElem?_lt _ _ _ ha
  have hN := swap_take_getElem? m.mixtape.Playlists i a b hi
  -- every playlist left comes from a position other than `i`
  have horigin : ∀ j r,
      (((m.mixtape.Playlists.set i b).set (m.mixtape.Playlists.length - 1) a).take
        (m.mixtape.Playlists.length - 1))[j]? = some r →
      j + 1 < m.mixtape.Playlists.length ∧
        ((j = i ∧ r = b ∧ i + 1 < m.mixtape.Playlists.length) ∨
          (j ≠ i ∧ m.mixtape.Playlists[j]? = some r)) := by
    intro j r hr
    rw [hN] at hr
    by_cases hj : j + 1 < m.mixtape.Playlists.length
    · rw [if_pos hj] at hr
      refine ⟨hj, ?_⟩
      by_cases e : j = i
      · rw [if_pos e] at hr
        exact Or.inl ⟨e, (Option.some.inj hr).symm, by omega⟩
      · rw [if_neg e] at hr
        exact Or.inr ⟨e, hr⟩
    · rw [if_neg hj] at hr
      cases hr
  have hne_id : ∀ j r, j ≠ i → m.mixtape.Playlists[j]? = some r → r.ID ≠ id := by
    intro j r hj hr e
    exact hj (distinct_index _ hd j i r a hr ha (e.trans hid.symm))
  have hne_b : ∀ j r, j + 1 < m.mixtape.Playlists.length →
      m.mixtape.Playlists[j]? = some r → r.ID ≠ b.ID := by
    intro j r hj hr e
    have := distinct_index _ hd j _ r b hr hb e
    omega
  have hb_id : i + 1 < m.mixtape.Playlists.length → b.ID ≠ id := by
    intro hlt e
    have := distinct_index _ hd _ i b a hb ha (e.trans hid.symm)
    omega
  have hmemN : ∀ j r,
      (if j + 1 < m.mixtape.Playlists.length then
        (if j = i then some b else m.mixtape.Playlists[j]?) else none) = some r →
      r ∈ (removePlaylist.removed m id
        ((m.mixtape.Playlists.set i b).set (m.mixtape.Playlists.length - 1) a)
        (m.lookup.playlists.set b.ID i) lg).mixtape.Playlists := by
    intro j r h
    rw [← hN] at h
    exact List.getElem?_mem h
  refine ⟨?_, ?_, ?_, ?_⟩
  · apply distinct_of_index
    intro j k p q hj hk e
    obtain ⟨hj1, hj2⟩ := horigin j p hj
    obtain ⟨hk1, hk2⟩ := horigin k q hk
    rcases hj2 with ⟨rfl, rfl, _⟩ | ⟨hji, hjp⟩ <;> rcases hk2 with ⟨rfl, rfl, _⟩ | ⟨hki, hkq⟩
    · rfl
    · exact absurd e.symm (hne_b k q hk1 hkq)
    · exact absurd e (hne_b j p hj1 hjp)
    · exact distinct_index _ hd j k p q hjp hkq e
  · intro id' j
    show ((m.lookup.playlists.set b.ID i).delete id) id' = some j ↔
      ∃ r, (((m.mixtape.Playlists.set i b).set (m.mixtape.Playlists.length - 1) a).take
        (m.mixtape.Playlists.length - 1))[j]? = some r ∧ r.ID = id'
    constructor
    · intro hx
      have h1 : id' ≠ id := by
        intro e
        rw [e, GoMap_delete_same] at hx
        cases hx
      rw [GoMap_delete_other _ _ _ h1] at hx
      by_cases h2 : id' = b.ID
      · rw [h2, GoMap_set_same] at hx
        have hji : i = j := Option.some.inj hx
        subst hji
        have hlt : i + 1 < m.mixtape.Playlists.length := by
          by_contra hc
          have hil : m.mixtape.Playlists.length - 1 = i := by omega
          rw [hil, ha] at hb
          have : a = b := Option.some.inj hb
          rw [this] at hid
          exact h1 (h2.trans hid)
        exact ⟨b, by rw [hN, if_pos hlt, if_pos rfl], h2.symm⟩
      · rw [GoMap_set_other _ _ _ _ h2] at hx
        obtain ⟨r, hr, hrid⟩ := (hpos id' j).1 hx
        have hji : j ≠ i := by
          intro e
          rw [e, ha] at hr
          have : a = r := Option.some.inj hr
          rw [← this] at hrid
          exact h1 (hrid.symm.trans hid)
        have hjl : j + 1 < m.mixtape.Playlists.length := by
          have hjlt := getElem?_lt _ _ _ hr
          by_contra hc
          have hil : m.mixtape.Playlists.length - 1 = j := by omega
          rw [hil, hr] at hb
          have : r = b := Option.some.inj hb
          rw [this] at hrid
          exact h2 hrid.symm
        exact ⟨r, by rw [hN, if_pos hjl, if_neg hji]; exact hr, hrid⟩
    · rintro ⟨r, hr, hrid⟩
      obtain ⟨hj1, hj2⟩ := horigin j r hr
      rcases hj2 with ⟨rfl, rfl, hlt⟩ | ⟨hji, hjr⟩
      · rw [← hrid, GoMap_delete_other _ _ _ (hb_id hlt), GoMap_set_same]
      · have h1 : id' ≠ id := by rw [← hrid]; exact hne_id j r hji hjr
        have h2 : id' ≠ b.ID := by rw [← hrid]; exact hne_b j r hj1 hjr
        rw [GoMap_delete_other _ _ _ h1, GoMap_set_other _ _ _ _ h2]
        exact (hpos id' j).2 ⟨r, hjr, hrid⟩
  · intro r hr
    show (m.lookup.playlistSongs.delete id) r.ID = memberSet r.SongIDs
    obtain ⟨j, hj⟩ := List.getElem?_of_mem hr
    obtain ⟨hj1, hj2⟩ := horigin j r hj
    rcases hj2 with ⟨rfl, rfl, hlt⟩ | ⟨hji, hjr⟩
    · rw [GoMap_delete_other _ _ _ (hb_id hlt)]
      exact hmem1 r (List.getElem?_mem hb)
    · rw [GoMap_delete_other _ _ _ (hne_id j r hji hjr)]
      exact hmem1 r (List.getElem?_mem hjr)
  · intro id' hid'
    show (m.lookup.playlistSongs.delete id) id' = none
    by_cases h1 : id' = id
    · rw [h1, GoMap_delete_same]
    rw [GoMap_delete_other _ _ _ h1]
    apply hmem2
    intro r hr e
    obtain ⟨k, hk⟩ := List.getElem?_of_mem hr
    have hkl := getElem?_lt _ _ _ hk
    have hki : k ≠ i := by
      intro e'
      rw [e', ha] at hk
      have : a = r := Option.some.inj hk
      rw [← this] at e
      exact h1 (e.symm.trans hid)
    by_cases hlast : k + 1 < m.mixtape.Playlists.length
    · exact hid' r (hmemN k r (by rw [if_pos hlast, if_neg hki]; exact hk)) e
    · have hkl' : m.mixtape.Playlists.length - 1 = k := by omega
      rw [hkl', hk] at hb
      have hrb : r = b := Option.some.inj hb
      have hlt : i + 1 < m.mixtape.Playlists.length := by omega
      exact hid' b (hmemN i b (by rw [if_pos hlt, if_pos rfl])) (hrb ▸ e)

theorem removePlaylist_coherent (m m' : Mixtape) (p : models.Playlist) (err : Option GoError)
    (hc : Coherent m) (h : removePlaylist m p = .ok (m', err)) : Coherent m' := by
  rcases (removePlaylist_cases _ _ _ _ h).2 with ⟨_, lg, rfl⟩ | ⟨_, i, hi, hl, lg, rfl⟩ |
    ⟨_, i, a, b, hi, _, ha, hb, lg, rfl⟩
  · exact hc
  · obtain ⟨a, ha, hid⟩ := (hc.2.1 _ _).1 hi
    rw [removed_last_eq m p.ID i a lg hl ha hid]
    have hb : m.mixtape.Playlists[m.mixtape.Playlists.length - 1]? = some a := by
      have : m.mixtape.Playlists.length - 1 = i := by omega
      rw [this]; exact ha
    exact removed_coherent m p.ID i a a lg hc ha hid hb
  · obtain ⟨a', ha', hid⟩ := (hc.2.1 _ _).1 hi
    rw [ha] at ha'
    cases ha'
    exact removed_coherent m p.ID i a b lg hc ha hid hb

/-- When `ApplyChanges` returns on a coherent engine, the engine is coherent. -/
theorem ApplyChanges_coherent (m m' : Mixtape) (changes : models.Changes) (err : Option GoError)
    (hc : Coherent m) (h : ApplyChanges m changes = .ok (m', err)) : Coherent m' :=
  ApplyChanges_loop_invariant Coherent changes.PlaylistChanges
    (fun _ _ _ a b e hP hr => addPlaylist_coherent a b _ e hP hr)
    (fun _ _ a b e hP hr => removePlaylist_coherent a b _ e hP hr)
    (fun _ _ a b e hP hr => addSongsToPlaylist_coherent a b _ e hP hr)
    m m' err hc h

/-! ### Coherence and the lookup derived by `buildLookup` -/

/-- A coherent engine holds the lookup `buildLookup` derives from its catalog,
as far as the two playlist maps go. -/
theorem coherent_eq_buildLookup (m : Mixtape) (hc : Coherent m) :
    m.lookup.playlists = (buildLookup m.mixtape).playlists ∧
      m.lookup.playlistSongs = (buildLookup m.mixtape).playlistSongs := by
  obtain ⟨hd, hpos, hmem1, hmem2⟩ := hc
  obtain ⟨_, bpos, bmem1, bmem2⟩ := New_coherent m.mixtape [] hd
  constructor
  · funext id
    apply Option.ext
    intro i
    exact (hpos id i).trans (bpos id i).symm
  · funext id
    by_cases h : ∃ p ∈ m.mixtape.Playlists, p.ID = id
    · obtain ⟨p, hp, rfl⟩ := h
      exact (hmem1 p hp).trans (bmem1 p hp).symm
    · have h' : ∀ p ∈ m.mixtape.Playlists, p.ID ≠ id := fun p hp e => h ⟨p, hp, e⟩
      exact (hmem2 id h').trans (bmem2 id h').symm

/-- C2: unique playlist ids are preserved.  If the playlists of the catalog have
pairwise distinct ids, then after `ApplyChanges` on the engine built by `New`
the playlists of the catalog have pairwise distinct ids. -/
theorem ApplyChanges_unique_playlist_ids (mixtape : models.Mixtape) (logger : util.Logger)
    (changes : models.Changes) (m' : Mixtape) (err : Option GoError)
    (hd : (mixtape.Playlists.map models.Playlist.ID).Nodup)
    (h : ApplyChanges (New mixtape logger) changes = .ok (m', err)) :
    (m'.mixtape.Playlists.map models.Playlist.ID).Nodup :=
  (ApplyChanges_coherent _ _ _ _ (New_coherent mixtape logger hd) h).1

theorem ApplyChanges_unique_playlist_ids_witness :
    (fixture.catalog.Playlists.map models.Playlist.ID).Nodup ∧
      ∃ m', ApplyChanges (New fixture.catalog []) fixture.composite = .ok (m', none) ∧
        m'.mixtape.Playlists.map models.Playlist.ID =
          ["playlist_a", "playlist_2", "playlist_x", "playlist_y", "playlist_e"] ∧
        (m'.mixtape.Playlists.map models.Playlist.ID).Nodup :=
  ⟨by decide, _, rfl, rfl,
    ApplyChanges_unique_playlist_ids fixture.catalog [] fixture.composite _ none
      (by decide) rfl⟩

/-- C7: index coherence.  If the playlists of the catalog have pairwise distinct
ids, then after `ApplyChanges` on the engine built by `New` the engine's lookup
is the lookup `buildLookup` derives from the resulting catalog: the same user
and song maps, the same map from playlist id to position, and the same
membership set for each playlist id. -/
theorem ApplyChanges_lookup_coherent (mixtape : models.Mixtape) (logger : util.Logger)
    (changes : models.Changes) (m' : Mixtape) (err : Option GoError)
    (hd : (mixtape.Playlists.map models.Playlist.ID).Nodup)
    (h : ApplyChanges (New mixtape logger) changes = .ok (m', err)) :
    m'.lookup = buildLookup m'.mixtape := by
  have hc := ApplyChanges_coherent _ _ _ _ (New_coherent mixtape logger hd) h
  obtain ⟨e1, e2⟩ := coherent_eq_buildLookup m' hc
  obtain ⟨f1, f2, f3, f4⟩ := ApplyChanges_frame _ _ _ _ h
  have eu : m'.lookup.users = (buildLookup m'.mixtape).users := by
    rw [f3]
    show buildLookup.users mixtape.Users 0 GoMap.empty =
      buildLookup.users m'.mixtape.Users 0 GoMap.empty
    rw [f1]; rfl
  have es : m'.lookup.songs = (buildLookup m'.mixtape).songs := by
    rw [f4]
    show buildLookup.songs mixtape.Songs 0 GoMap.empty =
      buildLookup.songs m'.mixtape.Songs 0 GoMap.empty
    rw [f2]; rfl
  cases hl : m'.lookup with
  | mk u s pl ps =>
    rw [hl] at e1 e2 eu es
    cases hb : buildLookup m'.mixtape with
    | mk u' s' pl' ps' =>
      rw [hb] at e1 e2 eu es
      simp only at e1 e2 eu es
      rw [e1, e2, eu, es]

theorem ApplyChanges_lookup_coherent_witness :
    (fixture.catalog.Playlists.map models.Playlist.ID).Nodup ∧
      ∃ m', ApplyChanges (New fixture.catalog []) fixture.composite = .ok (m', none) ∧
        m'.lookup.playlists "playlist_e" = some 4 ∧
        m'.lookup.playlists "playlist_1" = none ∧
        m'.lookup = buildLookup m'.mixtape :=
  ⟨by decide, _, rfl, rfl, rfl,
    ApplyChanges_lookup_coherent fixture.catalog [] fixture.composite _ none (by decide) rfl⟩

/-! ### Duplicate songs within a playlist -/

/-- C5 (counterexample): the catalog of the test suite lists no song twice in a
playlist, and after the single `add` request of `playlist_x` with song ids
`song_1, song_1` the stored playlist lists `song_1` twice.  Also, on a catalog
in which two playlists share an id, a change list without any repeated song
leaves a playlist that lists `song_1` twice. -/
theorem ApplyChanges_duplicate_song_counterexample :
    ((∀ p ∈ fixture.catalog.Playlists, p.SongIDs.Nodup) ∧
      ∃ m', ApplyChanges (New fixture.catalog []) fixture.addRepeatedSong = .ok (m', none) ∧
        m'.mixtape.Playlists =
          [⟨"playlist_1", "user_1", ["song_1", "song_2"]⟩, ⟨"playlist_2", "user_3", ["song_3"]⟩,
           ⟨"playlist_x", "user_1", ["song_1", "song_1"]⟩] ∧
        ¬ ∀ p ∈ m'.mixtape.Playlists, p.SongIDs.Nodup) ∧
    ((∀ p ∈ fixture.sharedIDCatalog.Playlists, p.SongIDs.Nodup) ∧
      ∃ m', ApplyChanges (New fixture.sharedIDCatalog []) fixture.sharedIDChanges =
          .ok (m', none) ∧
        m'.mixtape.Playlists =
          [⟨"playlist_q", "user_1", ["song_2"]⟩, ⟨"playlist_q", "user_1", ["song_1", "song_1"]⟩] ∧
        ¬ ∀ p ∈ m'.mixtape.Playlists, p.SongIDs.Nodup) :=
  ⟨⟨by decide, _, rfl, rfl, by decide⟩, ⟨by decide, _, rfl, rfl, by decide⟩⟩

theorem mem_appendSongsAt_index (pls : List models.Playlist) (i : Nat) (added : List String) :
    ∀ q' ∈ appendSongsAt pls i added, q' ∈ pls ∨
      ∃ q, pls[i]? = some q ∧ q' = { q with SongIDs := q.SongIDs ++ added } := by
  intro q' hq'
  unfold appendSongsAt at hq'
  cases hp : pls[i]? with
  | none => rw [hp] at hq'; exact Or.inl hq'
  | some q =>
    rw [hp] at hq'
    rcases List.mem_or_eq_of_mem_set hq' with h | rfl
    · exact Or.inl h
    · exact Or.inr ⟨q, rfl, rfl⟩

/-- In a coherent engine the songs `addSongsToPlaylist` appends to a playlist
are not among the songs the playlist lists. -/
theorem added_disjoint (m : Mixtape) (p q : models.Playlist) (i : Nat) (hc : Coherent m)
    (hi : m.lookup.playlists p.ID = some i) (hq : m.mixtape.Playlists[i]? = some q) :
    ∀ s ∈ q.SongIDs, s ∉ addSongsToPlaylist.added m p := by
  intro s hs hadd
  obtain ⟨_, hpos, hmem1, _⟩ := hc
  obtain ⟨q', hq', hid⟩ := (hpos _ _).1 hi
  rw [hq] at hq'
  cases hq'
  have hmem := hmem1 q (List.getElem?_mem hq)
  rw [hid] at hmem
  have hnot := (appended_known _ _ _ s hadd).2.1
  have hne : q.SongIDs ≠ [] := fun e => by rw [e] at hs; cases hs
  simp [Mixtape.hasSong, hmem, memberSet, hne, hs] at hnot

/-- C5 (amended): on a catalog with pairwise distinct playlist ids in which no
playlist lists a song id twice, and for a change list in which no `add` request
lists the id of a song of the catalog twice, after each applied change request,
that is after the first `k` requests for every `k`, no playlist lists a song id
twice. -/
theorem ApplyChanges_songs_nodup (mixtape : models.Mixtape) (logger : util.Logger)
    (changes : models.Changes) (k : Nat) (m' : Mixtape) (err : Option GoError)
    (hd : (mixtape.Playlists.map models.Playlist.ID).Nodup)
    (hnd : ∀ p ∈ mixtape.Playlists, p.SongIDs.Nodup)
    (hadd : ∀ c ∈ changes.PlaylistChanges, c.ID = models.Add →
      (c.Playlist.SongIDs.filter
        (fun s => decide (s ∈ mixtape.Songs.map models.Song.ID))).Nodup)
    (h : ApplyChanges (New mixtape logger)
      { PlaylistChanges := changes.PlaylistChanges.take k } = .ok (m', err)) :
    ∀ p ∈ m'.mixtape.Playlists, p.SongIDs.Nodup := by
  have key := ApplyChanges_loop_invariant
    (fun m => Frame (New mixtape logger) m ∧ Coherent m ∧
      ∀ p ∈ m.mixtape.Playlists, p.SongIDs.Nodup)
    (changes.PlaylistChanges.take k) ?_ ?_ ?_ (New mixtape logger) m' err
    ⟨Frame_refl _, New_coherent mixtape logger hd, hnd⟩ h
  · exact key.2.2
  · intro c hc hcadd a b e hP hr
    refine ⟨Frame_trans hP.1 (addPlaylist_frame a b _ e hr),
      addPlaylist_coherent a b _ e hP.2.1 hr, fun q hq => ?_⟩
    rcases addPlaylist_mem a b _ e hr q hq with h1 | ⟨_, rfl⟩
    · exact hP.2.2 q h1
    · have hks : ∀ sid, a.lookup.songs.has sid = true ↔ ∃ g ∈ a.mixtape.Songs, g.ID = sid := by
        intro sid
        rw [hP.1.2.2.2, hP.1.2.1]
        exact New_songs_has mixtape logger sid
      show (validSongs a c.Playlist.SongIDs).Nodup
      rw [validSongs_eq_filter a hks, hP.1.2.1]
      exact hadd c (List.mem_of_mem_take hc) hcadd
  · intro c _ a b e hP hr
    exact ⟨Frame_trans hP.1 (removePlaylist_frame a b _ e hr),
      removePlaylist_coherent a b _ e hP.2.1 hr,
      fun q hq => hP.2.2 q (removePlaylist_mem a b _ e hr q hq)⟩
  · intro c _ a b e hP hr
    refine ⟨Frame_trans hP.1 (addSongsToPlaylist_frame a b _ e hr),
      addSongsToPlaylist_coherent a b _ e hP.2.1 hr, fun q' hq' => ?_⟩
    rcases (addSongsToPlaylist_cases _ _ _ _ hr).2 with ⟨_, lg, rfl⟩ | ⟨_, i, hi, e1, _, _⟩
    · exact hP.2.2 q' hq'
    · rw [e1] at hq'
      rcases mem_appendSongsAt_index _ _ _ q' hq' with h1 | ⟨q, hq, rfl⟩
      · exact hP.2.2 q' h1
      · show (q.SongIDs ++ addSongsToPlaylist.added a c.Playlist).Nodup
        rw [List.nodup_append]
        exact ⟨hP.2.2 q (List.getElem?_mem hq), appended_nodup _ _ _,
          fun s hs hs' => added_disjoint a c.Playlist q i hP.2.1 hi hq s hs hs'⟩

theorem ApplyChanges_songs_nodup_witness :
    (fixture.catalog.Playlists.map models.Playlist.ID).Nodup ∧
      (∀ p ∈ fixture.catalog.Playlists, p.SongIDs.Nodup) ∧
      (∀ c ∈ fixture.addUpdate.PlaylistChanges, c.ID = models.Add →
        (c.Playlist.SongIDs.filter
          (fun s => decide (s ∈ fixture.catalog.Songs.map models.Song.ID))).Nodup) ∧
      ∃ m', ApplyChanges (New fixture.catalog [])
          { PlaylistChanges := fixture.addUpdate.PlaylistChanges.take 2 } = .ok (m', none) ∧
        m'.mixtape.Playlists =
          [⟨"playlist_1", "user_1", ["song_1", "song_2"]⟩, ⟨"playlist_2", "user_3", ["song_3"]⟩,
           ⟨"playlist_x", "user_1", ["song_3", "song_1"]⟩] ∧
        ∀ p ∈ m'.mixtape.Playlists, p.SongIDs.Nodup :=
  ⟨by decide, by decide, by decide, _, rfl, rfl,
    ApplyChanges_songs_nodup fixture.catalog [] fixture.addUpdate 2 _ none
      (by decide) (by decide) (by decide) rfl⟩

/-! ### When `ApplyChanges` returns -/

theorem addSongsToPlaylist_loop_total (id : String) (i : Nat) (songs : List String) :
    ∀ (m : Mixtape), (∃ p, m.mixtape.Playlists[i]? = some p) →
      (∃ inner, m.lookup.playlistSongs id = some inner) →
      ∃ m', addSongsToPlaylist.loop id i songs m = .ok m' := by
  induction songs with
  | nil => intro m _ _; exact ⟨m, rfl⟩
  | cons s rest ih =>
    intro m hp hin
    unfold addSongsToPlaylist.loop
    split
    · exact ih _ hp hin
    · split
      · exact ih _ hp hin
      · obtain ⟨p, hp⟩ := hp
        obtain ⟨inner, hin⟩ := hin
        simp only [hp, hin]
        apply ih
        · exact ⟨_, List.getElem?_set_self (getElem?_lt _ _ _ hp)⟩
        · exact ⟨_, GoMap_set_same _ _ _⟩

/-- On a coherent engine whose playlists all list a song, every operation
returns, and so does `ApplyChanges`, with a nil error. -/
theorem ApplyChanges_returns (changes : List models.PlaylistChange) :
    ∀ (m : Mixtape), Coherent m → (∀ p ∈ m.mixtape.Playlists, p.SongIDs ≠ []) →
      ∃ m', ApplyChanges.loop changes m = .ok (m', none) := by
  induction changes with
  | nil => intro m _ _; exact ⟨m, rfl⟩
  | cons c rest ih =>
    intro m hc hne
    unfold ApplyChanges.loop
    split
    · obtain ⟨m1, h1⟩ := addPlaylist_total m c.Playlist
      rw [h1]
      refine ih m1 (addPlaylist_coherent _ _ _ _ hc h1) (fun q hq => ?_)
      rcases addPlaylist_mem _ _ _ _ h1 q hq with h2 | ⟨ha, rfl⟩
      · exact hne q h2
      · exact ha.2.2.2.2
    · split
      · have hr : ∃ m1, removePlaylist m c.Playlist = .ok (m1, none) := by
          unfold removePlaylist
          simp only [Mixtape.SetPrefix, Mixtape.Printf]
          split
          · exact ⟨_, rfl⟩
          · cases hi : m.lookup.playlists c.Playlist.ID with
            | none => exact ⟨_, rfl⟩
            | some i =>
              obtain ⟨a, ha, _⟩ := (hc.2.1 _ _).1 hi
              have hil := getElem?_lt _ _ _ ha
              have hlt : m.mixtape.Playlists.length - 1 < m.mixtape.Playlists.length := by
                omega
              obtain ⟨b, hb⟩ : ∃ b, m.mixtape.Playlists[m.mixtape.Playlists.length - 1]? =
                  some b := ⟨_, List.getElem?_eq_getElem hlt⟩
              simp only [ha, hb]
              by_cases hl : (i : Int) ≠ (m.mixtape.Playlists.length : Int) - 1
              · rw [if_pos hl]
                exact ⟨_, rfl⟩
              · rw [if_neg hl]
                exact ⟨_, rfl⟩
        obtain ⟨m1, h1⟩ := hr
        rw [h1]
        exact ih m1 (removePlaylist_coherent _ _ _ _ hc h1)
          (fun q hq => hne q (removePlaylist_mem _ _ _ _ h1 q hq))
      · split
        · have hr : ∃ m1, addSongsToPlaylist m c.Playlist = .ok (m1, none) := by
            unfold addSongsToPlaylist
            simp only [Mixtape.SetPrefix, Mixtape.Printf]
            split
            · exact ⟨_, rfl⟩
            · cases hi : m.lookup.playlists c.Playlist.ID with
              | none => exact ⟨_, rfl⟩
              | some i =>
                obtain ⟨a, ha, haid⟩ := (hc.2.1 _ _).1 hi
                have hmem := hc.2.2.1 a (List.getElem?_mem ha)
                rw [haid] at hmem
                have hane := hne a (List.getElem?_mem ha)
                obtain ⟨m1, h1⟩ := addSongsToPlaylist_loop_total c.Playlist.ID i
                  c.Playlist.SongIDs
                  { mixtape := m.mixtape, lookup := m.lookup,
                    logger := util.Logger.SetPrefix m.logger "[AddSongToPlaylist] " }
                  ⟨a, ha⟩ ⟨_, by rw [hmem]; simp [memberSet, hane]; rfl⟩
                simp only [h1]
                exact ⟨_, rfl⟩
          obtain ⟨m1, h1⟩ := hr
          rw [h1]
          refine ih m1 (addSongsToPlaylist_coherent _ _ _ _ hc h1) (fun q hq => ?_)
          rcases addSongsToPlaylist_mem _ _ _ _ h1 q hq with h2 | ⟨q0, h2, rfl⟩
          · exact hne q h2
          · have := hne q0 h2
            simp [this]
        · exact ih m hc hne

/-- The user and song indices of every engine state have exactly the ids of the
catalog's users and songs. -/
theorem Reachable_keys (m : Mixtape) (hm : Reachable m) :
    (∀ uid, m.lookup.users.has uid = true ↔ ∃ u ∈ m.mixtape.Users, u.ID = uid) ∧
    (∀ sid, m.lookup.songs.has sid = true ↔ ∃ g ∈ m.mixtape.Songs, g.ID = sid) := by
  induction hm with
  | new mixtape logger => exact ⟨New_users_has mixtape logger, New_songs_has mixtape logger⟩
  | apply m m' changes err _ h ih =>
    obtain ⟨f1, f2, f3, f4⟩ := ApplyChanges_frame _ _ _ _ h
    rw [f1, f2, f3, f4]
    exact ih

/-! ### A rejected `add` request -/

/-- C10: Add, rejected, is atomic.  On every engine state and for every `add`
request whose id is empty or already a key of the position index, whose user id
is empty or not the id of a user of the catalog, or whose song ids are none or
none of them the id of a song of the catalog, `addPlaylist` returns nil and
leaves the catalog and the whole lookup, membership sets included, as they
were. -/
theorem addPlaylist_rejected_unchanged (m : Mixtape) (p : models.Playlist)
    (hm : Reachable m)
    (hrej : p.ID = "" ∨ m.lookup.playlists.has p.ID = true ∨ p.UserID = "" ∨
      (¬ ∃ u ∈ m.mixtape.Users, u.ID = p.UserID) ∨ p.SongIDs = [] ∨
      ∀ s ∈ p.SongIDs, ¬ ∃ g ∈ m.mixtape.Songs, g.ID = s) :
    ∃ m', addPlaylist m p = .ok (m', none) ∧ m'.mixtape = m.mixtape ∧ m'.lookup = m.lookup := by
  obtain ⟨ku, ks⟩ := Reachable_keys m hm
  have hna : ¬ addPlaylist.accepts m p := by
    rintro ⟨a1, a2, a3, a4, a5⟩
    rcases hrej with h | h | h | h | h | h
    · exact a1 h
    · rw [a2] at h; cases h
    · exact a3 h
    · exact h ((ku _).1 a4)
    · apply a5; simp [validSongs, h]
    · apply a5
      unfold validSongs
      rw [List.filter_eq_nil_iff]
      intro s hs hk
      exact h s hs ((ks s).1 hk)
  obtain ⟨lg, e⟩ := addPlaylist_rejected m p hna
  exact ⟨_, e, rfl, rfl⟩

theorem addPlaylist_rejected_unchanged_witness :
    ∃ m, ApplyChanges (New fixture.catalog []) fixture.addUpdate = .ok (m, none) ∧
      (∀ s ∈ fixture.playlistUnknownSongs.SongIDs, ¬ ∃ g ∈ m.mixtape.Songs, g.ID = s) ∧
      ∃ m', addPlaylist m fixture.playlistUnknownSongs = .ok (m', none) ∧
        m'.mixtape = m.mixtape ∧ m'.lookup = m.lookup :=
  ⟨_, rfl, by decide,
    addPlaylist_rejected_unchanged _ fixture.playlistUnknownSongs
      (Reachable.apply _ _ fixture.addUpdate none (Reachable.new fixture.catalog []) rfl)
      (Or.inr (Or.inr (Or.inr (Or.inr (Or.inr (by decide))))))⟩

/-! ### Coherent engine states -/

/-- An engine whose lookup is the one `buildLookup` derives from its catalog, on
a catalog with distinct playlist ids, satisfies the invariant `Coherent`. -/
theorem coherent_of_buildLookup (m : Mixtape) (hcoh : m.lookup = buildLookup m.mixtape)
    (hd : (m.mixtape.Playlists.map models.Playlist.ID).Nodup) : Coherent m := by
  have h := New_coherent m.mixtape [] hd
  unfold Coherent PositionsCoherent MembersCoherent at h ⊢
  rw [hcoh]
  exact h

/-! ### `removePlaylist`, forwards -/

theorem removePlaylist_skip (m : Mixtape) (p : models.Playlist)
    (h : p.ID = "" ∨ m.lookup.playlists p.ID = none) :
    ∃ lg, removePlaylist m p = .ok ({ m with logger := lg }, none) := by
  unfold removePlaylist
  simp only [Mixtape.SetPrefix, Mixtape.Printf]
  by_cases h1 : p.ID = ""
  · rw [if_pos h1]; exact ⟨_, rfl⟩
  · rw [if_neg h1]
    have h2 : m.lookup.playlists p.ID = none := h.resolve_left h1
    simp only [h2]
    exact ⟨_, rfl⟩

theorem removePlaylist_last (m : Mixtape) (p : models.Playlist) (i : Nat)
    (h1 : p.ID ≠ "") (hi : m.lookup.playlists p.ID = some i)
    (hl : i + 1 = m.mixtape.Playlists.length) :
    ∃ lg, removePlaylist m p =
      .ok (removePlaylist.removed m p.ID m.mixtape.Playlists m.lookup.playlists lg, none) := by
  unfold removePlaylist
  simp only [Mixtape.SetPrefix, Mixtape.Printf]
  rw [if_neg h1]
  simp only [hi]
  have hc : ¬ ((i : Int) ≠ (m.mixtape.Playlists.length : Int) - 1) := by omega
  rw [if_neg hc]
  exact ⟨_, rfl⟩

theorem removePlaylist_swap (m : Mixtape) (p : models.Playlist) (i : Nat)
    (a b : models.Playlist)
    (h1 : p.ID ≠ "") (hi : m.lookup.playlists p.ID = some i)
    (hl : i + 1 ≠ m.mixtape.Playlists.length)
    (ha : m.mixtape.Playlists[i]? = some a)
    (hb : m.mixtape.Playlists[m.mixtape.Playlists.length - 1]? = some b) :
    ∃ lg, removePlaylist m p =
      .ok (removePlaylist.removed m p.ID
        ((m.mixtape.Playlists.set i b).set (m.mixtape.Playlists.length - 1) a)
        (m.lookup.playlists.set b.ID i) lg, none) := by
  unfold removePlaylist
  simp only [Mixtape.SetPrefix, Mixtape.Printf]
  rw [if_neg h1]
  simp only [hi]
  have hc : (i : Int) ≠ (m.mixtape.Playlists.length : Int) - 1 := by omega
  rw [if_pos hc]
  simp only [ha, hb]
  exact ⟨_, rfl⟩

/-- C12: Remove of a missing playlist is a no-op.  On every engine state, a
`remove` request whose id is empty or is not a key of the position index
returns nil and leaves the catalog and the lookup as they were. -/
theorem removePlaylist_missing_unchanged (m : Mixtape) (p : models.Playlist)
    (h : p.ID = "" ∨ m.lookup.playlists p.ID = none) :
    ∃ m', removePlaylist m p = .ok (m', none) ∧ m'.mixtape = m.mixtape ∧
      m'.lookup = m.lookup := by
  obtain ⟨lg, e⟩ := removePlaylist_skip m p h
  exact ⟨_, e, rfl, rfl⟩

theorem removePlaylist_missing_unchanged_witness :
    (New fixture.catalog []).lookup.playlists fixture.playlistX.ID = none ∧
      ∃ m', removePlaylist (New fixture.catalog []) fixture.playlistX = .ok (m', none) ∧
        m'.mixtape = (New fixture.catalog []).mixtape ∧
        m'.lookup = (New fixture.catalog []).lookup :=
  ⟨rfl, removePlaylist_missing_unchanged (New fixture.catalog []) fixture.playlistX
    (Or.inr rfl)⟩

/-! ### `removePlaylist` on an existing playlist -/

/-- C11 (counterexample): two engines whose lookup is the one `buildLookup`
derives.  On the first the playlist at position 0 has the empty id, and the
`remove` request with that id leaves one playlist, not none.  On the second
the playlists at positions 0 and 1 share the id `playlist_q`, and the `remove`
request with that id leaves the playlist of position 0 in place instead of
replacing it by the last one. -/
theorem removePlaylist_swap_counterexample :
    ((New fixture.unnamedCatalog []).lookup = buildLookup fixture.unnamedCatalog ∧
      fixture.unnamedCatalog.Playlists[0]? = some ⟨"", "user_1", ["song_1"]⟩ ∧
      ∃ m', removePlaylist (New fixture.unnamedCatalog []) ⟨"", "", []⟩ = .ok (m', none) ∧
        m'.mixtape.Playlists.length = 1 ∧
        m'.mixtape.Playlists.length ≠ fixture.unnamedCatalog.Playlists.length - 1) ∧
    ((New fixture.twinCatalog []).lookup = buildLookup fixture.twinCatalog ∧
      fixture.twinCatalog.Playlists[0]? = some ⟨"playlist_q", "user_1", ["song_1"]⟩ ∧
      fixture.twinCatalog.Playlists[1]? = some ⟨"playlist_q", "user_1", ["song_2"]⟩ ∧
      ∃ m', removePlaylist (New fixture.twinCatalog []) ⟨"playlist_q", "", []⟩ =
          .ok (m', none) ∧
        m'.mixtape.Playlists = [⟨"playlist_q", "user_1", ["song_1"]⟩] ∧
        m'.mixtape.Playlists ≠
          (fixture.twinCatalog.Playlists.take 1).set 0 ⟨"playlist_q", "user_1", ["song_2"]⟩) :=
  ⟨⟨rfl, rfl, _, rfl, rfl, by decide⟩, ⟨rfl, rfl, rfl, _, rfl, rfl, by decide⟩⟩

theorem swap_take_eq (pls : List models.Playlist) (i : Nat) (a b : models.Playlist)
    (hi : i < pls.length) :
    ((pls.set i b).set (pls.length - 1) a).take (pls.length - 1) =
      (pls.take (pls.length - 1)).set i b := by
  apply List.ext_getElem?
  intro j
  rw [swap_take_getElem? pls i a b hi j, List.getElem?_set, List.getElem?_take,
    List.length_take]
  by_cases hj : j + 1 < pls.length
  · have hj' : j < pls.length - 1 := by omega
    by_cases e : j = i
    · subst e
      simp [hj, hj']
    · have e' : ¬ i = j := fun h => e h.symm
      simp [hj, hj', e, e']
  · have hj' : ¬ j < pls.length - 1 := by omega
    by_cases e : i = j
    · subst e
      simp [hj, hj']
    · simp [hj, hj', e]

/-- C11 (amended): Remove, swap-with-last.  On an engine whose lookup is the one
`buildLookup` derives from its catalog and whose playlists have pairwise
distinct ids, a `remove` request with a non-empty id that is the id of the
playlist at position `i` of the `n` playlists returns nil and leaves `n - 1`
playlists: the first `n - 1` unchanged when `i = n - 1`, else the first `n - 1`
with position `i` holding the former last playlist, whose indexed position
becomes `i`; the id is no longer a key of the position index nor of the
membership index. -/
theorem removePlaylist_swap_with_last (m : Mixtape) (p a : models.Playlist) (i : Nat)
    (hcoh : m.lookup = buildLookup m.mixtape)
    (hd : (m.mixtape.Playlists.map models.Playlist.ID).Nodup)
    (hid : p.ID ≠ "")
    (ha : m.mixtape.Playlists[i]? = some a) (haid : a.ID = p.ID) :
    ∃ m', removePlaylist m p = .ok (m', none) ∧
      m'.mixtape.Playlists.length = m.mixtape.Playlists.length - 1 ∧
      (i = m.mixtape.Playlists.length - 1 →
        m'.mixtape.Playlists = m.mixtape.Playlists.take (m.mixtape.Playlists.length - 1)) ∧
      (i ≠ m.mixtape.Playlists.length - 1 →
        ∃ b, m.mixtape.Playlists[m.mixtape.Playlists.length - 1]? = some b ∧
          m'.mixtape.Playlists =
            (m.mixtape.Playlists.take (m.mixtape.Playlists.length - 1)).set i b ∧
          m'.lookup.playlists b.ID = some i) ∧
      m'.lookup.playlists p.ID = none ∧ m'.lookup.playlistSongs p.ID = none ∧
      m'.mixtape.Users = m.mixtape.Users ∧ m'.mixtape.Songs = m.mixtape.Songs := by
  have hc := coherent_of_buildLookup m hcoh hd
  have hi : m.lookup.playlists p.ID = some i := (hc.2.1 _ _).2 ⟨a, ha, haid⟩
  have hil := getElem?_lt _ _ _ ha
  by_cases hl : i + 1 = m.mixtape.Playlists.length
  · obtain ⟨lg, e⟩ := removePlaylist_last m p i hid hi hl
    refine ⟨_, e, ?_, fun _ => rfl, fun h => absurd (by omega) h, ?_, ?_, rfl, rfl⟩
    · show (m.mixtape.Playlists.take (m.mixtape.Playlists.length - 1)).length = _
      rw [List.length_take]; omega
    · exact GoMap_delete_same _ _
    · exact GoMap_delete_same _ _
  · have hlt : m.mixtape.Playlists.length - 1 < m.mixtape.Playlists.length := by omega
    obtain ⟨b, hb⟩ : ∃ b, m.mixtape.Playlists[m.mixtape.Playlists.length - 1]? = some b :=
      ⟨_, List.getElem?_eq_getElem hlt⟩
    obtain ⟨lg, e⟩ := removePlaylist_swap m p i a b hid hi hl ha hb
    have hbid : b.ID ≠ p.ID := by
      intro h
      have := distinct_index _ hd _ i b a hb ha (h.trans haid.symm)
      omega
    refine ⟨_, e, ?_, fun h => absurd h (by omega), fun _ => ⟨b, hb, ?_, ?_⟩, ?_, ?_, rfl, rfl⟩
    · show (((m.mixtape.Playlists.set i b).set (m.mixtape.Playlists.length - 1) a).take
        (m.mixtape.Playlists.length - 1)).length = _
      rw [List.length_take, List.length_set, List.length_set]; omega
    · exact swap_take_eq _ _ _ _ hil
    · show ((m.lookup.playlists.set b.ID i).delete p.ID) b.ID = some i
      rw [GoMap_delete_other _ _ _ hbid, GoMap_set_same]
    · exact GoMap_delete_same _ _
    · exact GoMap_delete_same _ _

theorem removePlaylist_swap_with_last_witness :
    ∃ m', removePlaylist (New fixture.catalog []) ⟨"playlist_1", "", []⟩ = .ok (m', none) ∧
      m'.mixtape.Playlists = [⟨"playlist_2", "user_3", ["song_3"]⟩] ∧
      m'.lookup.playlists "playlist_2" = some 0 ∧
      m'.lookup.playlists "playlist_1" = none ∧ m'.lookup.playlistSongs "playlist_1" = none :=
  let ⟨m', h1, _, _, h4, h5, h6, _⟩ :=
    removePlaylist_swap_with_last (New fixture.catalog []) ⟨"playlist_1", "", []⟩
      ⟨"playlist_1", "user_1", ["song_1", "song_2"]⟩ 0 rfl (by decide) (by decide) rfl rfl
  let ⟨_, hb, h7, h8⟩ := h4 (by decide)
  ⟨m', h1, h7.trans (by cases hb; rfl), by cases hb; exact h8, h5, h6⟩

/-! ### `addSongsToPlaylist`, forwards -/

theorem addSongsToPlaylist_skip (m : Mixtape) (p : models.Playlist)
    (h : p.ID = "" ∨ m.lookup.playlists p.ID = none) :
    ∃ lg, addSongsToPlaylist m p = .ok ({ m with logger := lg }, none) := by
  unfold addSongsToPlaylist
  simp only [Mixtape.SetPrefix, Mixtape.Printf]
  by_cases h1 : p.ID = ""
  · rw [if_pos h1]; exact ⟨_, rfl⟩
  · rw [if_neg h1]
    have h2 : m.lookup.playlists p.ID = none := h.resolve_left h1
    simp only [h2]
    exact ⟨_, rfl⟩

/-- The loop of `addSongsToPlaylist` returns when it has nothing to append, or
when the playlist is in range and has a membership set. -/
theorem addSongsToPlaylist_loop_returns (id : String) (i : Nat) (songs : List String) :
    ∀ (m : Mixtape),
      (addSongsToPlaylist.appended m.lookup.songs.has (m.hasSong id) songs = [] ∨
        ((∃ p, m.mixtape.Playlists[i]? = some p) ∧
          ∃ inner, m.lookup.playlistSongs id = some inner)) →
      ∃ m', addSongsToPlaylist.loop id i songs m = .ok m' := by
  induction songs with
  | nil => intro m _; exact ⟨m, rfl⟩
  | cons s rest ih =>
    intro m h
    rcases h with h | ⟨hp, hin⟩
    swap
    · exact addSongsToPlaylist_loop_total id i (s :: rest) m hp hin
    unfold addSongsToPlaylist.loop
    by_cases hk : m.lookup.songs.has s = true
    swap
    · simp only [hk, Bool.not_false, if_true]
      apply ih
      left
      simpa [addSongsToPlaylist.appended, hk, Mixtape.Printf, hasSong_Printf] using h
    by_cases hm : m.hasSong id s = true
    · have hm' : ((m.lookup.playlistSongs id).bind (fun inner => inner s)).isSome = true := hm
      simp only [hk, Bool.not_true, Bool.false_eq_true, if_false, hm', if_true]
      apply ih
      left
      simpa [addSongsToPlaylist.appended, hk, hm, Mixtape.Printf, hasSong_Printf] using h
    · simp [addSongsToPlaylist.appended, hk, hm] at h

/-- The result of `addSongsToPlaylist` on an indexed playlist, when it has
nothing to append or the playlist is in range and has a membership set. -/
theorem addSongsToPlaylist_found (m : Mixtape) (p : models.Playlist) (i : Nat)
    (h1 : p.ID ≠ "") (hi : m.lookup.playlists p.ID = some i)
    (h : addSongsToPlaylist.added m p = [] ∨
      ((∃ q, m.mixtape.Playlists[i]? = some q) ∧
        ∃ inner, m.lookup.playlistSongs p.ID = some inner)) :
    ∃ m', addSongsToPlaylist m p = .ok (m', none) ∧
      m'.mixtape = { m.mixtape with
                     Playlists := appendSongsAt m.mixtape.Playlists i
                       (addSongsToPlaylist.added m p) } ∧
      m'.lookup = { m.lookup with
                    playlistSongs := markSongsAt m.lookup.playlistSongs p.ID
                      (addSongsToPlaylist.added m p) } := by
  obtain ⟨m1, hl⟩ := addSongsToPlaylist_loop_returns p.ID i p.SongIDs
    { mixtape := m.mixtape, lookup := m.lookup,
      logger := util.Logger.SetPrefix m.logger "[AddSongToPlaylist] " } h
  have he : addSongsToPlaylist m p = .ok (m1, none) := by
    unfold addSongsToPlaylist
    simp only [Mixtape.SetPrefix, Mixtape.Printf]
    rw [if_neg h1]
    simp only [hi, hl]
  obtain ⟨e1, e2, _⟩ := addSongsToPlaylist_loop_spec _ _ _
    { mixtape := m.mixtape, lookup := m.lookup,
      logger := util.Logger.SetPrefix m.logger "[AddSongToPlaylist] " } _ hl
  exact ⟨m1, he, e1, e2⟩

/-! ### The appended songs, in the words of the spec -/

theorem firstOccurrences_filter (p : String → Bool) (l : List String) :
    firstOccurrences (l.filter p) = (firstOccurrences l).filter p := by
  induction l with
  | nil => rfl
  | cons x rest ih =>
    by_cases hp : p x = true
    · rw [List.filter_cons_of_pos hp]
      simp only [firstOccurrences]
      rw [List.filter_cons_of_pos hp, ih, List.filter_filter, List.filter_filter]
      congr 1
      apply List.filter_congr
      intro y _
      exact Bool.and_comm _ _
    · rw [List.filter_cons_of_neg hp]
      simp only [firstOccurrences]
      rw [List.filter_cons_of_neg hp, ih, List.filter_filter]
      apply List.filter_congr
      intro y _
      by_cases hy : y = x
      · subst hy
        simp [hp]
      · simp [hy]

/-- The songs the loop appends are the first occurrences of the requested songs
that are known and not members. -/
theorem appended_eq_firstOccurrences (known : String → Bool) (songs : List String) :
    ∀ (member : String → Bool),
      addSongsToPlaylist.appended known member songs =
        firstOccurrences (songs.filter (fun s => known s && !member s)) := by
  induction songs with
  | nil => intro member; rfl
  | cons x rest ih =>
    intro member
    unfold addSongsToPlaylist.appended
    by_cases hc : (known x && !member x) = true
    · have hf : (x :: rest).filter (fun s => known s && !member s) =
          x :: rest.filter (fun s => known s && !member s) := by
        simp only [List.filter_cons, hc, if_true]
      rw [if_pos hc, hf, ih]
      simp only [firstOccurrences]
      congr 1
      rw [← firstOccurrences_filter, List.filter_filter]
      congr 1
      apply List.filter_congr
      intro y _
      by_cases hy : y = x
      · subst hy; simp
      · have hy' : (y == x) = false := by simpa using hy
        simp [hy, hy']
    · have hf : (x :: rest).filter (fun s => known s && !member s) =
          rest.filter (fun s => known s && !member s) := by
        simp only [List.filter_cons, hc]
        rfl
      rw [if_neg hc, hf, ih]

/-! ### `addSongsToPlaylist` on an existing playlist -/

/-- In a coherent engine the membership test of an indexed playlist is the
membership in its song ids. -/
theorem coherent_hasSong (m : Mixtape) (hc : Coherent m) (q : models.Playlist)
    (hq : q ∈ m.mixtape.Playlists) (s : String) :
    m.hasSong q.ID s = decide (s ∈ q.SongIDs) := by
  have hmem := hc.2.2.1 q hq
  unfold Mixtape.hasSong
  rw [hmem]
  unfold memberSet
  by_cases hs : q.SongIDs = []
  · simp [hs]
  · by_cases h1 : s ∈ q.SongIDs
    · simp [hs, h1]
    · simp [hs, h1]

/-- In a coherent engine whose song index has the ids of the catalog's songs,
the songs `addSongsToPlaylist` appends to the playlist `q` are `newSongs`. -/
theorem added_eq_newSongs (m : Mixtape) (hc : Coherent m)
    (ks : ∀ sid, m.lookup.songs.has sid = true ↔ ∃ g ∈ m.mixtape.Songs, g.ID = sid)
    (p q : models.Playlist) (hq : q ∈ m.mixtape.Playlists) (hqid : q.ID = p.ID) :
    addSongsToPlaylist.added m p = newSongs m.mixtape.Songs q.SongIDs p.SongIDs := by
  unfold addSongsToPlaylist.added newSongs
  rw [appended_eq_firstOccurrences]
  congr 1
  apply List.filter_congr
  intro s _
  rw [← hqid, coherent_hasSong m hc q hq s]
  have := ks s
  by_cases hk : m.lookup.songs.has s = true
  · have h2 : s ∈ m.mixtape.Songs.map models.Song.ID := by
      rw [List.mem_map]; exact this.1 hk
    simp [hk, h2]
  · have h2 : ¬ s ∈ m.mixtape.Songs.map models.Song.ID := by
      rw [List.mem_map]; exact fun h => hk (this.2 h)
    simp [hk, h2]

/-- C13 (counterexample): two engines whose lookup is the one `buildLookup`
derives.  On the first the playlist at position 0 has the empty id and lists
`song_1`; the `add_songs` request with that id and the new, existing song
`song_2` leaves it unchanged instead of appending `song_2`.  On the second the
playlists at positions 0 and 1 share the id `playlist_q`; the `add_songs`
request of `song_1`, which the playlist at position 1 does not list, leaves
that playlist unchanged instead of appending `song_1`. -/
theorem addSongsToPlaylist_appends_counterexample :
    ((New fixture.unnamedCatalog []).lookup = buildLookup fixture.unnamedCatalog ∧
      fixture.unnamedCatalog.Playlists[0]? = some ⟨"", "user_1", ["song_1"]⟩ ∧
      newSongs fixture.unnamedCatalog.Songs ["song_1"] ["song_2"] = ["song_2"] ∧
      ∃ m', addSongsToPlaylist (New fixture.unnamedCatalog []) ⟨"", "", ["song_2"]⟩ =
          .ok (m', none) ∧
        m'.mixtape.Playlists = [⟨"", "user_1", ["song_1"]⟩] ∧
        m'.mixtape.Playlists[0]? ≠ some ⟨"", "user_1", ["song_1", "song_2"]⟩) ∧
    ((New fixture.twinCatalog []).lookup = buildLookup fixture.twinCatalog ∧
      fixture.twinCatalog.Playlists[1]? = some ⟨"playlist_q", "user_1", ["song_2"]⟩ ∧
      newSongs fixture.twinCatalog.Songs ["song_2"] ["song_1"] = ["song_1"] ∧
      ∃ m', addSongsToPlaylist (New fixture.twinCatalog []) ⟨"playlist_q", "", ["song_1"]⟩ =
          .ok (m', none) ∧
        m'.mixtape.Playlists = fixture.twinCatalog.Playlists ∧
        m'.mixtape.Playlists[1]? ≠ some ⟨"playlist_q", "user_1", ["song_2", "song_1"]⟩) :=
  ⟨⟨rfl, rfl, by decide, _, rfl, rfl, by decide⟩,
    ⟨rfl, rfl, by decide, _, rfl, rfl, by decide⟩⟩

/-- C13 (amended): AddSongs result.  On an engine whose lookup is the one
`buildLookup` derives from its catalog and whose playlists have pairwise
distinct ids, for an `add_songs` request with a non-empty id that is the id of
the playlist `q` at position `i`, where `q` lists a song or the request brings
no new song: the request returns nil and leaves the playlists with position `i`
holding `q` with its song ids followed by `newSongs`, the first occurrence, in
request order, of each requested id of a song of the catalog that `q` does not
list; the id, owner and position of `q`, the other playlists and their order,
the users and the songs are unchanged, and a request without song ids changes
neither catalog nor lookup. -/
theorem addSongsToPlaylist_appends (m : Mixtape) (p q : models.Playlist) (i : Nat)
    (hcoh : m.lookup = buildLookup m.mixtape)
    (hd : (m.mixtape.Playlists.map models.Playlist.ID).Nodup)
    (hid : p.ID ≠ "")
    (hq : m.mixtape.Playlists[i]? = some q) (hqid : q.ID = p.ID)
    (hne : q.SongIDs ≠ [] ∨ newSongs m.mixtape.Songs q.SongIDs p.SongIDs = []) :
    ∃ m', addSongsToPlaylist m p = .ok (m', none) ∧
      m'.mixtape.Playlists = m.mixtape.Playlists.set i
        { ID := q.ID, UserID := q.UserID
          SongIDs := q.SongIDs ++ newSongs m.mixtape.Songs q.SongIDs p.SongIDs } ∧
      m'.mixtape.Users = m.mixtape.Users ∧ m'.mixtape.Songs = m.mixtape.Songs ∧
      (p.SongIDs = [] → m'.mixtape = m.mixtape ∧ m'.lookup = m.lookup) := by
  have hc := coherent_of_buildLookup m hcoh hd
  have hi : m.lookup.playlists p.ID = some i := (hc.2.1 _ _).2 ⟨q, hq, hqid⟩
  have hqm := List.getElem?_mem hq
  have hadd := added_eq_newSongs m hc (coherent_keys m hcoh).2.2 p q hqm hqid
  have hcond : addSongsToPlaylist.added m p = [] ∨
      ((∃ q, m.mixtape.Playlists[i]? = some q) ∧
        ∃ inner, m.lookup.playlistSongs p.ID = some inner) := by
    rcases hne with h | h
    · refine Or.inr ⟨⟨q, hq⟩, ?_⟩
      rw [← hqid, hc.2.2.1 q hqm]
      exact ⟨_, by simp [memberSet, h]; rfl⟩
    · exact Or.inl (hadd.trans h)
  obtain ⟨m', e, e1, e2⟩ := addSongsToPlaylist_found m p i hid hi hcond
  rw [hadd] at e1 e2
  refine ⟨m', e, ?_, by rw [e1], by rw [e1], ?_⟩
  · rw [e1]
    simp only [appendSongsAt, hq]
  · intro hs
    have hN : newSongs m.mixtape.Songs q.SongIDs p.SongIDs = [] := by
      simp [newSongs, hs, firstOccurrences]
    rw [hN, appendSongsAt_nil] at e1
    rw [hN, markSongsAt_nil] at e2
    exact ⟨e1, e2⟩

theorem addSongsToPlaylist_appends_witness :
    ∃ m', addSongsToPlaylist (New fixture.catalog []) ⟨"playlist_2", "", ["song_2", "song_1"]⟩ =
        .ok (m', none) ∧
      m'.mixtape.Playlists =
        [⟨"playlist_1", "user_1", ["song_1", "song_2"]⟩,
         ⟨"playlist_2", "user_3", ["song_3", "song_2", "song_1"]⟩] :=
  let ⟨m', h1, h2, _⟩ :=
    addSongsToPlaylist_appends (New fixture.catalog []) ⟨"playlist_2", "", ["song_2", "song_1"]⟩
      ⟨"playlist_2", "user_3", ["song_3"]⟩ 1 rfl (by decide) (by decide) rfl rfl
      (Or.inl (by decide))
  ⟨m', h1, h2.trans (by decide)⟩

/-! ### One step of `ApplyChanges` -/

theorem ApplyChanges_loop_cons_add (p : models.Playlist) (rest : List models.PlaylistChange)
    (m m1 : Mixtape) (h : addPlaylist m p = .ok (m1, none)) :
    ApplyChanges.loop (⟨models.Add, p⟩ :: rest) m = ApplyChanges.loop rest m1 := by
  rw [ApplyChanges.loop]
  simp only [if_true, h]

theorem ApplyChanges_loop_cons_remove (p : models.Playlist) (rest : List models.PlaylistChange)
    (m m1 : Mixtape) (h : removePlaylist m p = .ok (m1, none)) :
    ApplyChanges.loop (⟨models.Remove, p⟩ :: rest) m = ApplyChanges.loop rest m1 := by
  rw [ApplyChanges.loop]
  have h1 : ¬ (models.Remove = models.Add) := by decide
  simp only [h1, if_false, if_true, h]

theorem ApplyChanges_loop_cons_addSongs (p : models.Playlist)
    (rest : List models.PlaylistChange) (m m1 : Mixtape)
    (h : addSongsToPlaylist m p = .ok (m1, none)) :
    ApplyChanges.loop (⟨models.AddSongs, p⟩ :: rest) m = ApplyChanges.loop rest m1 := by
  rw [ApplyChanges.loop]
  have h1 : ¬ (models.AddSongs = models.Add) := by decide
  have h2 : ¬ (models.AddSongs = models.Remove) := by decide
  simp only [h1, h2, if_false, if_true, h]

theorem ApplyChanges_loop_cons_addSongs_panic (p : models.Playlist)
    (rest : List models.PlaylistChange) (m : Mixtape) (e : Panic)
    (h : addSongsToPlaylist m p = .error e) :
    ApplyChanges.loop (⟨models.AddSongs, p⟩ :: rest) m = .error e := by
  rw [ApplyChanges.loop]
  have h1 : ¬ (models.AddSongs = models.Add) := by decide
  have h2 : ¬ (models.AddSongs = models.Remove) := by decide
  simp only [h1, h2, if_false, if_true, h]

/-! ### Songs that are already members -/

theorem mem_firstOccurrences (l : List String) (s : String) :
    s ∈ firstOccurrences l ↔ s ∈ l := by
  induction l with
  | nil => simp [firstOccurrences]
  | cons x rest ih =>
    simp only [firstOccurrences, List.mem_cons, List.mem_filter, ih]
    by_cases h : s = x
    · simp [h]
    · simp [h]

theorem appended_eq_nil_iff (known member : String → Bool) (songs : List String) :
    addSongsToPlaylist.appended known member songs = [] ↔
      ∀ s ∈ songs, known s = true → member s = true := by
  rw [appended_eq_firstOccurrences]
  constructor
  · intro h s hs hk
    by_contra hm
    have : s ∈ firstOccurrences (songs.filter (fun s => known s && !member s)) := by
      rw [mem_firstOccurrences, List.mem_filter]
      exact ⟨hs, by simp [hk, hm]⟩
    rw [h] at this
    cases this
  · intro h
    have hf : songs.filter (fun s => known s && !member s) = [] := by
      rw [List.filter_eq_nil_iff]
      intro s hs hc
      simp only [Bool.and_eq_true, Bool.not_eq_true', ] at hc
      have := h s hs hc.1
      rw [hc.2] at this
      cases this
    rw [hf]
    rfl

theorem songIDs_keeps (id : String) (songs : List String) (ps : GoMap (GoMap Bool))
    (id' s : String) (h : (ps id').bind (fun inner => inner s) = some true) :
    (buildLookup.songIDs id songs ps id').bind (fun inner => inner s) = some true := by
  by_cases e : id' = id
  · subst e
    by_cases hs : songs = []
    · subst hs; exact h
    · rw [songIDs_same _ _ _ hs]
      simp only [Option.some_bind]
      by_cases h1 : s ∈ songs
      · simp [h1]
      · simp only [h1, if_false]
        cases hp : ps id' with
        | none => rw [hp] at h; cases h
        | some inner => rw [hp] at h; exact h
  · rw [songIDs_other _ _ _ _ e]
    exact h

theorem songIDs_marks (id : String) (songs : List String) (ps : GoMap (GoMap Bool))
    (s : String) (hs : s ∈ songs) :
    (buildLookup.songIDs id songs ps id).bind (fun inner => inner s) = some true := by
  have hne : songs ≠ [] := fun e => by rw [e] at hs; cases hs
  rw [songIDs_same _ _ _ hne]
  simp [hs]

theorem buildLookup_playlists_keeps (pls : List models.Playlist) :
    ∀ (i : Nat) (acc : GoMap Nat × GoMap (GoMap Bool)) (id s : String),
      (acc.2 id).bind (fun inner => inner s) = some true →
      ((buildLookup.playlists pls i acc).2 id).bind (fun inner => inner s) = some true := by
  induction pls with
  | nil => intro i acc id s h; exact h
  | cons q rest ih =>
    intro i acc id s h
    rw [buildLookup.playlists]
    exact ih _ _ _ _ (songIDs_keeps _ _ _ _ _ h)

/-- The membership index `buildLookup` derives holds, under the id of each
playlist, each song the playlist lists. -/
theorem buildLookup_playlists_marks (pls : List models.Playlist) :
    ∀ (i : Nat) (acc : GoMap Nat × GoMap (GoMap Bool)),
      ∀ q ∈ pls, ∀ s ∈ q.SongIDs,
        ((buildLookup.playlists pls i acc).2 q.ID).bind (fun inner => inner s) = some true := by
  induction pls with
  | nil => intro i acc q hq; cases hq
  | cons x rest ih =>
    intro i acc q hq s hs
    rw [buildLookup.playlists]
    rcases List.mem_cons.1 hq with rfl | hq'
    · exact buildLookup_playlists_keeps rest _ _ _ _ (songIDs_marks _ _ _ _ hs)
    · exact ih _ _ q hq' s hs

theorem buildLookup_hasSong (m : Mixtape) (hcoh : m.lookup = buildLookup m.mixtape)
    (q : models.Playlist) (hq : q ∈ m.mixtape.Playlists) (s : String) (hs : s ∈ q.SongIDs) :
    m.hasSong q.ID s = true := by
  unfold Mixtape.hasSong
  rw [hcoh]
  have := buildLookup_playlists_marks m.mixtape.Playlists 0 (GoMap.empty, GoMap.empty) q hq s hs
  show (((buildLookup.playlists m.mixtape.Playlists 0 (GoMap.empty, GoMap.empty)).2 q.ID).bind
    (fun inner => inner s)).isSome = true
  rw [this]
  rfl

/-- When `addSongsToPlaylist` has nothing to append it returns nil and leaves
catalog and lookup as they were. -/
theorem addSongsToPlaylist_nothing (m : Mixtape) (p : models.Playlist)
    (h : addSongsToPlaylist.added m p = []) :
    ∃ m', addSongsToPlaylist m p = .ok (m', none) ∧ m'.mixtape = m.mixtape ∧
      m'.lookup = m.lookup := by
  by_cases hskip : p.ID = "" ∨ m.lookup.playlists p.ID = none
  · obtain ⟨lg, e⟩ := addSongsToPlaylist_skip m p hskip
    exact ⟨_, e, rfl, rfl⟩
  · have h1 : p.ID ≠ "" := fun e => hskip (Or.inl e)
    cases hi : m.lookup.playlists p.ID with
    | none => exact absurd (Or.inr hi) hskip
    | some i =>
      obtain ⟨m', e, e1, e2⟩ := addSongsToPlaylist_found m p i h1 hi (Or.inl h)
      rw [h, appendSongsAt_nil] at e1
      rw [h, markSongsAt_nil] at e2
      exact ⟨m', e, e1, e2⟩

theorem markSongsAt_isSome (ps : GoMap (GoMap Bool)) (id : String) (added : List String)
    (h : added ≠ [] → ∃ inner, ps id = some inner) (s : String) :
    ((markSongsAt ps id added id).bind (fun inner => inner s)).isSome =
      (decide (s ∈ added) || ((ps id).bind (fun inner => inner s)).isSome) := by
  unfold markSongsAt
  cases hp : ps id with
  | none =>
    have : added = [] := by
      by_contra hne
      obtain ⟨inner, hi⟩ := h hne
      rw [hp] at hi
      cases hi
    simp [hp, this]
  | some inner =>
    simp only [GoMap_set_same, Option.some_bind]
    by_cases h1 : s ∈ added
    · simp [h1]
    · simp [h1]

/-- A second call of `addSongsToPlaylist` with the same request, after one that
returned, returns nil and changes neither catalog nor lookup. -/
theorem addSongsToPlaylist_again (m m1 : Mixtape) (p : models.Playlist) (err : Option GoError)
    (h : addSongsToPlaylist m p = .ok (m1, err)) :
    ∃ m2, addSongsToPlaylist m1 p = .ok (m2, none) ∧ m2.mixtape = m1.mixtape ∧
      m2.lookup = m1.lookup := by
  rcases (addSongsToPlaylist_cases _ _ _ _ h).2 with ⟨hs, lg, rfl⟩ | ⟨h1, i, hi, _, e2, hne⟩
  · obtain ⟨lg', e⟩ := addSongsToPlaylist_skip { m with logger := lg } p hs
    exact ⟨_, e, rfl, rfl⟩
  · apply addSongsToPlaylist_nothing
    unfold addSongsToPlaylist.added
    rw [appended_eq_nil_iff]
    intro s hs hk
    have hk' : m.lookup.songs.has s = true := by rw [e2] at hk; exact hk
    unfold Mixtape.hasSong
    rw [e2]
    show ((markSongsAt m.lookup.playlistSongs p.ID (addSongsToPlaylist.added m p) p.ID).bind
      (fun inner => inner s)).isSome = true
    rw [markSongsAt_isSome _ _ _ (fun hn => (hne hn).2)]
    by_cases hm : m.hasSong p.ID s = true
    · have hm' : ((m.lookup.playlistSongs p.ID).bind (fun inner => inner s)).isSome = true := hm
      simp [hm']
    · have : s ∈ addSongsToPlaylist.added m p := by
        unfold addSongsToPlaylist.added
        rw [appended_eq_firstOccurrences, mem_firstOccurrences, List.mem_filter]
        exact ⟨hs, by simp [hk', hm]⟩
      simp [this]

/-! ### `add_songs` requests: idempotence and the ignored user id -/

/-- C14: AddSongs of existing members is idempotent.  On an engine whose lookup
is the one `buildLookup` derives from its catalog, an `add_songs` request all
of whose song ids are listed by the playlist with the request's id returns nil
and leaves the catalog unchanged; and for every `add_songs` request, applying
it twice in a row gives the same catalog (or the same panic) as applying it
once. -/
theorem addSongs_idempotent (m : Mixtape) (p : models.Playlist)
    (hcoh : m.lookup = buildLookup m.mixtape) :
    (∀ q ∈ m.mixtape.Playlists, q.ID = p.ID → (∀ s ∈ p.SongIDs, s ∈ q.SongIDs) →
      ∃ m', ApplyChanges m { PlaylistChanges := [⟨models.AddSongs, p⟩] } = .ok (m', none) ∧
        m'.mixtape = m.mixtape) ∧
    (ApplyChanges m
        { PlaylistChanges := [⟨models.AddSongs, p⟩, ⟨models.AddSongs, p⟩] }).map
        (fun r => r.1.mixtape) =
      (ApplyChanges m { PlaylistChanges := [⟨models.AddSongs, p⟩] }).map
        (fun r => r.1.mixtape) := by
  constructor
  · intro q hq hqid hall
    have hadd : addSongsToPlaylist.added m p = [] := by
      unfold addSongsToPlaylist.added
      rw [appended_eq_nil_iff]
      intro s hs _
      rw [← hqid]
      exact buildLookup_hasSong m hcoh q hq s (hall s hs)
    obtain ⟨m', e, e1, _⟩ := addSongsToPlaylist_nothing m p hadd
    refine ⟨m', ?_, e1⟩
    show ApplyChanges.loop [⟨models.AddSongs, p⟩] m = _
    rw [ApplyChanges_loop_cons_addSongs p [] m m' e]
    rfl
  · show (ApplyChanges.loop [⟨models.AddSongs, p⟩, ⟨models.AddSongs, p⟩] m).map _ =
      (ApplyChanges.loop [⟨models.AddSongs, p⟩] m).map _
    cases h : addSongsToPlaylist m p with
    | error e =>
      rw [ApplyChanges_loop_cons_addSongs_panic p _ m e h,
        ApplyChanges_loop_cons_addSongs_panic p _ m e h]
    | ok r =>
      obtain ⟨m1, err⟩ := r
      have herr := (addSongsToPlaylist_cases _ _ _ _ h).1
      subst herr
      obtain ⟨m2, e2, e3, _⟩ := addSongsToPlaylist_again m m1 p none h
      rw [ApplyChanges_loop_cons_addSongs p _ m m1 h,
        ApplyChanges_loop_cons_addSongs p _ m1 m2 e2,
        ApplyChanges_loop_cons_addSongs p _ m m1 h]
      simp only [ApplyChanges.loop, Except.map, e3]

theorem addSongs_idempotent_witness :
    (New fixture.catalog []).lookup = buildLookup (New fixture.catalog []).mixtape ∧
    (∃ m', ApplyChanges (New fixture.catalog [])
        { PlaylistChanges := [⟨models.AddSongs, fixture.knownMembers⟩] } = .ok (m', none) ∧
      m'.mixtape = fixture.catalog) ∧
    (ApplyChanges (New fixture.catalog [])
        { PlaylistChanges := [⟨models.AddSongs, fixture.knownMembers⟩,
                              ⟨models.AddSongs, fixture.knownMembers⟩] }).map
        (fun r => r.1.mixtape) =
      (ApplyChanges (New fixture.catalog [])
        { PlaylistChanges := [⟨models.AddSongs, fixture.knownMembers⟩] }).map
        (fun r => r.1.mixtape) :=
  ⟨rfl,
    (addSongs_idempotent (New fixture.catalog []) fixture.knownMembers rfl).1
      ⟨"playlist_2", "user_3", ["song_3"]⟩ (by decide) rfl (by decide),
    (addSongs_idempotent (New fixture.catalog []) fixture.knownMembers rfl).2⟩

theorem appendSongsAt_owners (pls : List models.Playlist) (i : Nat) (added : List String) :
    (appendSongsAt pls i added).map models.Playlist.UserID = pls.map models.Playlist.UserID ∧
      (appendSongsAt pls i added).map models.Playlist.ID = pls.map models.Playlist.ID := by
  unfold appendSongsAt
  cases hq : pls[i]? with
  | none => exact ⟨rfl, rfl⟩
  | some q =>
    have hil := getElem?_lt _ _ _ hq
    constructor
    · apply List.ext_getElem?
      intro n
      rw [List.getElem?_map, List.getElem?_map]
      by_cases hn : i = n
      · subst hn
        rw [List.getElem?_set_self hil, hq]
        rfl
      · rw [List.getElem?_set_ne hn]
    · apply List.ext_getElem?
      intro n
      rw [List.getElem?_map, List.getElem?_map]
      by_cases hn : i = n
      · subst hn
        rw [List.getElem?_set_self hil, hq]
        rfl
      · rw [List.getElem?_set_ne hn]

/-- C15: AddSongs ignores the request's user id.  On every engine state, two
`add_songs` requests with the same id and the same song ids, whatever their
user ids, give the same result: the same catalog, lookup and calls on the
logger (or the same panic); and when the call returns, every playlist, the
target included, keeps its owner and its id. -/
theorem addSongsToPlaylist_ignores_user_id (m : Mixtape) (p1 p2 : models.Playlist)
    (hid : p1.ID = p2.ID) (hsongs : p1.SongIDs = p2.SongIDs) :
    addSongsToPlaylist m p1 = addSongsToPlaylist m p2 ∧
      ∀ m' err, addSongsToPlaylist m p1 = .ok (m', err) →
        m'.mixtape.Playlists.map models.Playlist.UserID =
            m.mixtape.Playlists.map models.Playlist.UserID ∧
          m'.mixtape.Playlists.map models.Playlist.ID =
            m.mixtape.Playlists.map models.Playlist.ID := by
  constructor
  · unfold addSongsToPlaylist
    rw [hid, hsongs]
  · intro m' err h
    rcases (addSongsToPlaylist_cases _ _ _ _ h).2 with ⟨_, lg, rfl⟩ | ⟨_, i, _, e1, _, _⟩
    · exact ⟨rfl, rfl⟩
    · rw [e1]
      exact appendSongsAt_owners _ _ _

theorem addSongsToPlaylist_ignores_user_id_witness :
    addSongsToPlaylist (New fixture.catalog []) fixture.withUserID =
        addSongsToPlaylist (New fixture.catalog []) ⟨"playlist_1", "", ["song_3"]⟩ ∧
      ∃ m', addSongsToPlaylist (New fixture.catalog []) fixture.withUserID = .ok (m', none) ∧
        m'.mixtape.Playlists =
          [⟨"playlist_1", "user_1", ["song_1", "song_2", "song_3"]⟩,
           ⟨"playlist_2", "user_3", ["song_3"]⟩] ∧
        m'.mixtape.Playlists.map models.Playlist.UserID =
          (New fixture.catalog []).mixtape.Playlists.map models.Playlist.UserID :=
  ⟨(addSongsToPlaylist_ignores_user_id (New fixture.catalog []) fixture.withUserID
      ⟨"playlist_1", "", ["song_3"]⟩ rfl rfl).1,
    _, rfl, rfl,
    ((addSongsToPlaylist_ignores_user_id (New fixture.catalog []) fixture.withUserID
      ⟨"playlist_1", "", ["song_3"]⟩ rfl rfl).2 _ none rfl).1⟩

/-! ### `ApplyChanges` on a concatenated change list -/

theorem ApplyChanges_loop_append (A B : List models.PlaylistChange) :
    ∀ (m : Mixtape),
      ApplyChanges.loop (A ++ B) m =
        (match ApplyChanges.loop A m with
         | .ok (m1, _) => ApplyChanges.loop B m1
         | .error e => .error e) := by
  induction A with
  | nil => intro m; rfl
  | cons c rest ih =>
    intro m
    rw [List.cons_append, ApplyChanges.loop, ApplyChanges.loop]
    split
    · cases hr : addPlaylist m c.Playlist with
      | error e => rfl
      | ok r =>
        obtain ⟨m1, e1⟩ := r
        have := (addPlaylist_cases _ _ _ _ hr).1
        subst this
        exact ih m1
    · split
      · cases hr : removePlaylist m c.Playlist with
        | error e => rfl
        | ok r =>
          obtain ⟨m1, e1⟩ := r
          have := (removePlaylist_cases _ _ _ _ hr).1
          subst this
          exact ih m1
      · split
        · cases hr : addSongsToPlaylist m c.Playlist with
          | error e => rfl
          | ok r =>
            obtain ⟨m1, e1⟩ := r
            have := (addSongsToPlaylist_cases _ _ _ _ hr).1
            subst this
            exact ih m1
        · exact ih m

/-- C16: requests are applied in list order and the engine keeps no state
outside the catalog, the lookup and the logger.  On every engine state and for
all change lists `A` and `B`, `ApplyChanges` of `A ++ B` is `ApplyChanges` of
`A` followed, on the engine it leaves, by `ApplyChanges` of `B`: the same
catalog, lookup, calls on the logger and returned error, or the same panic;
and `ApplyChanges` of the empty list returns nil and changes nothing. -/
theorem ApplyChanges_append (m : Mixtape) (A B : List models.PlaylistChange) :
    ApplyChanges m { PlaylistChanges := A ++ B } =
        (match ApplyChanges m { PlaylistChanges := A } with
         | .ok (m1, _) => ApplyChanges m1 { PlaylistChanges := B }
         | .error e => .error e) ∧
      ApplyChanges m { PlaylistChanges := [] } = .ok (m, none) :=
  ⟨ApplyChanges_loop_append A B m, rfl⟩

/-! ### An accepted `add` followed by another request on the same playlist -/

/-- The conditions of acceptance read on the catalog imply the checks of
`addPlaylist`, on an engine whose lookup is derived from its catalog. -/
theorem accepts_of_catalog (m : Mixtape) (p : models.Playlist)
    (hcoh : m.lookup = buildLookup m.mixtape)
    (hid : p.ID ≠ "") (hfresh : ∀ q ∈ m.mixtape.Playlists, q.ID ≠ p.ID)
    (huid : p.UserID ≠ "") (huser : ∃ u ∈ m.mixtape.Users, u.ID = p.UserID)
    (hsong : ∃ s ∈ p.SongIDs, ∃ g ∈ m.mixtape.Songs, g.ID = s) :
    addPlaylist.accepts m p := by
  obtain ⟨kp, ku, ks⟩ := coherent_keys m hcoh
  refine ⟨hid, ?_, huid, (ku _).2 huser, ?_⟩
  · cases hh : m.lookup.playlists.has p.ID with
    | false => rfl
    | true =>
      obtain ⟨q, hq, e⟩ := (kp _).1 hh
      exact absurd e (hfresh q hq)
  · obtain ⟨s, hs, hg⟩ := hsong
    intro he
    have : s ∈ validSongs m p.SongIDs := by
      unfold validSongs
      exact List.mem_filter.2 ⟨hs, by simpa using (ks s).2 hg⟩
    rw [he] at this
    cases this

/-- On an engine whose lookup is derived from its catalog, an id that no
playlist has is a key of neither playlist map. -/
theorem fresh_not_indexed (m : Mixtape) (hcoh : m.lookup = buildLookup m.mixtape)
    (id : String) (hfresh : ∀ q ∈ m.mixtape.Playlists, q.ID ≠ id) :
    m.lookup.playlists id = none ∧ m.lookup.playlistSongs id = none := by
  constructor
  · cases hh : m.lookup.playlists id with
    | none => rfl
    | some v =>
      have : m.lookup.playlists.has id = true := by simp [GoMap.has, hh]
      obtain ⟨q, hq, e⟩ := ((coherent_keys m hcoh).1 id).1 this
      exact absurd e (hfresh q hq)
  · rw [hcoh]
    exact buildLookup_playlists_members_other m.mixtape.Playlists 0
      (GoMap.empty, GoMap.empty) id hfresh

theorem lookup_eq (a b : lookup) (h1 : a.users = b.users) (h2 : a.songs = b.songs)
    (h3 : a.playlists = b.playlists) (h4 : a.playlistSongs = b.playlistSongs) : a = b := by
  cases a; cases b
  simp only at h1 h2 h3 h4
  rw [h1, h2, h3, h4]

theorem add_remove_core (m : Mixtape) (P : models.Playlist) (ha : addPlaylist.accepts m P)
    (hps : m.lookup.playlistSongs P.ID = none) :
    ∃ m', ApplyChanges.loop [⟨models.Add, P⟩, ⟨models.Remove, ⟨P.ID, "", []⟩⟩] m =
        .ok (m', none) ∧ m'.mixtape = m.mixtape ∧ m'.lookup = m.lookup := by
  obtain ⟨lg, e1⟩ := addPlaylist_accepted m P ha
  have hnone : m.lookup.playlists P.ID = none := by
    have := ha.2.1
    unfold GoMap.has at this
    cases hh : m.lookup.playlists P.ID with
    | none => rfl
    | some v => rw [hh] at this; cases this
  have hi : (addPlaylist.accepted m P lg).lookup.playlists P.ID =
      some m.mixtape.Playlists.length := GoMap_set_same _ _ _
  have hl : m.mixtape.Playlists.length + 1 =
      (addPlaylist.accepted m P lg).mixtape.Playlists.length := by
    simp [addPlaylist.accepted]
  obtain ⟨lg2, e2⟩ := removePlaylist_last (addPlaylist.accepted m P lg) ⟨P.ID, "", []⟩
    m.mixtape.Playlists.length ha.1 hi hl
  refine ⟨removePlaylist.removed (addPlaylist.accepted m P lg) P.ID
    (addPlaylist.accepted m P lg).mixtape.Playlists
    (addPlaylist.accepted m P lg).lookup.playlists lg2, ?_, ?_, ?_⟩
  · rw [ApplyChanges_loop_cons_add P _ m _ e1, ApplyChanges_loop_cons_remove _ _ _ _ e2]
    rfl
  · have ht : List.take ((m.mixtape.Playlists ++
        [{ P with SongIDs := validSongs m P.SongIDs }]).length - 1)
        (m.mixtape.Playlists ++ [{ P with SongIDs := validSongs m P.SongIDs }]) =
        m.mixtape.Playlists := by
      simp
    simp only [removePlaylist.removed, addPlaylist.accepted, ht]
  · apply lookup_eq
    · rfl
    · rfl
    · show (m.lookup.playlists.set P.ID m.mixtape.Playlists.length).delete P.ID =
        m.lookup.playlists
      funext k
      by_cases hk : k = P.ID
      · rw [hk, GoMap_delete_same, hnone]
      · rw [GoMap_delete_other _ _ _ hk, GoMap_set_other _ _ _ _ hk]
    · show (buildLookup.songIDs P.ID (validSongs m P.SongIDs)
        m.lookup.playlistSongs).delete P.ID = m.lookup.playlistSongs
      funext k
      by_cases hk : k = P.ID
      · rw [hk, GoMap_delete_same, hps]
      · rw [GoMap_delete_other _ _ _ hk, songIDs_other _ _ _ _ hk]

/-- C17: Add then remove is a round trip.  On the engine `New` builds on a
catalog (with pairwise distinct playlist ids or not), for a playlist `P` whose `add` request is accepted (a non-empty id that
no playlist has, a non-empty user id of a user of the catalog, a song id of a
song of the catalog), the change list `[add P, remove {id: P.id}]` returns nil
and leaves the users, songs and playlists of the catalog and the whole lookup
as they were at the start. -/
theorem add_then_remove_round_trip (mixtape : models.Mixtape) (logger : util.Logger)
    (P : models.Playlist)
    (hid : P.ID ≠ "") (hfresh : ∀ q ∈ mixtape.Playlists, q.ID ≠ P.ID)
    (huid : P.UserID ≠ "") (huser : ∃ u ∈ mixtape.Users, u.ID = P.UserID)
    (hsong : ∃ s ∈ P.SongIDs, ∃ g ∈ mixtape.Songs, g.ID = s) :
    ∃ m', ApplyChanges (New mixtape logger)
        { PlaylistChanges := [⟨models.Add, P⟩, ⟨models.Remove, ⟨P.ID, "", []⟩⟩] } =
          .ok (m', none) ∧
      m'.mixtape.Users = mixtape.Users ∧ m'.mixtape.Songs = mixtape.Songs ∧
      m'.mixtape.Playlists = mixtape.Playlists ∧
      m'.lookup = (New mixtape logger).lookup := by
  have hcoh : (New mixtape logger).lookup = buildLookup (New mixtape logger).mixtape := rfl
  have ha := accepts_of_catalog (New mixtape logger) P hcoh hid hfresh huid huser hsong
  have hps := (fresh_not_indexed (New mixtape logger) hcoh P.ID hfresh).2
  obtain ⟨m', e, e1, e2⟩ := add_remove_core (New mixtape logger) P ha hps
  have e1' : m'.mixtape = mixtape := e1
  exact ⟨m', e, by rw [e1'], by rw [e1'], by rw [e1'], e2⟩

theorem add_then_remove_round_trip_witness :
    (fixture.catalog.Playlists.map models.Playlist.ID).Nodup ∧
      ∃ m', ApplyChanges (New fixture.catalog [])
          { PlaylistChanges := [⟨models.Add, fixture.playlistX⟩,
                                ⟨models.Remove, ⟨fixture.playlistX.ID, "", []⟩⟩] } =
            .ok (m', none) ∧
        m'.mixtape.Users = fixture.catalog.Users ∧ m'.mixtape.Songs = fixture.catalog.Songs ∧
        m'.mixtape.Playlists = fixture.catalog.Playlists ∧
        m'.lookup = (New fixture.catalog []).lookup :=
  ⟨by decide, add_then_remove_round_trip fixture.catalog [] fixture.playlistX
    (by decide) (by decide) (by decide) (by decide) (by decide)⟩

/-- C18: a playlist added earlier in a change list can be amended later in the
same list.  On an engine whose lookup is the one `buildLookup` derives from its
catalog, for an accepted `add` of the playlist `P` (a non-empty id that no
playlist has, a non-empty user id of a user of the catalog, a song id of a song
of the catalog) immediately followed by the `add_songs` request of the song ids
`S` to `P.id`, `ApplyChanges` returns nil and the playlists are the initial
ones followed by the playlist with the id and user id of `P` and the song ids
`F ++ N`: `F` the song ids of `P` that are ids of songs of the catalog, `N` the
first occurrences, in order, of the entries of `S` that are ids of songs of the
catalog and not in `F`. -/
theorem add_then_add_songs (m : Mixtape) (P : models.Playlist) (S : List String) (u : String)
    (hcoh : m.lookup = buildLookup m.mixtape)
    (hid : P.ID ≠ "") (hfresh : ∀ q ∈ m.mixtape.Playlists, q.ID ≠ P.ID)
    (huid : P.UserID ≠ "") (huser : ∃ u ∈ m.mixtape.Users, u.ID = P.UserID)
    (hsong : ∃ s ∈ P.SongIDs, ∃ g ∈ m.mixtape.Songs, g.ID = s) :
    ∃ m', ApplyChanges m
        { PlaylistChanges := [⟨models.Add, P⟩, ⟨models.AddSongs, ⟨P.ID, u, S⟩⟩] } =
          .ok (m', none) ∧
      m'.mixtape.Playlists = m.mixtape.Playlists ++
        [{ ID := P.ID, UserID := P.UserID
           SongIDs :=
             P.SongIDs.filter (fun s => decide (s ∈ m.mixtape.Songs.map models.Song.ID)) ++
             newSongs m.mixtape.Songs
               (P.SongIDs.filter (fun s => decide (s ∈ m.mixtape.Songs.map models.Song.ID)))
               S }] := by
  have ks := (coherent_keys m hcoh).2.2
  have ha := accepts_of_catalog m P hcoh hid hfresh huid huser hsong
  have hps := (fresh_not_indexed m hcoh P.ID hfresh).2
  obtain ⟨lg, e1⟩ := addPlaylist_accepted m P ha
  rw [← validSongs_eq_filter m ks]
  have hi : (addPlaylist.accepted m P lg).lookup.playlists P.ID =
      some m.mixtape.Playlists.length := GoMap_set_same _ _ _
  have hget : (addPlaylist.accepted m P lg).mixtape.Playlists[m.mixtape.Playlists.length]? =
      some { P with SongIDs := validSongs m P.SongIDs } := by
    show (m.mixtape.Playlists ++ [_])[m.mixtape.Playlists.length]? = _
    rw [List.getElem?_append_right (Nat.le_refl _)]
    simp
  have hset : (addPlaylist.accepted m P lg).lookup.playlistSongs P.ID =
      memberSet (validSongs m P.SongIDs) := songIDs_fresh _ _ _ hps
  have hsome : ∃ inner, (addPlaylist.accepted m P lg).lookup.playlistSongs P.ID = some inner := by
    rw [hset]
    exact ⟨_, by simp [memberSet, ha.2.2.2.2]; rfl⟩
  obtain ⟨m2, e2, e3, _⟩ := addSongsToPlaylist_found (addPlaylist.accepted m P lg) ⟨P.ID, u, S⟩
    m.mixtape.Playlists.length hid hi (Or.inr ⟨⟨_, hget⟩, hsome⟩)
  refine ⟨m2, ?_, ?_⟩
  · show ApplyChanges.loop _ m = _
    rw [ApplyChanges_loop_cons_add P _ m _ e1, ApplyChanges_loop_cons_addSongs _ _ _ _ e2]
    rfl
  · have hadd : addSongsToPlaylist.added (addPlaylist.accepted m P lg) ⟨P.ID, u, S⟩ =
        newSongs m.mixtape.Songs (validSongs m P.SongIDs) S := by
      unfold addSongsToPlaylist.added newSongs
      rw [appended_eq_firstOccurrences]
      congr 1
      apply List.filter_congr
      intro s _
      have hmem : (addPlaylist.accepted m P lg).hasSong P.ID s =
          decide (s ∈ validSongs m P.SongIDs) := by
        unfold Mixtape.hasSong
        rw [hset]
        unfold memberSet
        by_cases h1 : s ∈ validSongs m P.SongIDs
        · simp [ha.2.2.2.2, h1]
        · simp [ha.2.2.2.2, h1]
      have hknown : (addPlaylist.accepted m P lg).lookup.songs.has s =
          decide (s ∈ m.mixtape.Songs.map models.Song.ID) := by
        show m.lookup.songs.has s = _
        have := ks s
        by_cases hk : m.lookup.songs.has s = true
        · have h2 : s ∈ m.mixtape.Songs.map models.Song.ID := by
            rw [List.mem_map]; exact this.1 hk
          simp [hk, h2]
        · have h2 : ¬ s ∈ m.mixtape.Songs.map models.Song.ID := by
            rw [List.mem_map]; exact fun h => hk (this.2 h)
          simp [hk, h2]
      rw [hmem, hknown]
    rw [e3, hadd]
    simp only [appendSongsAt, hget]
    show (m.mixtape.Playlists ++ [_]).set m.mixtape.Playlists.length _ = _
    rw [List.set_append_right _ _ (Nat.le_refl _)]
    simp

theorem add_then_add_songs_witness :
    ∃ m', ApplyChanges (New fixture.catalog []) fixture.addUpdate = .ok (m', none) ∧
      m'.mixtape.Playlists =
        [⟨"playlist_1", "user_1", ["song_1", "song_2"]⟩, ⟨"playlist_2", "user_3", ["song_3"]⟩,
         ⟨"playlist_x", "user_1", ["song_3", "song_1"]⟩] :=
  let ⟨m', h1, h2⟩ := add_then_add_songs (New fixture.catalog [])
    ⟨"playlist_x", "user_1", ["song_3"]⟩ ["song_1", "song_3"] "" rfl
    (by decide) (by decide) (by decide) (by decide) (by decide)
  ⟨m', h1, h2.trans (by decide)⟩

/-! ### The golden scenario of the test suite -/

/-- C19: golden composite scenario.  On the engine `New` builds on the catalog
of the test suite with a fresh logger, the 14-request change list of the test
"update, add, remove" returns nil and leaves exactly these five playlists, in
this order. -/
theorem ApplyChanges_golden_composite :
    ∃ m', ApplyChanges (New fixture.catalog []) fixture.composite = .ok (m', none) ∧
      m'.mixtape.Playlists =
        [⟨"playlist_a", "user_1", ["song_3"]⟩,
         ⟨"playlist_2", "user_3", ["song_3", "song_1"]⟩,
         ⟨"playlist_x", "user_1", ["song_1"]⟩,
         ⟨"playlist_y", "user_2", ["song_2"]⟩,
         ⟨"playlist_e", "user_1", ["song_3"]⟩] :=
  ⟨_, rfl, rfl⟩

/-! ### The log of a rejected `add` request -/

/-- C20: Add validation order and logging.  On every engine state, an `add`
request that fails one of the five checks makes `addPlaylist` set the prefix
`[AddPlaylist] `, emit exactly one log line and return nil with catalog and
lookup unchanged, and the line is the message of the first failing check in the
order: 1 the id is non-empty, 2 the id is not a key of the position index, 3
the user id is non-empty, 4 the user id is the id of a user of the catalog, 5
the request has song ids. -/
theorem addPlaylist_first_failing_check (m : Mixtape) (p : models.Playlist)
    (hm : Reachable m) :
    (p.ID = "" →
      addPlaylist m p = .ok ({ m with logger := m.logger ++
        [util.LogCall.SetPrefix "[AddPlaylist] ",
         util.LogCall.Printf "playlist_id missing, skipping\n" []] }, none)) ∧
    (p.ID ≠ "" → m.lookup.playlists.has p.ID = true →
      addPlaylist m p = .ok ({ m with logger := m.logger ++
        [util.LogCall.SetPrefix "[AddPlaylist] ",
         util.LogCall.Printf "playlist_id %s already exists, skipping\n" [p.ID]] }, none)) ∧
    (p.ID ≠ "" → m.lookup.playlists.has p.ID = false → p.UserID = "" →
      addPlaylist m p = .ok ({ m with logger := m.logger ++
        [util.LogCall.SetPrefix "[AddPlaylist] ",
         util.LogCall.Printf "user_id missing, from playlist_id %s, skipping\n" [p.ID]] },
        none)) ∧
    (p.ID ≠ "" → m.lookup.playlists.has p.ID = false → p.UserID ≠ "" →
      (¬ ∃ u ∈ m.mixtape.Users, u.ID = p.UserID) →
      addPlaylist m p = .ok ({ m with logger := m.logger ++
        [util.LogCall.SetPrefix "[AddPlaylist] ",
         util.LogCall.Printf "user_id %s not in mixtape, from playlist_id %s, skipping\n"
           [p.UserID, p.ID]] }, none)) ∧
    (p.ID ≠ "" → m.lookup.playlists.has p.ID = false → p.UserID ≠ "" →
      (∃ u ∈ m.mixtape.Users, u.ID = p.UserID) → p.SongIDs = [] →
      addPlaylist m p = .ok ({ m with logger := m.logger ++
        [util.LogCall.SetPrefix "[AddPlaylist] ",
         util.LogCall.Printf "playlist_id %s does not contain any songs, skipping\n"
           [p.ID]] }, none)) := by
  obtain ⟨ku, _⟩ := Reachable_keys m hm
  refine ⟨?_, ?_, ?_, ?_, ?_⟩
  · intro h1
    unfold addPlaylist
    simp [h1, Mixtape.SetPrefix, Mixtape.Printf, util.Logger.SetPrefix, util.Logger.Printf]
  · intro h1 h2
    unfold addPlaylist
    simp [h1, h2, Mixtape.SetPrefix, Mixtape.Printf, util.Logger.SetPrefix,
      util.Logger.Printf]
  · intro h1 h2 h3
    unfold addPlaylist
    simp [h1, h2, h3, Mixtape.SetPrefix, Mixtape.Printf, util.Logger.SetPrefix,
      util.Logger.Printf]
  · intro h1 h2 h3 h4
    have h4' : m.lookup.users.has p.UserID = false := by
      cases hh : m.lookup.users.has p.UserID with
      | false => rfl
      | true => exact absurd ((ku _).1 hh) h4
    unfold addPlaylist
    simp [h1, h2, h3, h4', Mixtape.SetPrefix, Mixtape.Printf, util.Logger.SetPrefix,
      util.Logger.Printf]
  · intro h1 h2 h3 h4 h5
    have h4' : m.lookup.users.has p.UserID = true := (ku _).2 h4
    unfold addPlaylist
    simp [h1, h2, h3, h4', h5, Mixtape.SetPrefix, Mixtape.Printf, util.Logger.SetPrefix,
      util.Logger.Printf]

theorem addPlaylist_first_failing_check_witness :
    addPlaylist (New fixture.catalog []) ⟨"playlist_1", "", ["song_3"]⟩ =
      .ok ({ New fixture.catalog [] with logger :=
        [util.LogCall.SetPrefix "[AddPlaylist] ",
         util.LogCall.Printf "playlist_id %s already exists, skipping\n" ["playlist_1"]] },
        none) :=
  (addPlaylist_first_failing_check (New fixture.catalog []) ⟨"playlist_1", "", ["song_3"]⟩
    (Reachable.new fixture.catalog [])).2.1 (by decide) rfl

/-! ### Change kinds the switch does not handle -/

theorem ApplyChanges_loop_cons_other (c : models.PlaylistChange)
    (rest : List models.PlaylistChange) (m : Mixtape)
    (hadd : c.ID ≠ models.Add) (hrem : c.ID ≠ models.Remove) (hsongs : c.ID ≠ models.AddSongs) :
    ApplyChanges.loop (c :: rest) m = ApplyChanges.loop rest m := by
  rw [ApplyChanges.loop]
  rw [if_neg hadd, if_neg hrem, if_neg hsongs]

/-- C25: a change request whose kind is none of "add", "remove", "add_songs" is
a no-op.  Applied alone it returns the engine as it was (same catalog, same
lookup, same logger, so no log line) with a nil error; in front of other
requests, or between two runs of requests, the outcome is the one of the list
without it, so the requests after it are still applied. -/
theorem ApplyChanges_unknown_kind (m : Mixtape) (c : models.PlaylistChange)
    (before after : List models.PlaylistChange)
    (hadd : c.ID ≠ "add") (hrem : c.ID ≠ "remove") (hsongs : c.ID ≠ "add_songs") :
    ApplyChanges m { PlaylistChanges := [c] } = .ok (m, none) ∧
      ApplyChanges m { PlaylistChanges := c :: after } =
        ApplyChanges m { PlaylistChanges := after } ∧
      ApplyChanges m { PlaylistChanges := before ++ c :: after } =
        ApplyChanges m { PlaylistChanges := before ++ after } := by
  refine ⟨?_, ?_, ?_⟩
  · show ApplyChanges.loop [c] m = .ok (m, none)
    rw [ApplyChanges_loop_cons_other c [] m hadd hrem hsongs]
    rfl
  · exact ApplyChanges_loop_cons_other c after m hadd hrem hsongs
  · show ApplyChanges.loop (before ++ c :: after) m = ApplyChanges.loop (before ++ after) m
    rw [ApplyChanges_loop_append, ApplyChanges_loop_append]
    cases ApplyChanges.loop before m with
    | error e => rfl
    | ok r =>
      obtain ⟨m1, e1⟩ := r
      exact ApplyChanges_loop_cons_other c after m1 hadd hrem hsongs

theorem ApplyChanges_unknown_kind_witness :
    ApplyChanges (New fixture.catalog []) { PlaylistChanges := [fixture.renameChange] } =
        .ok (New fixture.catalog [], none) ∧
      ApplyChanges (New fixture.catalog [])
          { PlaylistChanges := fixture.renameChange :: fixture.addUpdate.PlaylistChanges } =
        ApplyChanges (New fixture.catalog []) fixture.addUpdate ∧
      ApplyChanges (New fixture.catalog [])
          { PlaylistChanges :=
              fixture.emptyAdds.PlaylistChanges ++
                fixture.renameChange :: fixture.addUpdate.PlaylistChanges } =
        ApplyChanges (New fixture.catalog [])
          { PlaylistChanges :=
              fixture.emptyAdds.PlaylistChanges ++ fixture.addUpdate.PlaylistChanges } :=
  ApplyChanges_unknown_kind (New fixture.catalog []) fixture.renameChange
    fixture.emptyAdds.PlaylistChanges fixture.addUpdate.PlaylistChanges
    (by decide) (by decide) (by decide)

/-! ### What `buildLookup` stores, on any catalog -/

theorem buildLookup_users_sound (us : List models.User) (id : String) (j : Nat) :
    ∀ (i : Nat) (acc : GoMap Nat), buildLookup.users us i acc id = some j →
      (∃ k u, us[k]? = some u ∧ u.ID = id ∧ j = i + k) ∨ acc id = some j := by
  induction us with
  | nil => intro i acc h; exact Or.inr h
  | cons u rest ih =>
    intro i acc h
    rw [buildLookup.users] at h
    rcases ih (i + 1) (acc.set u.ID i) h with ⟨k, u', hk, hu, hj⟩ | h2
    · exact Or.inl ⟨k + 1, u', by simpa using hk, hu, by omega⟩
    · by_cases e : id = u.ID
      · subst e
        rw [GoMap_set_same] at h2
        exact Or.inl ⟨0, u, by simp, rfl, by simpa using h2.symm⟩
      · rw [GoMap_set_other _ _ _ _ e] at h2
        exact Or.inr h2

theorem buildLookup_songs_sound (ss : List models.Song) (id : String) (j : Nat) :
    ∀ (i : Nat) (acc : GoMap Nat), buildLookup.songs ss i acc id = some j →
      (∃ k g, ss[k]? = some g ∧ g.ID = id ∧ j = i + k) ∨ acc id = some j := by
  induction ss with
  | nil => intro i acc h; exact Or.inr h
  | cons g rest ih =>
    intro i acc h
    rw [buildLookup.songs] at h
    rcases ih (i + 1) (acc.set g.ID i) h with ⟨k, g', hk, hg, hj⟩ | h2
    · exact Or.inl ⟨k + 1, g', by simpa using hk, hg, by omega⟩
    · by_cases e : id = g.ID
      · subst e
        rw [GoMap_set_same] at h2
        exact Or.inl ⟨0, g, by simp, rfl, by simpa using h2.symm⟩
      · rw [GoMap_set_other _ _ _ _ e] at h2
        exact Or.inr h2

theorem buildLookup_playlists_sound (pls : List models.Playlist) (id : String) (j : Nat) :
    ∀ (i : Nat) (acc : GoMap Nat × GoMap (GoMap Bool)),
      (buildLookup.playlists pls i acc).1 id = some j →
        (∃ k q, pls[k]? = some q ∧ q.ID = id ∧ j = i + k) ∨ acc.1 id = some j := by
  induction pls with
  | nil => intro i acc h; exact Or.inr h
  | cons q rest ih =>
    intro i acc h
    rw [buildLookup.playlists] at h
    rcases ih (i + 1) _ h with ⟨k, q', hk, hq, hj⟩ | h2
    · exact Or.inl ⟨k + 1, q', by simpa using hk, hq, by omega⟩
    · replace h2 : acc.1.set q.ID i id = some j := h2
      by_cases e : id = q.ID
      · subst e
        rw [GoMap_set_same] at h2
        exact Or.inl ⟨0, q, by simp, rfl, by simpa using h2.symm⟩
      · rw [GoMap_set_other _ _ _ _ e] at h2
        exact Or.inr h2

theorem markSong_isSome (ps : GoMap (GoMap Bool)) (id x id' s : String)
    (h : ((markSong ps id x id').bind (fun inner => inner s)).isSome = true) :
    ((ps id').bind (fun inner => inner s)).isSome = true ∨ (id' = id ∧ s = x) := by
  by_cases e : id' = id
  · subst e
    by_cases es : s = x
    · exact Or.inr ⟨rfl, es⟩
    · left
      cases hp : ps id' with
      | none =>
        have hm : markSong ps id' x id' = some (GoMap.empty.set x true) := by
          unfold markSong; rw [hp]; exact GoMap_set_same _ _ _
        rw [hm] at h
        have hx : (GoMap.empty.set x true : GoMap Bool) s = none := by
          simp [GoMap.set, GoMap.empty, es]
        simp [hx] at h
      | some inner =>
        have hm : markSong ps id' x id' = some (inner.set x true) := by
          unfold markSong; rw [hp]; exact GoMap_set_same _ _ _
        rw [hm] at h
        have hx : inner.set x true s = inner s := GoMap_set_other _ _ _ _ es
        simpa [hx] using h
  · rw [markSong_other _ _ _ _ e] at h
    exact Or.inl h

theorem songIDs_isSome (id : String) (songs : List String) (id' s : String) :
    ∀ (ps : GoMap (GoMap Bool)),
      ((buildLookup.songIDs id songs ps id').bind (fun inner => inner s)).isSome = true →
        ((ps id').bind (fun inner => inner s)).isSome = true ∨ (id' = id ∧ s ∈ songs) := by
  induction songs with
  | nil => intro ps h; exact Or.inl h
  | cons x rest ih =>
    intro ps h
    rw [buildLookup.songIDs] at h
    rcases ih _ h with h2 | ⟨e, hs⟩
    · rcases markSong_isSome ps id x id' s h2 with h3 | ⟨e, es⟩
      · exact Or.inl h3
      · exact Or.inr ⟨e, by simp [es]⟩
    · exact Or.inr ⟨e, List.mem_cons_of_mem _ hs⟩

theorem buildLookup_playlists_isSome (pls : List models.Playlist) (id s : String) :
    ∀ (i : Nat) (acc : GoMap Nat × GoMap (GoMap Bool)),
      (((buildLookup.playlists pls i acc).2 id).bind (fun inner => inner s)).isSome = true →
        ((acc.2 id).bind (fun inner => inner s)).isSome = true ∨
          ∃ q ∈ pls, q.ID = id ∧ s ∈ q.SongIDs := by
  induction pls with
  | nil => intro i acc h; exact Or.inl h
  | cons q rest ih =>
    intro i acc h
    rw [buildLookup.playlists] at h
    rcases ih (i + 1) _ h with h2 | ⟨q', hq', e, hs⟩
    · replace h2 : ((buildLookup.songIDs q.ID q.SongIDs acc.2 id).bind
          (fun inner => inner s)).isSome = true := h2
      rcases songIDs_isSome q.ID q.SongIDs id s acc.2 h2 with h3 | ⟨e, hs⟩
      · exact Or.inl h3
      · exact Or.inr ⟨q, List.mem_cons_self _ _, e.symm, hs⟩
    · exact Or.inr ⟨q', List.mem_cons_of_mem _ hq', e, hs⟩

/-- C26: `buildLookup` reflects the catalog.  After `New`, on any catalog, an id
is a key of the users (songs, playlists) map exactly when some user (song,
playlist) of the catalog has that id; each key of the three maps is mapped to
an index of the corresponding sequence whose element has that id; and a song id
is in the membership set of a playlist id exactly when some playlist of the
catalog with that id lists the song. -/
theorem New_reflects_catalog (mixtape : models.Mixtape) (logger : util.Logger) :
    (∀ id, (New mixtape logger).lookup.users.has id = true ↔ ∃ u ∈ mixtape.Users, u.ID = id) ∧
    (∀ id, (New mixtape logger).lookup.songs.has id = true ↔ ∃ g ∈ mixtape.Songs, g.ID = id) ∧
    (∀ id, (New mixtape logger).lookup.playlists.has id = true ↔
      ∃ q ∈ mixtape.Playlists, q.ID = id) ∧
    (∀ id i, (New mixtape logger).lookup.users id = some i →
      ∃ u, mixtape.Users[i]? = some u ∧ u.ID = id) ∧
    (∀ id i, (New mixtape logger).lookup.songs id = some i →
      ∃ g, mixtape.Songs[i]? = some g ∧ g.ID = id) ∧
    (∀ id i, (New mixtape logger).lookup.playlists id = some i →
      ∃ q, mixtape.Playlists[i]? = some q ∧ q.ID = id) ∧
    (∀ id s, (New mixtape logger).hasSong id s = true ↔
      ∃ q ∈ mixtape.Playlists, q.ID = id ∧ s ∈ q.SongIDs) := by
  refine ⟨New_users_has mixtape logger, New_songs_has mixtape logger, ?_, ?_, ?_, ?_, ?_⟩
  · intro id
    exact (coherent_keys (New mixtape logger) rfl).1 id
  · intro id i h
    rcases buildLookup_users_sound mixtape.Users id i 0 GoMap.empty h with ⟨k, u, hk, hu, hj⟩ | h2
    · exact ⟨u, by rw [hj, Nat.zero_add]; exact hk, hu⟩
    · exact absurd h2 (by simp [GoMap.empty])
  · intro id i h
    rcases buildLookup_songs_sound mixtape.Songs id i 0 GoMap.empty h with ⟨k, g, hk, hg, hj⟩ | h2
    · exact ⟨g, by rw [hj, Nat.zero_add]; exact hk, hg⟩
    · exact absurd h2 (by simp [GoMap.empty])
  · intro id i h
    rcases buildLookup_playlists_sound mixtape.Playlists id i 0 (GoMap.empty, GoMap.empty) h
      with ⟨k, q, hk, hq, hj⟩ | h2
    · exact ⟨q, by rw [hj, Nat.zero_add]; exact hk, hq⟩
    · exact absurd h2 (by simp [GoMap.empty])
  · intro id s
    constructor
    · intro h
      rcases buildLookup_playlists_isSome mixtape.Playlists id s 0 (GoMap.empty, GoMap.empty) h
        with h2 | h2
      · exact absurd h2 (by simp [GoMap.empty])
      · exact h2
    · rintro ⟨q, hq, rfl, hs⟩
      exact buildLookup_hasSong (New mixtape logger) rfl q hq s hs

theorem New_reflects_catalog_witness :
    (New fixture.sharedIDCatalog []).lookup.playlists "playlist_q" = some 3 ∧
      (∃ q, fixture.sharedIDCatalog.Playlists[3]? = some q ∧ q.ID = "playlist_q") ∧
      ((New fixture.sharedIDCatalog []).hasSong "playlist_q" "song_1" = true ↔
        ∃ q ∈ fixture.sharedIDCatalog.Playlists, q.ID = "playlist_q" ∧ "song_1" ∈ q.SongIDs) :=
  ⟨rfl, (New_reflects_catalog fixture.sharedIDCatalog []).2.2.2.2.2.1 "playlist_q" 3 rfl,
    (New_reflects_catalog fixture.sharedIDCatalog []).2.2.2.2.2.2 "playlist_q" "song_1"⟩

/-! ### No run-time fault on a well-formed catalog -/

/-- C22: no runtime fault under a well-formed catalog.  On a catalog with
pairwise distinct playlist ids whose playlists each list at least one song id,
for every change list and every `k`, `ApplyChanges` on the engine built by `New`
gets through the first `k` requests without a panic and with a nil error, and in
the state it has then every id of the position index is mapped to an in-bounds
position of the playlists sequence holding a playlist with that id, and has a
membership set (a non-nil map) in the membership index: the slice indexing of
`removePlaylist` and `addSongsToPlaylist` stays in bounds and
`addSongsToPlaylist` never writes into a nil map. -/
theorem ApplyChanges_no_fault (mixtape : models.Mixtape) (logger : util.Logger)
    (changes : models.Changes) (k : Nat)
    (hd : (mixtape.Playlists.map models.Playlist.ID).Nodup)
    (hne : ∀ p ∈ mixtape.Playlists, 1 ≤ p.SongIDs.length) :
    ∃ m', ApplyChanges (New mixtape logger)
        { PlaylistChanges := changes.PlaylistChanges.take k } = .ok (m', none) ∧
      ∀ id i, m'.lookup.playlists id = some i →
        i < m'.mixtape.Playlists.length ∧
        (∃ p, m'.mixtape.Playlists[i]? = some p ∧ p.ID = id) ∧
        ∃ inner, m'.lookup.playlistSongs id = some inner := by
  have hc0 : Coherent (New mixtape logger) := New_coherent mixtape logger hd
  have hne0 : ∀ p ∈ (New mixtape logger).mixtape.Playlists, p.SongIDs ≠ [] := by
    intro p hp
    exact List.length_pos.1 (hne p hp)
  obtain ⟨m', h⟩ := ApplyChanges_returns (changes.PlaylistChanges.take k) _ hc0 hne0
  have h' : ApplyChanges (New mixtape logger)
      { PlaylistChanges := changes.PlaylistChanges.take k } = .ok (m', none) := h
  have hc : Coherent m' := ApplyChanges_coherent _ _ _ _ hc0 h'
  have hne' : ∀ p ∈ m'.mixtape.Playlists, p.SongIDs ≠ [] := by
    refine ApplyChanges_playlists_invariant (fun p => p.SongIDs ≠ []) (New mixtape logger)
      { PlaylistChanges := changes.PlaylistChanges.take k } ?_ ?_ hne0 m' none h'
    · intro m p _ ha
      exact ha.2.2.2.2
    · intro m p q _ hq
      simp [hq]
  refine ⟨m', h', ?_⟩
  intro id i hi
  obtain ⟨p, hp, hpid⟩ := (hc.2.1 id i).1 hi
  refine ⟨getElem?_lt _ _ _ hp, ⟨p, hp, hpid⟩, ?_⟩
  have hmem := hc.2.2.1 p (List.getElem?_mem hp)
  rw [hpid] at hmem
  rw [hmem]
  have hpne := hne' p (List.getElem?_mem hp)
  exact ⟨_, by simp [memberSet, hpne]; rfl⟩

theorem ApplyChanges_no_fault_witness :
    (fixture.catalog.Playlists.map models.Playlist.ID).Nodup ∧
      (∀ p ∈ fixture.catalog.Playlists, 1 ≤ p.SongIDs.length) ∧
      ∃ m', ApplyChanges (New fixture.catalog [])
          { PlaylistChanges := fixture.composite.PlaylistChanges.take 11 } = .ok (m', none) ∧
        ∀ id i, m'.lookup.playlists id = some i →
          i < m'.mixtape.Playlists.length ∧
          (∃ p, m'.mixtape.Playlists[i]? = some p ∧ p.ID = id) ∧
          ∃ inner, m'.lookup.playlistSongs id = some inner :=
  ⟨by decide, by decide,
    ApplyChanges_no_fault fixture.catalog [] fixture.composite 11 (by decide) (by decide)⟩

/-! ### `add_songs` and `remove` keep the song ids of a playlist distinct -/

/-- With an index built from the catalog, a position of the index holds a
playlist with that id. -/
theorem buildLookup_position (m : Mixtape) (hcoh : m.lookup = buildLookup m.mixtape)
    (id : String) (i : Nat) (hi : m.lookup.playlists id = some i) :
    ∃ q, m.mixtape.Playlists[i]? = some q ∧ q.ID = id := by
  rw [hcoh] at hi
  rcases buildLookup_playlists_sound m.mixtape.Playlists id i 0 (GoMap.empty, GoMap.empty) hi
    with ⟨k, q, hk, hq, hj⟩ | h2
  · exact ⟨q, by rw [hj, Nat.zero_add]; exact hk, hq⟩
  · exact absurd h2 (by simp [GoMap.empty])

/-- With an index built from the catalog, `removePlaylist` returns. -/
theorem removePlaylist_total (m : Mixtape) (hcoh : m.lookup = buildLookup m.mixtape)
    (p : models.Playlist) : ∃ m', removePlaylist m p = .ok (m', none) := by
  by_cases h1 : p.ID = ""
  · obtain ⟨lg, h⟩ := removePlaylist_skip m p (Or.inl h1)
    exact ⟨_, h⟩
  cases hi : m.lookup.playlists p.ID with
  | none =>
    obtain ⟨lg, h⟩ := removePlaylist_skip m p (Or.inr hi)
    exact ⟨_, h⟩
  | some i =>
    obtain ⟨a, ha, _⟩ := buildLookup_position m hcoh p.ID i hi
    have hil := getElem?_lt _ _ _ ha
    by_cases hl : i + 1 = m.mixtape.Playlists.length
    · obtain ⟨lg, h⟩ := removePlaylist_last m p i h1 hi hl
      exact ⟨_, h⟩
    · have hlt : m.mixtape.Playlists.length - 1 < m.mixtape.Playlists.length := by omega
      obtain ⟨lg, h⟩ := removePlaylist_swap m p i a _ h1 hi hl ha
        (List.getElem?_eq_getElem hlt)
      exact ⟨_, h⟩

/-- C24: AddSongs and Remove preserve duplicate-freedom.  In an engine state
whose index is the one built from its catalog and in which no playlist lists a
song id twice, a Remove request returns and leaves no playlist that lists a
song id twice; an AddSongs request that returns, whatever song ids it lists or
repeats, leaves no playlist that lists a song id twice; and an AddSongs request
does return when every playlist of the catalog lists a song. -/
theorem addSongs_remove_keep_songs_nodup (m : Mixtape) (p : models.Playlist)
    (hcoh : m.lookup = buildLookup m.mixtape)
    (hnd : ∀ q ∈ m.mixtape.Playlists, q.SongIDs.Nodup) :
    (∃ m', removePlaylist m p = .ok (m', none) ∧
      ∀ q ∈ m'.mixtape.Playlists, q.SongIDs.Nodup) ∧
    (∀ m' err, addSongsToPlaylist m p = .ok (m', err) →
      ∀ q ∈ m'.mixtape.Playlists, q.SongIDs.Nodup) ∧
    ((∀ q ∈ m.mixtape.Playlists, q.SongIDs ≠ []) →
      ∃ m', addSongsToPlaylist m p = .ok (m', none)) := by
  refine ⟨?_, ?_, ?_⟩
  · obtain ⟨m', h⟩ := removePlaylist_total m hcoh p
    exact ⟨m', h, fun q hq => hnd q (removePlaylist_mem _ _ _ _ h q hq)⟩
  · intro m' err h q' hq'
    rcases (addSongsToPlaylist_cases m m' p err h).2 with ⟨_, lg, rfl⟩ | ⟨_, i, hi, hm, _, _⟩
    · exact hnd q' hq'
    · rw [hm] at hq'
      rcases mem_appendSongsAt_index _ _ _ q' hq' with h1 | ⟨q, hq, rfl⟩
      · exact hnd q' h1
      · obtain ⟨q0, hq0, hid⟩ := buildLookup_position m hcoh p.ID i hi
        rw [hq] at hq0
        cases hq0
        refine List.Nodup.append (hnd q (List.getElem?_mem hq)) (appended_nodup _ _ _) ?_
        intro s hs hadd
        have hnot := (appended_known _ _ _ s hadd).2.1
        have hin := buildLookup_hasSong m hcoh q (List.getElem?_mem hq) s hs
        rw [hid] at hin
        rw [hin] at hnot
        cases hnot
  · intro hne
    by_cases h1 : p.ID = ""
    · obtain ⟨lg, h⟩ := addSongsToPlaylist_skip m p (Or.inl h1)
      exact ⟨_, h⟩
    cases hi : m.lookup.playlists p.ID with
    | none =>
      obtain ⟨lg, h⟩ := addSongsToPlaylist_skip m p (Or.inr hi)
      exact ⟨_, h⟩
    | some i =>
      obtain ⟨q, hq, hid⟩ := buildLookup_position m hcoh p.ID i hi
      have hqm := List.getElem?_mem hq
      obtain ⟨s, hs⟩ := List.exists_mem_of_ne_nil _ (hne q hqm)
      have hin := buildLookup_hasSong m hcoh q hqm s hs
      rw [hid] at hin
      have hset : ∃ inner, m.lookup.playlistSongs p.ID = some inner := by
        cases hps : m.lookup.playlistSongs p.ID with
        | none => simp [Mixtape.hasSong, hps] at hin
        | some inner => exact ⟨inner, rfl⟩
      obtain ⟨m', h, _⟩ := addSongsToPlaylist_found m p i h1 hi (Or.inr ⟨⟨q, hq⟩, hset⟩)
      exact ⟨m', h⟩

theorem addSongs_remove_keep_songs_nodup_witness :
    (New fixture.catalog []).lookup = buildLookup (New fixture.catalog []).mixtape ∧
      (∀ q ∈ (New fixture.catalog []).mixtape.Playlists, q.SongIDs.Nodup) ∧
      ∃ m', addSongsToPlaylist (New fixture.catalog []) fixture.repeatedNewSong =
          .ok (m', none) ∧
        m'.mixtape.Playlists =
          [⟨"playlist_1", "user_1", ["song_1", "song_2"]⟩,
           ⟨"playlist_2", "user_3", ["song_3", "song_1"]⟩] ∧
        ∀ q ∈ m'.mixtape.Playlists, q.SongIDs.Nodup :=
  ⟨rfl, by decide, _, rfl, rfl,
    (addSongs_remove_keep_songs_nodup (New fixture.catalog []) fixture.repeatedNewSong rfl
      (by decide)).2.1 _ none rfl⟩

/-! ### `add` keeps the repetitions of a song id -/

/-- C23: Add does not deduplicate.  In an engine state whose index is the one
built from its catalog, an accepted Add request (non-empty id carried by no
playlist, non-empty user id of a user of the catalog) whose song ids list a song
of the catalog more than once returns and appends one playlist; its song ids
are the request's song ids that are ids of songs of the catalog, in request
order, so they list that song as many times as the request did; the membership
set of the playlist exists and holds the song (a set holds a key once); and an
AddSongs request of that song to the playlist, made next, returns and leaves
the catalog and the lookup as they were: it appends nothing. -/
theorem addPlaylist_keeps_repeats (m : Mixtape) (p : models.Playlist) (s : String)
    (hcoh : m.lookup = buildLookup m.mixtape)
    (hid : p.ID ≠ "") (hfresh : ∀ q ∈ m.mixtape.Playlists, q.ID ≠ p.ID)
    (huid : p.UserID ≠ "") (huser : ∃ u ∈ m.mixtape.Users, u.ID = p.UserID)
    (hs : ∃ g ∈ m.mixtape.Songs, g.ID = s) (hdup : 2 ≤ p.SongIDs.count s) :
    ∃ m1 stored, addPlaylist m p = .ok (m1, none) ∧
      m1.mixtape.Playlists = m.mixtape.Playlists ++ [stored] ∧
      stored.ID = p.ID ∧
      stored.SongIDs =
        p.SongIDs.filter (fun x => decide (x ∈ m.mixtape.Songs.map models.Song.ID)) ∧
      stored.SongIDs.count s = p.SongIDs.count s ∧
      (∃ inner, m1.lookup.playlistSongs p.ID = some inner ∧ inner s = some true) ∧
      ∀ u, ∃ m2, addSongsToPlaylist m1 ⟨p.ID, u, [s]⟩ = .ok (m2, none) ∧
        m2.mixtape = m1.mixtape ∧ m2.lookup = m1.lookup := by
  have hmem : s ∈ p.SongIDs := List.count_pos_iff.1 (by omega)
  have ha : addPlaylist.accepts m p :=
    accepts_of_catalog m p hcoh hid hfresh huid huser ⟨s, hmem, hs⟩
  obtain ⟨lg, h⟩ := addPlaylist_accepted m p ha
  have hv := validSongs_eq_filter m (coherent_keys m hcoh).2.2 p.SongIDs
  have hsv : s ∈ validSongs m p.SongIDs := by
    rw [hv, List.mem_filter]
    refine ⟨hmem, ?_⟩
    obtain ⟨g, hg, e⟩ := hs
    simpa using ⟨g, hg, e⟩
  have hmark : (buildLookup.songIDs p.ID (validSongs m p.SongIDs) m.lookup.playlistSongs
      p.ID).bind (fun inner => inner s) = some true := songIDs_marks _ _ _ s hsv
  refine ⟨addPlaylist.accepted m p lg, { p with SongIDs := validSongs m p.SongIDs }, h, rfl,
    rfl, hv, ?_, ?_, ?_⟩
  · show (validSongs m p.SongIDs).count s = p.SongIDs.count s
    rw [hv]
    apply List.count_filter
    obtain ⟨g, hg, e⟩ := hs
    simpa using ⟨g, hg, e⟩
  · show ∃ inner, buildLookup.songIDs p.ID (validSongs m p.SongIDs) m.lookup.playlistSongs
        p.ID = some inner ∧ inner s = some true
    cases hps : buildLookup.songIDs p.ID (validSongs m p.SongIDs) m.lookup.playlistSongs
        p.ID with
    | none => rw [hps] at hmark; cases hmark
    | some inner => rw [hps] at hmark; exact ⟨inner, rfl, hmark⟩
  · intro u
    apply addSongsToPlaylist_nothing
    show addSongsToPlaylist.appended _ _ [s] = []
    rw [appended_eq_nil_iff]
    intro x hx _
    rw [List.mem_singleton] at hx
    subst hx
    show ((buildLookup.songIDs p.ID (validSongs m p.SongIDs) m.lookup.playlistSongs
      p.ID).bind (fun inner => inner x)).isSome = true
    rw [hmark]
    rfl

theorem addPlaylist_keeps_repeats_witness :
    2 ≤ fixture.repeatedSongPlaylist.SongIDs.count "song_1" ∧
      ∃ m1 stored, addPlaylist (New fixture.catalog []) fixture.repeatedSongPlaylist =
          .ok (m1, none) ∧
        m1.mixtape.Playlists = (New fixture.catalog []).mixtape.Playlists ++ [stored] ∧
        stored.ID = fixture.repeatedSongPlaylist.ID ∧
        stored.SongIDs =
          fixture.repeatedSongPlaylist.SongIDs.filter
            (fun x => decide (x ∈ (New fixture.catalog []).mixtape.Songs.map models.Song.ID)) ∧
        stored.SongIDs.count "song_1" = fixture.repeatedSongPlaylist.SongIDs.count "song_1" ∧
        (∃ inner, m1.lookup.playlistSongs fixture.repeatedSongPlaylist.ID = some inner ∧
          inner "song_1" = some true) ∧
        ∀ u, ∃ m2, addSongsToPlaylist m1 ⟨fixture.repeatedSongPlaylist.ID, u, ["song_1"]⟩ =
            .ok (m2, none) ∧
          m2.mixtape = m1.mixtape ∧ m2.lookup = m1.lookup :=
  ⟨by decide,
    addPlaylist_keeps_repeats (New fixture.catalog []) fixture.repeatedSongPlaylist "song_1" rfl
      (by decide) (by decide) (by decide) (by decide) (by decide) (by decide)⟩

/-! ### The log lines of a discarded request -/

theorem logLines_append (a b : util.Logger) : logLines (a ++ b) = logLines a + logLines b := by
  unfold logLines
  exact List.countP_append _ _ _

theorem logLines_Printf (l : util.Logger) (f : String) (v : List String) :
    logLines (l.Printf f v) = logLines l + 1 := by
  unfold util.Logger.Printf
  rw [logLines_append]
  rfl

theorem logLines_SetPrefix (l : util.Logger) (p : String) :
    logLines (util.Logger.SetPrefix l p) = logLines l := by
  unfold util.Logger.SetPrefix
  rw [logLines_append]
  rfl

/-- The filtering loop of `addPlaylist` emits one line per song id when none of
them is a key of the song index, and leaves the lookup as it was. -/
theorem addPlaylist_filter_unknown (id : String) (songs : List String) :
    ∀ (m : Mixtape) (v : List String), (∀ s ∈ songs, m.lookup.songs.has s = false) →
      (addPlaylist.filter id songs (m, v)).1.lookup = m.lookup ∧
      (addPlaylist.filter id songs (m, v)).1.logger =
        m.logger ++ songs.map (fun s =>
          util.LogCall.Printf "song_id %s not in mixtape, from playlist_id %s, skipping\n"
            [s, id]) ∧
      logLines (addPlaylist.filter id songs (m, v)).1.logger =
        logLines m.logger + songs.length := by
  induction songs with
  | nil => intro m v _; exact ⟨rfl, by simp [addPlaylist.filter], rfl⟩
  | cons s rest ih =>
    intro m v h
    have hs : m.lookup.songs.has s = false := h s (List.mem_cons_self _ _)
    have hr : ∀ x ∈ rest, m.lookup.songs.has x = false :=
      fun x hx => h x (List.mem_cons_of_mem _ hx)
    unfold addPlaylist.filter
    simp only [hs, Bool.false_eq_true, if_false]
    obtain ⟨e1, e2, e3⟩ := ih
      (m.Printf "song_id %s not in mixtape, from playlist_id %s, skipping\n" [s, id]) v hr
    refine ⟨e1, ?_, ?_⟩
    · rw [e2]
      simp [Mixtape.Printf, util.Logger.Printf]
    · rw [e3]
      show logLines (m.logger.Printf _ _) + rest.length = _
      rw [logLines_Printf, List.length_cons]
      omega

/-- An `add` request that fails one of the five checks made before the song ids
are filtered: the prefix is set and one line is emitted. -/
theorem addPlaylist_check_log (m : Mixtape) (p : models.Playlist)
    (h : p.ID = "" ∨ m.lookup.playlists.has p.ID = true ∨ p.UserID = "" ∨
      m.lookup.users.has p.UserID = false ∨ p.SongIDs = []) :
    ∃ f v, addPlaylist m p = .ok ({ m with logger := m.logger ++
      [util.LogCall.SetPrefix "[AddPlaylist] ", util.LogCall.Printf f v] }, none) := by
  unfold addPlaylist
  by_cases h1 : p.ID = ""
  · exact ⟨_, _, by simp [h1, Mixtape.SetPrefix, Mixtape.Printf, util.Logger.SetPrefix,
      util.Logger.Printf]; exact ⟨rfl, rfl⟩⟩
  by_cases h2 : m.lookup.playlists.has p.ID = true
  · exact ⟨_, _, by simp [h1, h2, Mixtape.SetPrefix, Mixtape.Printf, util.Logger.SetPrefix,
      util.Logger.Printf]; exact ⟨rfl, rfl⟩⟩
  by_cases h3 : p.UserID = ""
  · exact ⟨_, _, by simp [h1, h2, h3, Mixtape.SetPrefix, Mixtape.Printf,
      util.Logger.SetPrefix, util.Logger.Printf]; exact ⟨rfl, rfl⟩⟩
  by_cases h4 : m.lookup.users.has p.UserID = false
  · exact ⟨_, _, by simp [h1, h2, h3, h4, Mixtape.SetPrefix, Mixtape.Printf,
      util.Logger.SetPrefix, util.Logger.Printf]; exact ⟨rfl, rfl⟩⟩
  have h5 : p.SongIDs = [] := by
    rcases h with h | h | h | h | h
    · exact absurd h h1
    · exact absurd h h2
    · exact absurd h h3
    · exact absurd h h4
    · exact h
  have h4' : m.lookup.users.has p.UserID = true := by simpa using h4
  exact ⟨_, _, by simp [h1, h2, h3, h4', h5, Mixtape.SetPrefix, Mixtape.Printf,
    util.Logger.SetPrefix, util.Logger.Printf]; exact ⟨rfl, rfl⟩⟩

/-- A `remove` request with an empty or unindexed id: the prefix is set and one
line is emitted. -/
theorem removePlaylist_skip_log (m : Mixtape) (p : models.Playlist)
    (h : p.ID = "" ∨ m.lookup.playlists p.ID = none) :
    ∃ f v, removePlaylist m p = .ok ({ m with logger := m.logger ++
      [util.LogCall.SetPrefix "[RemovePlaylist] ", util.LogCall.Printf f v] }, none) := by
  unfold removePlaylist
  by_cases h1 : p.ID = ""
  · exact ⟨_, _, by simp [h1, Mixtape.SetPrefix, Mixtape.Printf, util.Logger.SetPrefix,
      util.Logger.Printf]; exact ⟨rfl, rfl⟩⟩
  · have h2 : m.lookup.playlists p.ID = none := h.resolve_left h1
    exact ⟨_, _, by simp [h1, h2, Mixtape.SetPrefix, Mixtape.Printf, util.Logger.SetPrefix,
      util.Logger.Printf]; exact ⟨rfl, rfl⟩⟩

/-- An `add_songs` request with an empty or unindexed id: the prefix is set and
one line is emitted. -/
theorem addSongsToPlaylist_skip_log (m : Mixtape) (p : models.Playlist)
    (h : p.ID = "" ∨ m.lookup.playlists p.ID = none) :
    ∃ f v, addSongsToPlaylist m p = .ok ({ m with logger := m.logger ++
      [util.LogCall.SetPrefix "[AddSongToPlaylist] ", util.LogCall.Printf f v] }, none) := by
  unfold addSongsToPlaylist
  by_cases h1 : p.ID = ""
  · exact ⟨_, _, by simp [h1, Mixtape.SetPrefix, Mixtape.Printf, util.Logger.SetPrefix,
      util.Logger.Printf]; exact ⟨rfl, rfl⟩⟩
  · have h2 : m.lookup.playlists p.ID = none := h.resolve_left h1
    exact ⟨_, _, by simp [h1, h2, Mixtape.SetPrefix, Mixtape.Printf, util.Logger.SetPrefix,
      util.Logger.Printf]; exact ⟨rfl, rfl⟩⟩

theorem logLines_one (l : util.Logger) (p f : String) (v : List String) :
    logLines (l ++ [util.LogCall.SetPrefix p, util.LogCall.Printf f v]) = logLines l + 1 := by
  rw [logLines_append]
  rfl

/-- An `add` request that passes the five checks and lists no key of the song
index: one line per listed song id, then the line of the request. -/
theorem addPlaylist_unknown_songs_log (m : Mixtape) (p : models.Playlist)
    (h1 : p.ID ≠ "") (h2 : m.lookup.playlists.has p.ID = false) (h3 : p.UserID ≠ "")
    (h4 : m.lookup.users.has p.UserID = true) (h5 : p.SongIDs ≠ [])
    (h6 : ∀ s ∈ p.SongIDs, m.lookup.songs.has s = false) :
    addPlaylist m p = .ok ({ m with logger := m.logger ++
      ([util.LogCall.SetPrefix "[AddPlaylist] "] ++
        p.SongIDs.map (fun s =>
          util.LogCall.Printf "song_id %s not in mixtape, from playlist_id %s, skipping\n"
            [s, p.ID]) ++
        [util.LogCall.Printf
          "playlist_id %s does not contain any songs from mixtape, skipping\n" [p.ID]]) },
      none) := by
  have h7 : ¬ p.SongIDs.length = 0 := by
    rw [List.length_eq_zero]; exact h5
  have h8 : validSongs m p.SongIDs = [] := by
    unfold validSongs
    rw [List.filter_eq_nil_iff]
    intro s hs
    simp [h6 s hs]
  have hm := addPlaylist_filter_mixtape p.ID p.SongIDs (m.SetPrefix "[AddPlaylist] ") []
  obtain ⟨hl, hg, _⟩ := addPlaylist_filter_unknown p.ID p.SongIDs
    (m.SetPrefix "[AddPlaylist] ") [] h6
  have hv := addPlaylist_filter_valid p.ID p.SongIDs (m.SetPrefix "[AddPlaylist] ") []
  rw [validSongs_SetPrefix, h8] at hv
  unfold addPlaylist
  simp only [Mixtape.SetPrefix] at h1 h2 h3 h4 h7 hm hl hg hv ⊢
  simp only [h1, h2, h3, h4, h7, hv, if_false, if_true, Bool.not_true, List.nil_append,
    List.length_nil, Mixtape.Printf, Bool.false_eq_true]
  simp only [Except.ok.injEq, Prod.mk.injEq, Mixtape.mk.injEq, and_true]
  refine ⟨hm, hl, ?_⟩
  rw [hg]
  simp [util.Logger.Printf, util.Logger.SetPrefix]

/-- C21 (counterexample): the `add` request of the test "when the new playlist
does not contain any songs from mixtape" is discarded, the catalog keeps its two
playlists, and three log lines are emitted for it, one per unknown song id and
one for the request: not exactly one. -/
theorem skip_and_log_counterexample :
    ∃ m', ApplyChanges (New fixture.catalog [])
        { PlaylistChanges := [⟨models.Add, fixture.playlistUnknownSongs⟩] } = .ok (m', none) ∧
      m'.mixtape.Playlists = fixture.catalog.Playlists ∧
      m'.logger =
        [util.LogCall.SetPrefix "[AddPlaylist] ",
         util.LogCall.Printf "song_id %s not in mixtape, from playlist_id %s, skipping\n"
           ["song_x", "playlist_x"],
         util.LogCall.Printf "song_id %s not in mixtape, from playlist_id %s, skipping\n"
           ["song_y", "playlist_x"],
         util.LogCall.Printf
           "playlist_id %s does not contain any songs from mixtape, skipping\n"
           ["playlist_x"]] ∧
      logLines m'.logger = 3 ∧
      ¬ logLines m'.logger = logLines (New fixture.catalog []).logger + 1 :=
  ⟨_, rfl, rfl, rfl, rfl, by decide⟩

/-- C21 (amended): skip-and-log, counted in log lines.  On every engine state,
each of the following discarded requests returns nil, leaves the catalog and
the lookup as they were, and emits exactly one log line: an `add` request that
fails one of the five checks made before its song ids are filtered (empty id,
id in the position index, empty user id, user id not in the user index, no song
ids), a `remove` request and an `add_songs` request whose id is empty or not in
the position index.  An `add` request that passes the five checks and lists no
key of the song index is discarded as well, with one line per listed song id
followed by one line for the request. -/
theorem skip_and_log_lines (m : Mixtape) (p : models.Playlist) :
    ((p.ID = "" ∨ m.lookup.playlists.has p.ID = true ∨ p.UserID = "" ∨
        m.lookup.users.has p.UserID = false ∨ p.SongIDs = []) →
      ∃ m', addPlaylist m p = .ok (m', none) ∧ m'.mixtape = m.mixtape ∧
        m'.lookup = m.lookup ∧ logLines m'.logger = logLines m.logger + 1) ∧
    (p.ID ≠ "" → m.lookup.playlists.has p.ID = false → p.UserID ≠ "" →
        m.lookup.users.has p.UserID = true → p.SongIDs ≠ [] →
        (∀ s ∈ p.SongIDs, m.lookup.songs.has s = false) →
      ∃ m', addPlaylist m p = .ok (m', none) ∧ m'.mixtape = m.mixtape ∧
        m'.lookup = m.lookup ∧
        logLines m'.logger = logLines m.logger + p.SongIDs.length + 1) ∧
    ((p.ID = "" ∨ m.lookup.playlists p.ID = none) →
      ∃ m', removePlaylist m p = .ok (m', none) ∧ m'.mixtape = m.mixtape ∧
        m'.lookup = m.lookup ∧ logLines m'.logger = logLines m.logger + 1) ∧
    ((p.ID = "" ∨ m.lookup.playlists p.ID = none) →
      ∃ m', addSongsToPlaylist m p = .ok (m', none) ∧ m'.mixtape = m.mixtape ∧
        m'.lookup = m.lookup ∧ logLines m'.logger = logLines m.logger + 1) := by
  refine ⟨?_, ?_, ?_, ?_⟩
  · intro h
    obtain ⟨f, v, e⟩ := addPlaylist_check_log m p h
    exact ⟨_, e, rfl, rfl, logLines_one _ _ _ _⟩
  · intro h1 h2 h3 h4 h5 h6
    refine ⟨_, addPlaylist_unknown_songs_log m p h1 h2 h3 h4 h5 h6, rfl, rfl, ?_⟩
    show logLines (m.logger ++ _) = _
    rw [logLines_append, logLines_append, logLines_append]
    have hmap : ∀ (songs : List String), logLines (songs.map (fun s =>
        util.LogCall.Printf "song_id %s not in mixtape, from playlist_id %s, skipping\n"
          [s, p.ID])) = songs.length := by
      intro songs
      induction songs with
      | nil => rfl
      | cons s rest ih =>
        rw [List.map_cons, List.length_cons, ← ih]
        show logLines ([_] ++ _) = _
        rw [logLines_append]
        show 1 + _ = _
        omega
    rw [hmap]
    show logLines m.logger + (0 + p.SongIDs.length + 1) = _
    omega
  · intro h
    obtain ⟨f, v, e⟩ := removePlaylist_skip_log m p h
    exact ⟨_, e, rfl, rfl, logLines_one _ _ _ _⟩
  · intro h
    obtain ⟨f, v, e⟩ := addSongsToPlaylist_skip_log m p h
    exact ⟨_, e, rfl, rfl, logLines_one _ _ _ _⟩

theorem skip_and_log_lines_witness :
    (∃ m', removePlaylist (New fixture.catalog []) fixture.playlistX = .ok (m', none) ∧
        m'.mixtape = (New fixture.catalog []).mixtape ∧
        m'.lookup = (New fixture.catalog []).lookup ∧
        logLines m'.logger = logLines (New fixture.catalog []).logger + 1) ∧
      (∃ m', addPlaylist (New fixture.catalog []) fixture.playlistUnknownSongs =
          .ok (m', none) ∧
        m'.mixtape = (New fixture.catalog []).mixtape ∧
        m'.lookup = (New fixture.catalog []).lookup ∧
        logLines m'.logger = logLines (New fixture.catalog []).logger +
          fixture.playlistUnknownSongs.SongIDs.length + 1) :=
  ⟨(skip_and_log_lines (New fixture.catalog []) fixture.playlistX).2.2.1 (Or.inr rfl),
    (skip_and_log_lines (New fixture.catalog []) fixture.playlistUnknownSongs).2.1
      (by decide) rfl (by decide) rfl (by decide) (by decide)⟩

end mixtape
